import Mathlib

/-!
# sub2mihomo: the subscription parser, embedded in Lean

A shallow embedding of `internal/parsers/proxy_parser.go` (and of the keyword
handling of `internal/handlers/convert_handler.go`), followed by theorems about it.

Go strings are byte sequences, so a string is a `List (Fin 256)`.  The pieces of the Go
standard library the parser calls (`strings`, `unicode/utf8`, `encoding/base64`,
`net/url`, `strconv`, `bufio`) are modelled after their Go implementation in the
namespaces of the same name.  The conversion of a `float64` to `int` discards the
fraction.  `encoding/json`, the Unicode case tables, the result of that conversion where
`int` cannot represent it and the verb `%v` of `fmt` are not modelled: they are fields of
`GoEnv`, and every definition that needs one takes the environment as an argument.
A Go result `(value, error)` is an `Option` or an `Except`, an index `-1` is `none`.
-/

namespace Sub2Mihomo

/-- A Go `byte`. -/
abbrev Byte := Fin 256

/-- A Go `string`: a sequence of bytes, not necessarily valid UTF-8. -/
abbrev Str := List Byte

/-! ## unicode/utf8 -/

namespace utf8

/-- The replacement rune U+FFFD, `utf8.RuneError`. -/
def RuneError : Nat := 0xFFFD

/-- Model of `utf8.AppendRune` (what `strings.Builder.WriteRune` appends): the UTF-8
encoding of `r`, and the encoding of U+FFFD for a surrogate or an out-of-range rune. -/
def AppendRune (r : Nat) : Str :=
  if r < 0x80 then [Fin.ofNat r]
  else if r < 0x800 then [Fin.ofNat (0xC0 + r / 64), Fin.ofNat (0x80 + r % 64)]
  else if 0x10FFFF < r ∨ (0xD800 ≤ r ∧ r ≤ 0xDFFF) then [0xEF, 0xBF, 0xBD]
  else if r < 0x10000 then
    [Fin.ofNat (0xE0 + r / 4096), Fin.ofNat (0x80 + r / 64 % 64), Fin.ofNat (0x80 + r % 64)]
  else
    [Fin.ofNat (0xF0 + r / 262144), Fin.ofNat (0x80 + r / 4096 % 64),
     Fin.ofNat (0x80 + r / 64 % 64), Fin.ofNat (0x80 + r % 64)]

/-- Model of `utf8.DecodeRuneInString`: the first rune of `s` and its width in bytes.
An empty string gives `(RuneError, 0)`, an invalid encoding `(RuneError, 1)`. -/
def DecodeRuneInString : Str → Nat × Nat
  | [] => (RuneError, 0)
  | s0 :: t =>
    if s0 < 0x80 then (s0.val, 1)
    else if s0 < 0xC2 ∨ 0xF4 < s0 then (RuneError, 1)
    else
      let sz : Nat := if s0 < 0xE0 then 2 else if s0 < 0xF0 then 3 else 4
      let lo : Byte := if s0 = 0xE0 then 0xA0 else if s0 = 0xF0 then 0x90 else 0x80
      let hi : Byte := if s0 = 0xED then 0x9F else if s0 = 0xF4 then 0x8F else 0xBF
      if t.length + 1 < sz then (RuneError, 1)
      else
        match t with
        | [] => (RuneError, 1)
        | s1 :: t1 =>
          if s1 < lo ∨ hi < s1 then (RuneError, 1)
          else if sz ≤ 2 then ((s0.val % 32) * 64 + s1.val % 64, 2)
          else
            match t1 with
            | [] => (RuneError, 1)
            | s2 :: t2 =>
              if s2 < 0x80 ∨ 0xBF < s2 then (RuneError, 1)
              else if sz ≤ 3 then
                ((s0.val % 16) * 4096 + (s1.val % 64) * 64 + s2.val % 64, 3)
              else
                match t2 with
                | [] => (RuneError, 1)
                | s3 :: _ =>
                  if s3 < 0x80 ∨ 0xBF < s3 then (RuneError, 1)
                  else
                    ((s0.val % 8) * 262144 + (s1.val % 64) * 4096 + (s2.val % 64) * 64
                      + s3.val % 64, 4)

/-- The runes a Go `for _, r := range s` loop visits: `rangeRunes s 0`.  The counter is
the number of bytes still to skip because they belong to the rune decoded last. -/
def rangeRunes : Str → Nat → List Nat
  | [], _ => []
  | _ :: t, k + 1 => rangeRunes t k
  | b :: t, 0 =>
    (DecodeRuneInString (b :: t)).1 :: rangeRunes t ((DecodeRuneInString (b :: t)).2 - 1)

/-- Model of `utf8.DecodeLastRuneInString`: the last rune of `s` and its width. -/
def DecodeLastRuneInString (s : Str) : Nat × Nat :=
  match s.reverse with
  | [] => (RuneError, 0)
  | last :: _ =>
    if last < 0x80 then (last.val, 1)
    else
      let e := s.length
      let lim := e - 4
      -- the candidate starts, nearest first: end-2, end-3, end-4 (not below lim)
      let cands := [e - 2, e - 3, e - 4].filter (fun i => decide (lim ≤ i ∧ i + 2 ≤ e))
      let start :=
        match cands.find? (fun i => decide ((s.getD i 0).val / 64 ≠ 2)) with
        | some i => i
        | none => if lim = 0 then 0 else lim - 1
      let rs := DecodeRuneInString (s.drop start)
      if start + rs.2 ≠ e then (RuneError, 1) else rs

end utf8

/-- A string constant of the source: the UTF-8 bytes of a Lean string literal. -/
def lit (s : String) : Str :=
  s.toList.foldr (fun c acc => utf8.AppendRune c.toNat ++ acc) []

/-! ## strings -/

namespace strings

/-- Model of `strings.HasPrefix`. -/
def HasPrefix (s pre : Str) : Bool := pre.isPrefixOf s

/-- Model of `strings.TrimPrefix`. -/
def TrimPrefix (s pre : Str) : Str := if HasPrefix s pre then s.drop pre.length else s

/-- Model of `strings.Index`: the position of the first occurrence of `sep` in `s`;
`none` stands for Go's `-1`. -/
def Index : Str → Str → Option Nat
  | [], sep => if sep.isPrefixOf [] then some 0 else none
  | c :: t, sep => if sep.isPrefixOf (c :: t) then some 0 else (Index t sep).map (· + 1)

/-- Model of `strings.LastIndex`: the position of the last occurrence of `sep`. -/
def LastIndex : Str → Str → Option Nat
  | [], sep => if sep.isPrefixOf [] then some 0 else none
  | c :: t, sep =>
    match LastIndex t sep with
    | some i => some (i + 1)
    | none => if sep.isPrefixOf (c :: t) then some 0 else none

/-- Model of `strings.Contains`. -/
def Contains (s substr : Str) : Bool := (Index s substr).isSome

/-- Model of `strings.Split(s, sep)` for a one-byte separator, the only kind the source
uses (`":"`, `"&"`, `","`): the pieces between the separators, at least one. -/
def Split : Str → Byte → List Str
  | [], _ => [[]]
  | c :: t, sep =>
    if c = sep then [] :: Split t sep
    else
      match Split t sep with
      | [] => [[c]]
      | p :: ps => (c :: p) :: ps

/-- Model of `strings.Join`. -/
def Join : List Str → Str → Str
  | [], _ => []
  | [p], _ => p
  | p :: q :: ps, sep => p ++ sep ++ Join (q :: ps) sep

/-- The loop of `strings.Replace(s, old, new, -1)` for a non-empty `old`; the counter is
the number of bytes still to skip because they belong to the occurrence replaced last. -/
def replaceFrom (old new : Str) : Str → Nat → Str
  | [], _ => []
  | _ :: t, k + 1 => replaceFrom old new t k
  | c :: t, 0 =>
    if old.isPrefixOf (c :: t) then new ++ replaceFrom old new t (old.length - 1)
    else c :: replaceFrom old new t 0

/-- Model of `strings.ReplaceAll(s, old, new)`, that is `strings.Replace(s, old, new, -1)`,
for a non-empty `old`: the non-overlapping occurrences are replaced from left to right. -/
def ReplaceAll (s old new : Str) : Str := replaceFrom old new s 0

/-- Model of `strings.Replace(s, old, new, 1)`: only the first occurrence is replaced. -/
def ReplaceFirst (s old new : Str) : Str :=
  match Index s old with
  | some i => s.take i ++ new ++ s.drop (i + old.length)
  | none => s

/-- Model of `strings.TrimRight(s, cutset)` for a cutset of one ASCII byte. -/
def TrimRight (s : Str) (c : Byte) : Str := (s.reverse.dropWhile (fun b => b = c)).reverse

/-- The table `asciiSpace` of package `strings`. -/
def asciiSpace (c : Byte) : Bool :=
  c = 9 || c = 10 || c = 11 || c = 12 || c = 13 || c = 32

/-- Model of `unicode.IsSpace`. -/
def IsSpace (r : Nat) : Bool :=
  r = 9 || r = 10 || r = 11 || r = 12 || r = 13 || r = 32 || r = 0x85 || r = 0xA0
    || r = 0x1680 || (0x2000 ≤ r && r ≤ 0x200A) || r = 0x2028 || r = 0x2029 || r = 0x202F
    || r = 0x205F || r = 0x3000

/-- Model of `strings.TrimLeftFunc(s, unicode.IsSpace)`; the counter is the number of
bytes still to drop because they belong to the space rune decoded last. -/
def trimLeftSpace : Str → Nat → Str
  | [], _ => []
  | _ :: t, k + 1 => trimLeftSpace t k
  | c :: t, 0 =>
    if IsSpace (utf8.DecodeRuneInString (c :: t)).1 then
      trimLeftSpace t ((utf8.DecodeRuneInString (c :: t)).2 - 1)
    else c :: t

/-- Model of `strings.TrimRightFunc(s, unicode.IsSpace)`: runes are decoded from the end
with `utf8.DecodeLastRuneInString` while they are spaces.  The fuel is the length. -/
def trimRightSpace : Nat → Str → Str
  | 0, s => s
  | fuel + 1, s =>
    if s = [] then []
    else if IsSpace (utf8.DecodeLastRuneInString s).1 then
      trimRightSpace fuel (s.take (s.length - (utf8.DecodeLastRuneInString s).2))
    else s

/-- Second loop of `strings.TrimSpace`, on the string reversed: trailing ASCII spaces
are dropped one by one; at a non-ASCII byte the rest goes to `TrimRightFunc`. -/
def trimSpaceEnd : Str → Str
  | [] => []
  | c :: t =>
    if 0x80 ≤ c.val then trimRightSpace (c :: t).length (c :: t).reverse
    else if asciiSpace c then trimSpaceEnd t
    else (c :: t).reverse

/-- Model of `strings.TrimSpace`: leading ASCII spaces are dropped one by one; at a
non-ASCII byte the rest goes to `TrimFunc(_, unicode.IsSpace)`; then the same from the
end. -/
def TrimSpace : Str → Str
  | [] => []
  | c :: t =>
    if 0x80 ≤ c.val then
      trimRightSpace (c :: t).length (trimLeftSpace (c :: t) 0)
    else if asciiSpace c then TrimSpace t
    else trimSpaceEnd (c :: t).reverse

/-- Model of `strings.ToLower`; `lowerRune` stands for `unicode.ToLower`.  An all-ASCII
string is lowered byte by byte, any other string rune by rune (`strings.Map`). -/
def ToLower (lowerRune : Nat → Nat) (s : Str) : Str :=
  if s.all (fun c => decide (c.val < 0x80)) then
    s.map (fun c => if 65 ≤ c.val ∧ c.val ≤ 90 then c + 32 else c)
  else
    (utf8.rangeRunes s 0).foldl (fun b r => b ++ utf8.AppendRune (lowerRune r)) []

end strings

/-! ## encoding/base64 -/

namespace base64

/-- The alphabet of `base64.StdEncoding`. -/
def encodeStd : Str :=
  lit "ABCDEFGHIJKLMNOPQRSTUVWXYZabcdefghijklmnopqrstuvwxyz0123456789+/"

/-- The alphabet of `base64.URLEncoding`. -/
def encodeURL : Str :=
  lit "ABCDEFGHIJKLMNOPQRSTUVWXYZabcdefghijklmnopqrstuvwxyz0123456789-_"

/-- The padding character `'='` of both encodings. -/
def padChar : Byte := 61

/-- The table `enc.encode`: the character of a 6-bit value. -/
def encodeChar (alphabet : Str) (v : Nat) : Byte := alphabet.getD v 0

/-- The table `enc.decodeMap`: the 6-bit value of an alphabet character; `none` stands
for the entry `0xff` of every other byte. -/
def decodeMap (alphabet : Str) (c : Byte) : Option Nat :=
  if c ∈ alphabet then some (alphabet.indexOf c) else none

/-- Model of `(*Encoding).EncodeToString` for a padded encoding. -/
def EncodeToString (alphabet : Str) : Str → Str
  | [] => []
  | [a] =>
    [encodeChar alphabet (a.val / 4), encodeChar alphabet (a.val % 4 * 16), padChar, padChar]
  | [a, b] =>
    [encodeChar alphabet (a.val / 4), encodeChar alphabet (a.val % 4 * 16 + b.val / 16),
     encodeChar alphabet (b.val % 16 * 4), padChar]
  | a :: b :: c :: rest =>
    encodeChar alphabet (a.val / 4) :: encodeChar alphabet (a.val % 4 * 16 + b.val / 16)
      :: encodeChar alphabet (b.val % 16 * 4 + c.val / 64) :: encodeChar alphabet (c.val % 64)
      :: EncodeToString alphabet rest

/-- Model of `(*Encoding).EncodeToString` for an unpadded encoding (`RawStdEncoding`,
`RawURLEncoding`): the characters of `EncodeToString` before the padding. -/
def encodeRaw (alphabet : Str) : Str → Str
  | [] => []
  | [a] => [encodeChar alphabet (a.val / 4), encodeChar alphabet (a.val % 4 * 16)]
  | [a, b] =>
    [encodeChar alphabet (a.val / 4), encodeChar alphabet (a.val % 4 * 16 + b.val / 16),
     encodeChar alphabet (b.val % 16 * 4)]
  | a :: b :: c :: rest =>
    encodeChar alphabet (a.val / 4) :: encodeChar alphabet (a.val % 4 * 16 + b.val / 16)
      :: encodeChar alphabet (b.val % 16 * 4 + c.val / 64) :: encodeChar alphabet (c.val % 64)
      :: encodeRaw alphabet rest

/-- The number of padding characters `EncodeToString` appends. -/
def padLen : Str → Nat
  | [] => 0
  | [_] => 2
  | [_, _] => 1
  | _ :: _ :: _ :: rest => padLen rest

/-- The newline skipping of `decodeQuantum` after a padding character. -/
def skipNewlines : Str → Str
  | [] => []
  | c :: rest => if c = 10 ∨ c = 13 then skipNewlines rest else c :: rest

/-- The 24-bit value `dbuf[0]<<18 | dbuf[1]<<12 | dbuf[2]<<6 | dbuf[3]` of a quantum. -/
def quantumVal (a b c d : Nat) : Nat := a * 262144 + b * 4096 + c * 64 + d

/-- The three bytes of a full quantum, from the 6-bit values read before (`acc`, three of
them) and the fourth one. -/
def fullQuantum : List Nat → Nat → Str
  | [a, b, c], d =>
    [Fin.ofNat (quantumVal a b c d / 65536), Fin.ofNat (quantumVal a b c d / 256),
     Fin.ofNat (quantumVal a b c d)]
  | _, _ => []

/-- The end of `decodeQuantum` at a byte `ch` that is neither in the alphabet nor a
newline: it must be the padding character, after two or three 6-bit values (`acc`); after
two a second padding character must follow; only newlines may follow the padding. -/
def decodePadding (ch : Byte) (rest : Str) (acc : List Nat) : Option Str :=
  if ch ≠ padChar then none
  else
    match acc with
    | [a, b] =>
      match skipNewlines rest with
      | [] => none
      | p :: rest2 =>
        if p ≠ padChar then none
        else if skipNewlines rest2 ≠ [] then none
        else some [Fin.ofNat (quantumVal a b 0 0 / 65536)]
    | [a, b, c] =>
      if skipNewlines rest ≠ [] then none
      else some [Fin.ofNat (quantumVal a b c 0 / 65536), Fin.ofNat (quantumVal a b c 0 / 256)]
    | _ => none

/-- Model of `(*Encoding).Decode` with `decodeQuantum`, for a padded, non-strict encoding
(`StdEncoding`, `URLEncoding`).  `acc` holds the 6-bit values read so far in the current
quantum (fewer than four).  `\r` and `\n` are skipped, padding is accepted only where the
last quantum needs it and only at the end of the input; `none` is a `CorruptInputError`. -/
def decodeFrom (alphabet : Str) : Str → List Nat → Option Str
  | [], acc => if acc = [] then some [] else none
  | ch :: rest, acc =>
    match decodeMap alphabet ch with
    | some v =>
      if acc.length = 3 then
        (decodeFrom alphabet rest []).map (fun out => fullQuantum acc v ++ out)
      else decodeFrom alphabet rest (acc ++ [v])
    | none =>
      if ch = 10 ∨ ch = 13 then decodeFrom alphabet rest acc
      else decodePadding ch rest acc

/-- Model of `(*Encoding).DecodeString`: the decoded bytes, or `none` when Go returns an
error. -/
def DecodeString (alphabet : Str) (s : Str) : Option Str := decodeFrom alphabet s []

/-- Same as `base64.StdEncoding.DecodeString`. -/
def StdEncoding.DecodeString (s : Str) : Option Str := base64.DecodeString encodeStd s

/-- Same as `base64.URLEncoding.DecodeString`. -/
def URLEncoding.DecodeString (s : Str) : Option Str := base64.DecodeString encodeURL s

end base64

/-! ## net/url and strconv -/

namespace url

/-- The test `ishex` of package `net/url`. -/
def ishex (c : Byte) : Bool :=
  (48 ≤ c.val && c.val ≤ 57) || (97 ≤ c.val && c.val ≤ 102) || (65 ≤ c.val && c.val ≤ 70)

/-- The function `unhex` of package `net/url`. -/
def unhex (c : Byte) : Nat :=
  if 48 ≤ c.val ∧ c.val ≤ 57 then c.val - 48
  else if 97 ≤ c.val ∧ c.val ≤ 102 then c.val - 97 + 10
  else if 65 ≤ c.val ∧ c.val ≤ 70 then c.val - 65 + 10
  else 0

/-- First pass of `unescape`: every `%` is followed by two hexadecimal digits. -/
def escapesValid : Str → Nat → Bool
  | [], _ => true
  | _ :: t, k + 1 => escapesValid t k
  | c :: t, 0 =>
    if c = 37 then
      match t with
      | a :: b :: _ => ishex a && ishex b && escapesValid t 2
      | _ => false
    else escapesValid t 0

/-- Second pass of `unescape` in query-component mode: `%XX` becomes the byte, `+` a
space. -/
def unescapeFrom : Str → Nat → Str
  | [], _ => []
  | _ :: t, k + 1 => unescapeFrom t k
  | c :: t, 0 =>
    if c = 37 then
      match t with
      | a :: b :: _ => Fin.ofNat (unhex a * 16 + unhex b) :: unescapeFrom t 2
      | _ => []
    else if c = 43 then 32 :: unescapeFrom t 0
    else c :: unescapeFrom t 0

/-- Model of `url.QueryUnescape`; `none` is an `EscapeError`. -/
def QueryUnescape (s : Str) : Option Str :=
  if escapesValid s 0 then some (unescapeFrom s 0) else none

end url

namespace strconv

/-- Decimal digits of a natural number, most significant first; `fuel` bounds their
number. -/
def digitsFuel : Nat → Nat → Str → Str
  | 0, _, acc => acc
  | fuel + 1, n, acc =>
    if n < 10 then Fin.ofNat (48 + n) :: acc
    else digitsFuel fuel (n / 10) (Fin.ofNat (48 + n % 10) :: acc)

/-- Model of `strconv.Itoa` (what `%d` prints). -/
def Itoa (i : Int) : Str :=
  match i with
  | Int.ofNat n => digitsFuel (n + 1) n []
  | Int.negSucc n => 45 :: digitsFuel (n + 2) (n + 1) []

/-- Model of `strconv.Atoi` on a 64-bit platform: an optional sign, then one or more
decimal digits, the value within the range of `int`; `none` is a `*NumError`. -/
def Atoi (s : Str) : Option Int :=
  let neg : Bool := match s with
    | c :: _ => c = 45
    | [] => false
  let digits : Str := match s with
    | c :: t => if c = 43 ∨ c = 45 then t else s
    | [] => s
  if digits = [] then none
  else if digits.all (fun c => decide (48 ≤ c.val ∧ c.val ≤ 57)) then
    let n : Nat := digits.foldl (fun acc c => acc * 10 + (c.val - 48)) 0
    let v : Int := if neg then -(n : Int) else (n : Int)
    if -9223372036854775808 ≤ v ∧ v ≤ 9223372036854775807 then some v else none
  else none

end strconv

/-! ## bufio -/

namespace bufio

/-- The function `dropCR` of `bufio.ScanLines`: one trailing `\r` is dropped. -/
def dropCR (data : Str) : Str :=
  match data.reverse with
  | c :: t => if c = 13 then t.reverse else data
  | [] => data

/-- The constant `bufio.MaxScanTokenSize`, the largest buffer a default `Scanner` uses. -/
def MaxScanTokenSize : Nat := 64 * 1024

/-- The pieces of `bufio.ScanLines` that are tokens: every piece that ends in a newline,
and the last piece when it is not empty. -/
def lineTokens : List Str → List Str
  | [] => []
  | [p] => if p = [] then [] else [p]
  | p :: q :: ps => p :: lineTokens (q :: ps)

/-- Model of the loop `for scanner.Scan() { ... scanner.Text() ... }` followed by
`scanner.Err()`, for a default `bufio.Scanner` (split function `ScanLines`) over a
`strings.Reader`: the lines of `s`, each without its `\n` and without one trailing `\r`.
The scanner fails with `ErrTooLong` (here `none`) when its buffer of `MaxScanTokenSize`
bytes is full and holds no newline, that is when a line has `MaxScanTokenSize` bytes or
more; the caller discards what it collected before the failure. -/
def scanLines (s : Str) : Option (List Str) :=
  if (strings.Split s 10).any (fun p => decide (MaxScanTokenSize ≤ p.length)) then none
  else some ((lineTokens (strings.Split s 10)).map dropCR)

end bufio

/-! ## Values, maps and the environment -/

/-- A Go `float64`, given by its IEEE-754 bits. -/
structure Float64 where
  /-- The 64 bits of the number. -/
  bits : Nat
deriving DecidableEq

namespace Float64

/-- The integer part of the number: its value with the fraction discarded, that is the
value rounded toward zero; `none` for an infinity or a NaN.  The bits are those of
IEEE-754 binary64: the sign, 11 bits of exponent and 52 bits of fraction. -/
def trunc (f : Float64) : Option Int :=
  let exponent := f.bits / 2 ^ 52 % 2048
  let fraction := f.bits % 2 ^ 52
  if exponent = 2047 then none
  else
    let magnitude : Nat :=
      if exponent = 0 then 0
      else if 1075 ≤ exponent then (2 ^ 52 + fraction) * 2 ^ (exponent - 1075)
      else (2 ^ 52 + fraction) / 2 ^ (1075 - exponent)
    some (if f.bits / 2 ^ 63 % 2 = 1 then -(magnitude : Int) else (magnitude : Int))

end Float64

/-- The dynamic values (`interface{}`) the parser stores in a record or reads from the
decoded JSON: `nil`, `bool`, `int`, `float64`, `string`, a slice, and a map with string
keys, kept as the list of its entries. -/
inductive Value where
  | null : Value
  | bool : Bool → Value
  | int : Int → Value
  | float : Float64 → Value
  | str : Str → Value
  | list : List Value → Value
  | map : List (Str × Value) → Value

/-- A Go map with string keys, kept as the list of its entries in insertion order; a key
occurs at most once. -/
abbrev GoMapOf (α : Type) := List (Str × α)

/-- The type `map[string]interface{}` of a proxy record and of the document. -/
abbrev GoMap := GoMapOf Value

namespace GoMapOf

/-- The lookup `v, ok := m[k]`. -/
def get {α : Type} : GoMapOf α → Str → Option α
  | [], _ => none
  | (k1, v) :: t, k => if k1 = k then some v else get t k

/-- The assignment `m[k] = v`. -/
def set {α : Type} : GoMapOf α → Str → α → GoMapOf α
  | [], k, v => [(k, v)]
  | (k1, v1) :: t, k, v => if k1 = k then (k, v) :: t else (k1, v1) :: set t k v

end GoMapOf

/-- What the embedding takes as given from the Go runtime and standard library. -/
structure GoEnv where
  /-- The call `json.Unmarshal(data, &m)` with `m map[string]interface{}`: the decoded
  object (empty for the JSON text `null`), or `none` when it returns an error. -/
  jsonUnmarshal : Str → Option GoMap
  /-- The result of the conversion `int(f)` of a `float64` where the language leaves it to
  the implementation: `f` is a NaN or an infinity, or its integer part is outside the range
  of `int`. -/
  floatToInt : Float64 → Int
  /-- The call `fmt.Sprintf("%v", v)`. -/
  sprintV : Value → Str
  /-- The function `unicode.ToLower`. -/
  unicodeToLower : Nat → Nat

/-- The value of type `int` (64 bits) with the low 64 bits of `i`. -/
def wrapInt64 (i : Int) : Int :=
  (i + 9223372036854775808) % 18446744073709551616 - 9223372036854775808

/-- The conversion `int(f)` of a `float64` on a 64-bit platform: the fraction is discarded
(rounding toward zero); when `int` cannot represent the result, the conversion succeeds
with a value of type `int` that depends on the implementation. -/
def intOfFloat (env : GoEnv) (f : Float64) : Int :=
  match f.trunc with
  | some t =>
    if -9223372036854775808 ≤ t ∧ t ≤ 9223372036854775807 then t
    else wrapInt64 (env.floatToInt f)
  | none => wrapInt64 (env.floatToInt f)

/-- The errors the parser returns. -/
inductive Err where
  /-- `fmt.Errorf("unsupported proxy type: %s", proxyURL)`. -/
  | unsupported (proxyURL : Str)
  /-- A `base64.CorruptInputError`. -/
  | corruptInput
  /-- An error of `json.Unmarshal`. -/
  | json
  /-- `fmt.Errorf("invalid ssr format")`. -/
  | invalidSsr
  /-- A `*strconv.NumError` of `strconv.Atoi`. -/
  | numError
  /-- The scanner's `bufio.ErrTooLong`. -/
  | tooLong
deriving DecidableEq

/-! ## internal/parsers/proxy_parser.go -/

/-- `removeEmojis` removes emoji characters from a string: the runes of `str` that pass
the test of the source are written to the result. -/
def removeEmojis (str : Str) : Str :=
  (utf8.rangeRunes str 0).foldl
    (fun result r =>
      if r < 0x1F000 ∨ (r > 0x1F9FF ∧ (r < 0x2600 ∨ r > 0x27BF)) then
        result ++ utf8.AppendRune r
      else result) []

/-- `IsBase64` checks if a string is base64 encoded. -/
def IsBase64 (s : Str) : Bool := (base64.StdEncoding.DecodeString s).isSome

/-- The tag decoding block that `parseShadowsocks`, `parseVmess`, `parseTrojan` and
`parseVless` each apply to the text after `#`, and `parseShadowsocksR` to `remarks`:
a text with a `%` is passed to `url.QueryUnescape`, with the two literal replacements as
the fallback when that fails; then `removeEmojis`. -/
def decodeTag (tag : Str) : Str :=
  removeEmojis
    (if strings.Contains tag (lit "%") then
      match url.QueryUnescape tag with
      | some decodedTag => decodedTag
      | none =>
        strings.ReplaceAll (strings.ReplaceAll tag (lit "%20") (lit " "))
          (lit "%F0%9F%87%B9%F0%9F%87%BC") [0xF0, 0x9F, 0x87, 0xB9, 0xF0, 0x9F, 0x87, 0xBC]
    else tag)

/-- The tag extraction at the head of the four parsers: the decoded tag and the text
before the first `#` (the whole text and an empty tag when there is no `#`). -/
def splitTag (urlStr : Str) : Str × Str :=
  match strings.Index urlStr (lit "#") with
  | some idx => (decodeTag (urlStr.drop (idx + 1)), urlStr.take idx)
  | none => ([], urlStr)

/-- `parseQuery` parses query string parameters. -/
def parseQuery (query : Str) : GoMapOf Str :=
  (strings.Split query 38).foldl
    (fun params pair =>
      match strings.Index pair (lit "=") with
      | some idx =>
        params.set (pair.take idx)
          (strings.ReplaceAll (strings.ReplaceAll (pair.drop (idx + 1)) (lit "%3D") (lit "="))
            (lit "%26") (lit "&"))
      | none => params) []

/-- The padding loop of `parseShadowsocks`: `auth` followed by 0, 1, 2, 3 characters `=`
is decoded with `base64.StdEncoding`, and the first success is kept. -/
def decodePadded (auth : Str) : Option Str :=
  [0, 1, 2, 3].findSome? (fun i => base64.StdEncoding.DecodeString (auth ++ List.replicate i 61))

/-- The split `server`, `port` at the first `:` in `parseShadowsocks`. -/
def splitFirstColon (serverAndPort : Str) : Str × Str :=
  match strings.Index serverAndPort (lit ":") with
  | some idx2 => (serverAndPort.take idx2, serverAndPort.drop (idx2 + 1))
  | none => ([], [])

/-- The method and password `parseShadowsocks` takes from the text before `@`: when the
padding loop decodes it, the decoded text is split at its colons (the password keeps its
own colons); otherwise the text itself is split at its first `:`. -/
def ssAuth (authAndServer : Str) : Str × Str :=
  match decodePadded authAndServer with
  | some decodedAuth =>
    if 2 ≤ (strings.Split decodedAuth 58).length then
      ((strings.Split decodedAuth 58).headD [],
        strings.Join (strings.Split decodedAuth 58).tail (lit ":"))
    else ([], [])
  | none => splitFirstColon authAndServer

/-- The record `parseShadowsocks` returns. -/
def ssRecord (tag server port method password : Str) : GoMap :=
  [(lit "name", Value.str (if tag = [] then server ++ lit ":" ++ port else tag)),
   (lit "type", Value.str (lit "ss")),
   (lit "server", Value.str server),
   (lit "port", Value.str port),
   (lit "cipher", Value.str method),
   (lit "password", Value.str password)]

/-- `parseShadowsocks` parses a shadowsocks URL. -/
def parseShadowsocks (ssURL : Str) : Except Err GoMap :=
  let urlStr := strings.TrimPrefix ssURL (lit "ss://")
  let tag := (splitTag urlStr).1
  let urlStr := (splitTag urlStr).2
  match strings.Index urlStr (lit "@") with
  | some idx =>
    let authAndServer := urlStr.take idx
    let serverAndPort := urlStr.drop (idx + 1)
    let auth := ssAuth authAndServer
    let sp := splitFirstColon serverAndPort
    .ok (ssRecord tag sp.1 sp.2 auth.1 auth.2)
  | none =>
    -- the old format branch tests for `@` again
    match strings.Index urlStr (lit "@") with
    | some idx =>
      let encoded := urlStr.take idx
      let serverAndPort := urlStr.drop (idx + 1)
      match decodePadded encoded with
      | none => .error Err.corruptInput
      | some decoded =>
        let auth := splitFirstColon decoded
        let sp := splitFirstColon serverAndPort
        .ok (ssRecord tag sp.1 sp.2 auth.1 auth.2)
    | none => .ok (ssRecord tag [] [] [] [])

/-- The type assertion `v.(string)` on a looked-up entry, with `""` when it fails. -/
def asString : Option Value → Str
  | some (Value.str s) => s
  | _ => []

/-- The value `m[k]` of a `map[string]interface{}`: `nil` for a missing key. -/
def valueOf (m : GoMap) (k : Str) : Value :=
  match m.get k with
  | some v => v
  | none => Value.null

/-- The port of `parseVmess`: `strconv.Atoi` of the `port` string, else the `float64`
converted to `int`, else the default 443. -/
def vmessPort (env : GoEnv) (vmessData : GoMap) : Int :=
  match strconv.Atoi (asString (vmessData.get (lit "port"))) with
  | some port => port
  | none =>
    match vmessData.get (lit "port") with
    | some (Value.float portNum) => intOfFloat env portNum
    | _ => 443

/-- The `alterId` of `parseVmess`. -/
def vmessAlterId (env : GoEnv) (vmessData : GoMap) : Int :=
  match vmessData.get (lit "aid") with
  | some (Value.float aidNum) => intOfFloat env aidNum
  | some (Value.int aidNum) => aidNum
  | some _ => 0
  | none => 0

/-- The `ws-opts` of `parseVmess`, from `host` and `path` of the decoded object. -/
def vmessWsOpts (env : GoEnv) (vmessData : GoMap) : GoMap :=
  let wsOpts : GoMap := []
  let wsOpts :=
    match vmessData.get (lit "host") with
    | some host => wsOpts.set (lit "headers") (Value.map [(lit "Host", Value.str (env.sprintV host))])
    | none => wsOpts
  match vmessData.get (lit "path") with
  | some path => wsOpts.set (lit "path") path
  | none => wsOpts

/-- The handling of `net` in `parseVmess`. -/
def vmessNetwork (env : GoEnv) (vmessData proxy : GoMap) : GoMap :=
  match vmessData.get (lit "net") with
  | some net =>
    let proxy := proxy.set (lit "network") net
    match net with
    | Value.str n =>
      if n = lit "ws" then
        if 0 < (vmessWsOpts env vmessData).length then
          proxy.set (lit "ws-opts") (Value.map (vmessWsOpts env vmessData))
        else proxy
      else if n = lit "grpc" then
        match vmessData.get (lit "path") with
        | some path => proxy.set (lit "grpc-opts") (Value.map [(lit "grpc-service-name", path)])
        | none => proxy
      else proxy
    | _ => proxy
  | none => proxy

/-- `parseVmess` parses a vmess URL. -/
def parseVmess (env : GoEnv) (vmessURL : Str) : Except Err GoMap :=
  let urlStr := strings.TrimPrefix vmessURL (lit "vmess://")
  let tag := (splitTag urlStr).1
  let urlStr := (splitTag urlStr).2
  match base64.StdEncoding.DecodeString urlStr with
  | none => .error Err.corruptInput
  | some decoded =>
    match env.jsonUnmarshal decoded with
    | none => .error Err.json
    | some vmessData =>
      let server := asString (vmessData.get (lit "add"))
      let port := vmessPort env vmessData
      let proxy : GoMap :=
        [(lit "name", Value.str tag),
         (lit "type", Value.str (lit "vmess")),
         (lit "server", Value.str server),
         (lit "port", Value.int port),
         (lit "uuid", valueOf vmessData (lit "id"))]
      let proxy := proxy.set (lit "alterId") (Value.int (vmessAlterId env vmessData))
      let proxy :=
        if tag = [] then
          proxy.set (lit "name") (Value.str (server ++ lit ":" ++ strconv.Itoa port))
        else proxy
      let proxy :=
        match vmessData.get (lit "scy") with
        | some security => proxy.set (lit "cipher") security
        | none => proxy.set (lit "cipher") (Value.str (lit "auto"))
      let proxy :=
        match vmessData.get (lit "tls") with
        | some (Value.str tls) =>
          if tls = lit "tls" then proxy.set (lit "tls") (Value.bool true) else proxy
        | _ => proxy
      let proxy :=
        match vmessData.get (lit "sni") with
        | some sni => proxy.set (lit "servername") sni
        | none => proxy
      .ok (vmessNetwork env vmessData proxy)

/-- The authority split shared by `parseTrojan` and `parseVless`: the text before the
first `@`, then server and port at the last `:` before the first `?`, and the query after
that `?`.  The result is `(credential, server, port, query)`, all empty without `@`. -/
def splitAuthority (urlStr : Str) : Str × Str × Str × Str :=
  match strings.Index urlStr (lit "@") with
  | some idx =>
    let rest := urlStr.drop (idx + 1)
    let query :=
      match strings.Index rest (lit "?") with
      | some idx2 => rest.drop (idx2 + 1)
      | none => []
    let rest :=
      match strings.Index rest (lit "?") with
      | some idx2 => rest.take idx2
      | none => rest
    match strings.LastIndex rest (lit ":") with
    | some idx2 => (urlStr.take idx, rest.take idx2, rest.drop (idx2 + 1), query)
    | none => (urlStr.take idx, [], [], query)
  | none => ([], [], [], [])

/-- `parseTrojan` parses a trojan URL. -/
def parseTrojan (trojanURL : Str) : Except Err GoMap :=
  let urlStr := strings.TrimPrefix trojanURL (lit "trojan://")
  let tag := (splitTag urlStr).1
  let urlStr := (splitTag urlStr).2
  let password := (splitAuthority urlStr).1
  let server := (splitAuthority urlStr).2.1
  let port := (splitAuthority urlStr).2.2.1
  let query := (splitAuthority urlStr).2.2.2
  let tag := if tag = [] then server ++ lit ":" ++ port else tag
  let proxy : GoMap :=
    [(lit "name", Value.str tag),
     (lit "type", Value.str (lit "trojan")),
     (lit "server", Value.str server),
     (lit "port", Value.str port),
     (lit "password", Value.str password),
     (lit "sni", Value.str server),
     (lit "skip-cert-verify", Value.bool true)]
  let params := parseQuery query
  let proxy :=
    match params.get (lit "sni") with
    | some sni => proxy.set (lit "sni") (Value.str sni)
    | none => proxy
  let proxy :=
    match params.get (lit "alpn") with
    | some alpn => proxy.set (lit "alpn") (Value.str alpn)
    | none => proxy
  let proxy :=
    match params.get (lit "fp") with
    | some fp => proxy.set (lit "client-fingerprint") (Value.str fp)
    | none => proxy
  let proxy :=
    match params.get (lit "allowInsecure") with
    | some allowInsecure =>
      if allowInsecure = lit "1" ∨ allowInsecure = lit "true" then
        proxy.set (lit "skip-cert-verify") (Value.bool true)
      else proxy.set (lit "skip-cert-verify") (Value.bool false)
    | none => proxy
  .ok proxy

/-- The decoding of the `path` parameter in `parseVless`. -/
def vlessPath (path : Str) : Str :=
  if strings.Contains path (lit "%") then
    match url.QueryUnescape path with
    | some decodedTemp => decodedTemp
    | none =>
      strings.ReplaceAll
        (strings.ReplaceAll
          (strings.ReplaceAll (strings.ReplaceAll path (lit "%2F") (lit "/")) (lit "%3F") (lit "?"))
          (lit "%3D") (lit "="))
        (lit "%26") (lit "&")
  else path

/-- The `ws-opts` of `parseVless`, from the parameters `host` and `path`. -/
def vlessWsOpts (params : GoMapOf Str) : GoMap :=
  let wsOpts : GoMap := []
  let wsOpts :=
    match params.get (lit "host") with
    | some host => wsOpts.set (lit "headers") (Value.map [(lit "Host", Value.str host)])
    | none => wsOpts
  match params.get (lit "path") with
  | some path => wsOpts.set (lit "path") (Value.str (vlessPath path))
  | none => wsOpts

/-- The handling of the parameter `type` in `parseVless`. -/
def vlessNetwork (params : GoMapOf Str) (proxy : GoMap) : GoMap :=
  match params.get (lit "type") with
  | some typeParam =>
    let proxy := proxy.set (lit "network") (Value.str typeParam)
    if typeParam = lit "ws" then
      if 0 < (vlessWsOpts params).length then
        proxy.set (lit "ws-opts") (Value.map (vlessWsOpts params))
      else proxy
    else if typeParam = lit "grpc" then
      match params.get (lit "serviceName") with
      | some serviceName =>
        proxy.set (lit "grpc-opts") (Value.map [(lit "grpc-service-name", Value.str serviceName)])
      | none => proxy
    else proxy
  | none => proxy

/-- `parseVless` parses a vless URL. -/
def parseVless (vlessURL : Str) : Except Err GoMap :=
  let urlStr := strings.TrimPrefix vlessURL (lit "vless://")
  let tag := (splitTag urlStr).1
  let urlStr := (splitTag urlStr).2
  let uuid := (splitAuthority urlStr).1
  let server := (splitAuthority urlStr).2.1
  let port := (splitAuthority urlStr).2.2.1
  let query := (splitAuthority urlStr).2.2.2
  let tag := if tag = [] then server ++ lit ":" ++ port else tag
  let proxy : GoMap :=
    [(lit "name", Value.str tag),
     (lit "type", Value.str (lit "vless")),
     (lit "server", Value.str server),
     (lit "port", Value.str port),
     (lit "uuid", Value.str uuid),
     (lit "skip-cert-verify", Value.bool true)]
  let params := parseQuery query
  let proxy :=
    match params.get (lit "flow") with
    | some flow => proxy.set (lit "flow") (Value.str flow)
    | none => proxy
  let proxy :=
    match params.get (lit "sni") with
    | some sni => proxy.set (lit "servername") (Value.str sni)
    | none => proxy
  let proxy := vlessNetwork params proxy
  let proxy :=
    match params.get (lit "alpn") with
    | some alpn => proxy.set (lit "alpn") (Value.str alpn)
    | none => proxy
  let proxy :=
    match params.get (lit "fp") with
    | some fp => proxy.set (lit "client-fingerprint") (Value.str fp)
    | none => proxy
  .ok proxy

/-- `parseTrojanGo` parses a trojan-go URL. -/
def parseTrojanGo (trojanGoURL : Str) : Except Err GoMap :=
  parseTrojan (strings.ReplaceFirst trojanGoURL (lit "trojan-go://") (lit "trojan://"))

/-- The two decoding attempts of `parseShadowsocksR`: the text without its trailing `=`
is decoded with `base64.URLEncoding`, and with `base64.StdEncoding` when that fails. -/
def decodeUrlThenStd (s : Str) : Option Str :=
  match base64.URLEncoding.DecodeString (strings.TrimRight s 61) with
  | some decoded => some decoded
  | none => base64.StdEncoding.DecodeString (strings.TrimRight s 61)

/-- The value `params[k]` of a `map[string]string`: `""` for a missing key. -/
def paramOf (params : GoMapOf Str) (k : Str) : Str :=
  match params.get k with
  | some v => v
  | none => []

/-- The optional parameter `obfsparam` or `protoparam` of `parseShadowsocksR`: when it is
not empty and decodes, the decoded text is stored under `key`. -/
def ssrParam (params : GoMapOf Str) (name key : Str) (proxy : GoMap) : GoMap :=
  if paramOf params name ≠ [] then
    match decodeUrlThenStd (paramOf params name) with
    | some decoded => proxy.set key (Value.str decoded)
    | none => proxy
  else proxy

/-- `parseShadowsocksR` parses a shadowsocksR URL. -/
def parseShadowsocksR (ssrURL : Str) : Except Err GoMap :=
  let urlStr := strings.TrimPrefix ssrURL (lit "ssr://")
  match decodeUrlThenStd urlStr with
  | none => .error Err.corruptInput
  | some decoded =>
    match strings.Split decoded 58 with
    | server :: portStr :: protocol :: method :: obfs :: base64Pass0 :: _ =>
      let additionalParams :=
        match strings.Index base64Pass0 (lit "/?") with
        | some idx => base64Pass0.drop (idx + 2)
        | none => []
      let base64Pass :=
        match strings.Index base64Pass0 (lit "/?") with
        | some idx => base64Pass0.take idx
        | none => base64Pass0
      match decodeUrlThenStd base64Pass with
      | none => .error Err.corruptInput
      | some password =>
        match strconv.Atoi portStr with
        | none => .error Err.numError
        | some port =>
          let proxy : GoMap :=
            [(lit "name", Value.str (server ++ lit ":" ++ portStr)),
             (lit "type", Value.str (lit "ssr")),
             (lit "server", Value.str server),
             (lit "port", Value.int port),
             (lit "cipher", Value.str method),
             (lit "password", Value.str password),
             (lit "protocol", Value.str protocol),
             (lit "obfs", Value.str obfs)]
          let params := parseQuery additionalParams
          let proxy :=
            if paramOf params (lit "remarks") ≠ [] then
              proxy.set (lit "name") (Value.str (decodeTag (paramOf params (lit "remarks"))))
            else proxy
          let proxy := ssrParam params (lit "obfsparam") (lit "obfs-param") proxy
          let proxy := ssrParam params (lit "protoparam") (lit "protocol-param") proxy
          .ok proxy
    | _ => .error Err.invalidSsr

/-- `ParseProxy` parses a proxy URL and converts it to mihomo proxy config. -/
def ParseProxy (env : GoEnv) (proxyURL : Str) : Except Err GoMap :=
  if strings.HasPrefix proxyURL (lit "ss://") then parseShadowsocks proxyURL
  else if strings.HasPrefix proxyURL (lit "vmess://") then parseVmess env proxyURL
  else if strings.HasPrefix proxyURL (lit "trojan://") then parseTrojan proxyURL
  else if strings.HasPrefix proxyURL (lit "vless://") then parseVless proxyURL
  else if strings.HasPrefix proxyURL (lit "trojan-go://") then parseTrojanGo proxyURL
  else if strings.HasPrefix proxyURL (lit "ssr://") then parseShadowsocksR proxyURL
  else .error (Err.unsupported proxyURL)

/-- The filter test of `ConvertToMihomo` on one record: with keywords, the `name` must be
a string whose lower-cased text contains a lower-cased keyword. -/
def shouldInclude (env : GoEnv) (filterKeywords : List Str) (proxy : GoMap) : Bool :=
  if 0 < filterKeywords.length then
    match proxy.get (lit "name") with
    | some (Value.str proxyName) =>
      filterKeywords.any (fun keyword =>
        strings.Contains (strings.ToLower env.unicodeToLower proxyName)
          (strings.ToLower env.unicodeToLower keyword))
    | _ => false
  else true

/-- The body of the scanning loop of `ConvertToMihomo`: `proxies` after one more line. -/
def convertLine (env : GoEnv) (filterKeywords : List Str) (proxies : List GoMap)
    (text : Str) : List GoMap :=
  let line := strings.TrimSpace text
  if line = [] ∨ strings.HasPrefix line (lit "#") then proxies
  else
    match ParseProxy env line with
    | .error _ => proxies
    | .ok proxy => if shouldInclude env filterKeywords proxy then proxies ++ [proxy] else proxies

/-- The document `ConvertToMihomo` assembles from the collected records. -/
def buildConfig (proxies : List GoMap) : GoMap :=
  [(lit "proxies", Value.list (proxies.map Value.map)),
   (lit "proxy-groups", Value.list
     [Value.map
        [(lit "name", Value.str (lit "AUTO")),
         (lit "type", Value.str (lit "url-test")),
         (lit "proxies", Value.list (proxies.map (fun proxy => valueOf proxy (lit "name")))),
         (lit "url", Value.str (lit "http://www.gstatic.com/generate_204")),
         (lit "interval", Value.str (lit "300")),
         (lit "tolerance", Value.str (lit "50"))],
      Value.map
        [(lit "name", Value.str (lit "PROXY")),
         (lit "type", Value.str (lit "select")),
         (lit "proxies", Value.list [Value.str (lit "AUTO"), Value.str (lit "DIRECT")])]]),
   (lit "mode", Value.str (lit "rule")),
   (lit "log-level", Value.str (lit "info")),
   (lit "allow-lan", Value.bool true),
   (lit "mixed-port", Value.int 10801),
   (lit "external-controller", Value.str (lit "0.0.0.0:9090")),
   (lit "secret", Value.str (lit "sub2mihomo")),
   (lit "external-controller-cors", Value.map
     [(lit "allow-origins", Value.list [Value.str (lit "*")]),
      (lit "allow-private-network", Value.bool true)]),
   (lit "rules", Value.list [Value.str (lit "MATCH,PROXY")])]

/-- `ConvertToMihomo` converts subscription content to mihomo config with optional node
filtering. -/
def ConvertToMihomo (env : GoEnv) (subContent : Str) (filterKeywords : List Str) :
    Except Err GoMap :=
  let decodedContent :=
    if IsBase64 subContent then
      match base64.StdEncoding.DecodeString subContent with
      | some decoded => decoded
      | none => subContent
    else subContent
  match bufio.scanLines decodedContent with
  | none => .error Err.tooLong
  | some lines => .ok (buildConfig (lines.foldl (convertLine env filterKeywords) []))

/-! ## internal/handlers/convert_handler.go -/

/-- The keyword list `ConvertHandler` builds from the form field `filter`: a non-empty
field is split at the commas and every piece is trimmed. -/
def formFilter (filterStr : Str) : List Str :=
  if filterStr ≠ [] then (strings.Split filterStr 44).map strings.TrimSpace else []

/-- The keyword list `ConvertHandler` takes from a JSON body: the `filter` array of the
decoded `SubscriptionRequest`, as it is. -/
def jsonFilter (filter : List Str) : List Str := filter

/-- The call of `ConvertToMihomo` in `ConvertHandler`, on the fetched subscription text
and the keyword list of the request. -/
def convertRequest (env : GoEnv) (subContent : Str) (filter : List Str) : Except Err GoMap :=
  if 0 < filter.length then ConvertToMihomo env subContent filter
  else ConvertToMihomo env subContent []

/-! ## Readings of the claims and further parts of the source -/

/-- The text `ConvertToMihomo` scans (its variable `decodedContent`): the decoded bytes
when `IsBase64` accepts the input and the decoding succeeds, the input itself otherwise. -/
def decodedContent (subContent : Str) : Str :=
  if IsBase64 subContent then
    match base64.StdEncoding.DecodeString subContent with
    | some decoded => decoded
    | none => subContent
  else subContent

/-- The list under the key `proxies` of a document, read back. -/
def docProxies (doc : GoMap) : List Value :=
  match doc.get (lit "proxies") with
  | some (Value.list proxies) => proxies
  | _ => []

/-- The member list of the first proxy group of a document (the group `AUTO`), read back:
the list under its key `proxies`. -/
def autoMembers (doc : GoMap) : List Value :=
  match doc.get (lit "proxy-groups") with
  | some (Value.list (Value.map autoGroup :: _)) =>
    match GoMapOf.get autoGroup (lit "proxies") with
    | some (Value.list members) => members
    | _ => []
  | _ => []

/-- The `name` field of a record stored in a document. -/
def recordName : Value → Value
  | Value.map proxy => valueOf proxy (lit "name")
  | _ => Value.null

/-- The claim's reading of one scanned line (C15): no record for a line that is empty
after trimming, that starts with `#` after trimming, or that `ParseProxy` rejects;
otherwise the record `ParseProxy` returns for the trimmed line. -/
def lineRecord (env : GoEnv) (text : Str) : Option GoMap :=
  match strings.TrimSpace text with
  | [] => none
  | c :: rest =>
    if c = 35 then none
    else
      match ParseProxy env (c :: rest) with
      | .ok proxy => some proxy
      | .error _ => none

/-- The claim's reading of the filter test on one name and one keyword (C12): the keyword
is a case-insensitive substring of the name, both being compared in lower case. -/
def containsFold (env : GoEnv) (name keyword : Str) : Bool :=
  strings.Contains (strings.ToLower env.unicodeToLower name)
    (strings.ToLower env.unicodeToLower keyword)

/-- The claim's reading of the filter (C12): a name is retained when there is no keyword,
or when at least one keyword is a case-insensitive substring of it. -/
def retained (env : GoEnv) (filterKeywords : List Str) (name : Str) : Bool :=
  filterKeywords.isEmpty || filterKeywords.any (fun keyword => containsFold env name keyword)

/-- The lower-case form of an ASCII letter, every other byte unchanged. -/
def lowerByte (c : Byte) : Byte := if 65 ≤ c.val ∧ c.val ≤ 90 then c + 32 else c

/-- The record `parseVmess` builds once the body is decoded into the object `vmessData`
(the part of the function after `json.Unmarshal`). -/
def vmessRecord (env : GoEnv) (tag : Str) (vmessData : GoMap) : GoMap :=
  let server := asString (vmessData.get (lit "add"))
  let port := vmessPort env vmessData
  let proxy : GoMap :=
    [(lit "name", Value.str tag),
     (lit "type", Value.str (lit "vmess")),
     (lit "server", Value.str server),
     (lit "port", Value.int port),
     (lit "uuid", valueOf vmessData (lit "id"))]
  let proxy := proxy.set (lit "alterId") (Value.int (vmessAlterId env vmessData))
  let proxy :=
    if tag = [] then
      proxy.set (lit "name") (Value.str (server ++ lit ":" ++ strconv.Itoa port))
    else proxy
  let proxy :=
    match vmessData.get (lit "scy") with
    | some security => proxy.set (lit "cipher") security
    | none => proxy.set (lit "cipher") (Value.str (lit "auto"))
  let proxy :=
    match vmessData.get (lit "tls") with
    | some (Value.str tls) =>
      if tls = lit "tls" then proxy.set (lit "tls") (Value.bool true) else proxy
    | _ => proxy
  let proxy :=
    match vmessData.get (lit "sni") with
    | some sni => proxy.set (lit "servername") sni
    | none => proxy
  vmessNetwork env vmessData proxy

/-- The integer a decimal numeral denotes: an optional sign `+` or `-`, then one or more
decimal digits; `none` for any other string.  No bound on the value. -/
def decimalValue (s : Str) : Option Int :=
  let neg : Bool := match s with
    | c :: _ => c = 45
    | [] => false
  let digits : Str := match s with
    | c :: t => if c = 43 ∨ c = 45 then t else s
    | [] => s
  if digits = [] then none
  else if digits.all (fun c => decide (48 ≤ c.val ∧ c.val ≤ 57)) then
    let n : Nat := digits.foldl (fun acc c => acc * 10 + (c.val - 48)) 0
    some (if neg then -(n : Int) else (n : Int))
  else none

/-- The claim's reading of the vmess port (C16), with the bounds of Go's `int` made
explicit: the value of the `port` entry when it is a string holding a decimal integer
that fits a 64-bit `int`; when it is a JSON number, the number with its fraction discarded
if that fits a 64-bit `int`, and no particular value (`none`) if not; 443 in every other
case. -/
def vmessPortSpec : Option Value → Option Int
  | some (Value.str s) =>
    match decimalValue s with
    | some v => if -9223372036854775808 ≤ v ∧ v ≤ 9223372036854775807 then some v else some 443
    | none => some 443
  | some (Value.float f) =>
    match f.trunc with
    | some t => if -9223372036854775808 ≤ t ∧ t ≤ 9223372036854775807 then some t else none
    | none => none
  | _ => some 443

/-- The claim's reading of one `&`-separated piece of a query (C20): a piece without `=`
contributes nothing; otherwise the key is the text before the first `=`, and the value
the text after it with every `%3D` replaced by `=` and then every `%26` by `&`. -/
def queryPiece (piece : Str) : Option (Str × Str) :=
  match piece.dropWhile (fun c => decide (c ≠ 61)) with
  | [] => none
  | _ :: raw =>
    some (piece.takeWhile (fun c => decide (c ≠ 61)),
      strings.ReplaceAll (strings.ReplaceAll raw (lit "%3D") (lit "=")) (lit "%26") (lit "&"))

/-- The claim's reading of `parseQuery` (C20): the value of key `k` is the value of the
last piece of the query whose key is `k`, and there is none without such a piece. -/
def queryValue (query k : Str) : Option Str :=
  (((strings.Split query 38).filterMap queryPiece).reverse.find?
    (fun p => decide (p.1 = k))).map (fun p => p.2)

/-- The claim's reading of the vmess `alterId` (C23), with the bounds of Go's `int` made
explicit: when the `aid` entry is a JSON number, the number with its fraction discarded if
that fits a 64-bit `int`, and no particular value (`none`) if not; the default 0 in every
other case: entry absent, null, a string, or any other type. -/
def vmessAlterIdSpec : Option Value → Option Int
  | some (Value.float aidNum) =>
    match aidNum.trunc with
    | some t => if -9223372036854775808 ≤ t ∧ t ≤ 9223372036854775807 then some t else none
    | none => none
  | _ => some 0

/-- The claim's reading of the query of a trojan URI (C17), `rest` being the text after
`trojan://`: in the text before the first `#`, what follows the first `?` after the first
`@`; empty when there is no `@` or no such `?`. -/
def uriQuery (rest : Str) : Str :=
  let body := rest.takeWhile (fun c => decide (c ≠ 35))
  let afterAt := (body.dropWhile (fun c => decide (c ≠ 64))).drop 1
  (afterAt.dropWhile (fun c => decide (c ≠ 63))).drop 1

/-- The length of a base64 text not counting its `\r` and `\n`, which the decoder skips. -/
def base64Length (s : Str) : Nat := s.countP (fun c => decide (c ≠ 10 ∧ c ≠ 13))

/-- The password field of a decoded ssr body as `parseShadowsocksR` takes it: the sixth
of the fields between the `:`, up to its first `/?`; none with fewer than six fields. -/
def ssrPasswordField (decoded : Str) : Option Str :=
  match strings.Split decoded 58 with
  | _ :: _ :: _ :: _ :: _ :: base64Pass0 :: _ =>
    match strings.Index base64Pass0 (lit "/?") with
    | some idx => some (base64Pass0.take idx)
    | none => some base64Pass0
  | _ => none

/-! ## Lemmas on the library models and on the parsers -/

theorem lit_colon : lit ":" = [58] := by decide
theorem lit_at : lit "@" = [64] := by decide
theorem lit_hash : lit "#" = [35] := by decide
theorem lit_ss : lit "ss://" = [115, 115, 58, 47, 47] := by decide

theorem isPrefixOf_single (c : Byte) (x : Byte) (t : Str) :
    List.isPrefixOf [c] (x :: t) = (c == x) := by
  simp [List.isPrefixOf]

namespace strings

theorem HasPrefix_append (pre s : Str) : HasPrefix (pre ++ s) pre = true := by
  simp [HasPrefix]

theorem TrimPrefix_append (pre s : Str) : TrimPrefix (pre ++ s) pre = s := by
  simp [TrimPrefix, HasPrefix_append]

theorem Index_byte_none (c : Byte) (s : Str) (h : c ∉ s) : Index s [c] = none := by
  induction s with
  | nil => simp [Index, List.isPrefixOf]
  | cons x t ih =>
    have hx : c ≠ x := fun e => h (by simp [e])
    have ht : c ∉ t := fun e => h (by simp [e])
    simp [Index, isPrefixOf_single, hx, ih ht]

theorem Index_byte_append (c : Byte) (a b : Str) (h : c ∉ a) :
    Index (a ++ c :: b) [c] = some a.length := by
  induction a with
  | nil => simp [Index, isPrefixOf_single]
  | cons x t ih =>
    have hx : c ≠ x := fun e => h (by simp [e])
    have ht : c ∉ t := fun e => h (by simp [e])
    simp [Index, isPrefixOf_single, hx, ih ht]

end strings

theorem splitFirstColon_append (a b : Str) (h : (58 : Byte) ∉ a) :
    splitFirstColon (a ++ 58 :: b) = (a, b) := by
  simp [splitFirstColon, lit_colon, strings.Index_byte_append 58 a b h]

theorem splitTag_no_hash (s : Str) (h : (35 : Byte) ∉ s) : splitTag s = ([], s) := by
  simp [splitTag, lit_hash, strings.Index_byte_none 35 s h]

namespace base64

theorem skipNewlines_eq_nil (s : Str) (h : skipNewlines s = []) :
    ∀ c ∈ s, c = 10 ∨ c = 13 := by
  induction s with
  | nil => simp
  | cons x t ih =>
    simp only [skipNewlines] at h
    split at h
    · rename_i hx
      intro c hc
      rcases List.mem_cons.1 hc with e | e
      · exact e ▸ hx
      · exact ih h c e
    · exact absurd h (by simp)

theorem mem_skipNewlines (s : Str) (c : Byte) (hc : c ∈ s) (h10 : c ≠ 10) (h13 : c ≠ 13) :
    c ∈ skipNewlines s := by
  induction s with
  | nil => simp at hc
  | cons x t ih =>
    simp only [skipNewlines]
    split
    · rename_i hx
      rcases List.mem_cons.1 hc with e | e
      · subst e
        rcases hx with hx | hx
        · exact absurd hx h10
        · exact absurd hx h13
      · exact ih e
    · exact hc

theorem decodePadding_bad (c : Byte) (h10 : c ≠ 10) (h13 : c ≠ 13) (hpad : c ≠ padChar)
    (ch : Byte) (rest : Str) (hc : c ∈ ch :: rest) (acc : List Nat) :
    decodePadding ch rest acc = none := by
  unfold decodePadding
  split
  · rfl
  · rename_i hp
    have hp : ch = padChar := by simpa using hp
    have hrest : c ∈ rest := by
      rcases List.mem_cons.1 hc with e | e
      · exact absurd (e.trans hp) hpad
      · exact e
    have hin := mem_skipNewlines rest c hrest h10 h13
    split
    · split
      · rfl
      · rename_i p rest2 hsk
        split
        · rfl
        · rename_i hp2
          have hp2 : p = padChar := by simpa using hp2
          split
          · rfl
          · rename_i hnil
            have hnil : skipNewlines rest2 = [] := by simpa using hnil
            rw [hsk] at hin
            rcases List.mem_cons.1 hin with e | e
            · exact absurd (e.trans hp2) hpad
            · rcases skipNewlines_eq_nil rest2 hnil c e with h | h
              · exact absurd h h10
              · exact absurd h h13
    · split
      · rfl
      · rename_i hnil
        have hnil : skipNewlines rest = [] := by simpa using hnil
        rw [hnil] at hin
        simp at hin
    · rfl

/-- A byte that is neither in the alphabet, nor a newline, nor the padding character makes
the decoder fail, wherever it stands. -/
theorem decodeFrom_bad (alphabet : Str) (c : Byte) (hmap : decodeMap alphabet c = none)
    (h10 : c ≠ 10) (h13 : c ≠ 13) (hpad : c ≠ padChar) (s : Str) (hc : c ∈ s) (acc : List Nat) :
    decodeFrom alphabet s acc = none := by
  induction s generalizing acc with
  | nil => simp at hc
  | cons ch rest ih =>
    have hrest : ch ≠ c → c ∈ rest := fun hne => by
      rcases List.mem_cons.1 hc with e | e
      · exact absurd e.symm hne
      · exact e
    unfold decodeFrom
    split
    · rename_i v hv
      have hne : ch ≠ c := fun e => by rw [e, hmap] at hv; cases hv
      split
      · rw [ih (hrest hne)]; rfl
      · exact ih (hrest hne) _
    · split
      · rename_i hnl
        have hne : ch ≠ c := fun e => by
          subst e
          rcases hnl with h | h
          · exact h10 h
          · exact h13 h
        exact ih (hrest hne) _
      · exact decodePadding_bad c h10 h13 hpad ch rest hc acc

theorem decodeMap_std_colon : decodeMap encodeStd 58 = none := by decide

end base64

theorem decodePadded_colon (a b : Str) : decodePadded (a ++ 58 :: b) = none := by
  have h : ∀ i : Nat,
      base64.StdEncoding.DecodeString (a ++ 58 :: (b ++ List.replicate i 61)) = none := by
    intro i
    exact base64.decodeFrom_bad base64.encodeStd 58 base64.decodeMap_std_colon (by decide)
      (by decide) (by decide) _ (by simp) []
  have h0 := h 0
  have h1 := h 1
  have h2 := h 2
  have h3 := h 3
  simp only [List.replicate, List.append_nil] at h0 h1 h2 h3
  simp [decodePadded, List.findSome?, h0, h1, h2, h3]

namespace strings

theorem Index_byte_append_left (c : Byte) (pre sfx : Str) (h : c ∉ pre) :
    Index (pre ++ sfx) [c] = (Index sfx [c]).map (· + pre.length) := by
  induction pre with
  | nil => simp
  | cons x t ih =>
    have hx : c ≠ x := fun e => h (by simp [e])
    have ht : c ∉ t := fun e => h (by simp [e])
    have e1 : Index (x :: (t ++ sfx)) [c] = (Index (t ++ sfx) [c]).map (· + 1) := by
      simp [Index, isPrefixOf_single, hx]
    rw [List.cons_append, e1, ih ht, Option.map_map]
    cases Index sfx [c] <;> simp [Nat.add_assoc]

end strings

/-- The text `splitTag` keeps starts with every prefix that has no `#`. -/
theorem splitTag_keeps (pre sfx : Str) (h : (35 : Byte) ∉ pre) :
    ∃ sfx2, (splitTag (pre ++ sfx)).2 = pre ++ sfx2 := by
  unfold splitTag
  rw [lit_hash, strings.Index_byte_append_left 35 pre sfx h]
  cases strings.Index sfx [35] with
  | none => exact ⟨sfx, rfl⟩
  | some i =>
    refine ⟨sfx.take i, ?_⟩
    simp only [Option.map_some']
    rw [Nat.add_comm, List.take_append]

/-- What `parseShadowsocks` returns when the text before the first `@` has no `#`. -/
theorem parseShadowsocks_authority (auth sfx : Str) (h35 : (35 : Byte) ∉ auth)
    (h64 : (64 : Byte) ∉ auth) :
    ∃ sp, (splitTag (auth ++ 64 :: sfx)).2 = auth ++ 64 :: sp ∧
      parseShadowsocks (lit "ss://" ++ (auth ++ 64 :: sfx))
        = .ok (ssRecord (splitTag (auth ++ 64 :: sfx)).1 (splitFirstColon sp).1
            (splitFirstColon sp).2 (ssAuth auth).1 (ssAuth auth).2) := by
  obtain ⟨sfx2, h2⟩ := splitTag_keeps (auth ++ [64]) sfx (by simp [h35])
  have h2 : (splitTag (auth ++ 64 :: sfx)).2 = auth ++ 64 :: sfx2 := by
    simpa using h2
  refine ⟨sfx2, h2, ?_⟩
  simp only [parseShadowsocks, strings.TrimPrefix_append, h2, lit_at,
    strings.Index_byte_append 64 auth sfx2 h64, List.take_left']
  have hd : List.drop (auth.length + 1) (auth ++ 64 :: sfx2) = sfx2 := by
    have : auth ++ 64 :: sfx2 = (auth ++ [64]) ++ sfx2 := by simp
    rw [this]
    exact List.drop_left' (by simp)
  rw [hd]

theorem ssAuth_literal (method password : Str) (h : (58 : Byte) ∉ method) :
    ssAuth (method ++ 58 :: password) = (method, password) := by
  simp only [ssAuth, decodePadded_colon, splitFirstColon_append _ _ h]


namespace base64

theorem EncodeToString_eq_raw (alphabet : Str) (bs : Str) :
    EncodeToString alphabet bs = encodeRaw alphabet bs ++ List.replicate (padLen bs) padChar := by
  induction bs using padLen.induct with
  | case1 => rfl
  | case2 a => rfl
  | case3 a b => rfl
  | case4 a b c rest ih => simp only [EncodeToString, encodeRaw, padLen, ih, List.cons_append]

theorem padLen_le (bs : Str) : padLen bs ≤ 2 := by
  induction bs using padLen.induct with
  | case1 => simp [padLen]
  | case2 a => simp [padLen]
  | case3 a b => simp [padLen]
  | case4 a b c rest ih => simpa [padLen] using ih

theorem decodeMap_encodeChar_std :
    ∀ v, v < 64 → decodeMap encodeStd (encodeChar encodeStd v) = some v := by decide

theorem encodeChar_std_ne :
    ∀ v, v < 64 → encodeChar encodeStd v ≠ 61 ∧ encodeChar encodeStd v ≠ 35
      ∧ encodeChar encodeStd v ≠ 64 := by decide

theorem decodeMap_std_pad : decodeMap encodeStd 61 = none := by decide


/-- The four 6-bit values of three bytes, and the bytes back from them. -/
theorem quantum_arith (a b c : Byte) :
    a.val / 4 < 64 ∧ a.val % 4 * 16 + b.val / 16 < 64 ∧ b.val % 16 * 4 + c.val / 64 < 64
      ∧ c.val % 64 < 64
      ∧ fullQuantum [a.val / 4, a.val % 4 * 16 + b.val / 16, b.val % 16 * 4 + c.val / 64]
          (c.val % 64) = [a, b, c] := by
  have ha := a.isLt
  have hb := b.isLt
  have hc := c.isLt
  refine ⟨by omega, by omega, by omega, by omega, ?_⟩
  simp only [fullQuantum, quantumVal]
  congr 1
  · apply Fin.ext
    simp only [Fin.ofNat, Fin.val_mk]
    omega
  · congr 1
    · apply Fin.ext
      simp only [Fin.ofNat, Fin.val_mk]
      omega
    · congr 1
      apply Fin.ext
      simp only [Fin.ofNat, Fin.val_mk]
      omega

theorem decodeFrom_some (alphabet : Str) (ch : Byte) (v : Nat) (rest : Str) (acc : List Nat)
    (h : decodeMap alphabet ch = some v) :
    decodeFrom alphabet (ch :: rest) acc =
      if acc.length = 3 then
        (decodeFrom alphabet rest []).map (fun out => fullQuantum acc v ++ out)
      else decodeFrom alphabet rest (acc ++ [v]) := by
  rw [decodeFrom, h]

/-- One full quantum of the encoder decodes to its three bytes. -/
theorem decodeFrom_quantum (a b c : Byte) (rest : Str) :
    decodeFrom encodeStd
      (encodeChar encodeStd (a.val / 4) :: encodeChar encodeStd (a.val % 4 * 16 + b.val / 16)
        :: encodeChar encodeStd (b.val % 16 * 4 + c.val / 64)
        :: encodeChar encodeStd (c.val % 64) :: rest) []
      = (decodeFrom encodeStd rest []).map (fun out => a :: b :: c :: out) := by
  obtain ⟨h1, h2, h3, h4, hq⟩ := quantum_arith a b c
  rw [decodeFrom_some _ _ _ _ _ (decodeMap_encodeChar_std _ h1),
    if_neg (by simp), decodeFrom_some _ _ _ _ _ (decodeMap_encodeChar_std _ h2),
    if_neg (by simp), decodeFrom_some _ _ _ _ _ (decodeMap_encodeChar_std _ h3),
    if_neg (by simp), decodeFrom_some _ _ _ _ _ (decodeMap_encodeChar_std _ h4),
    if_pos (by simp)]
  simp only [List.nil_append, List.cons_append, hq]

end base64

namespace base64

theorem decodeFrom_pad (rest : Str) (acc : List Nat) :
    decodeFrom encodeStd (61 :: rest) acc = decodePadding 61 rest acc := by
  rw [decodeFrom, decodeMap_std_pad]
  simp

theorem tail_arith1 (a : Byte) :
    a.val / 4 < 64 ∧ a.val % 4 * 16 < 64
      ∧ (Fin.ofNat (quantumVal (a.val / 4) (a.val % 4 * 16) 0 0 / 65536) : Byte) = a := by
  have ha := a.isLt
  refine ⟨by omega, by omega, ?_⟩
  apply Fin.ext
  simp only [Fin.ofNat, Fin.val_mk, quantumVal]
  omega

theorem tail_arith2 (a b : Byte) :
    a.val / 4 < 64 ∧ a.val % 4 * 16 + b.val / 16 < 64 ∧ b.val % 16 * 4 < 64
      ∧ (Fin.ofNat (quantumVal (a.val / 4) (a.val % 4 * 16 + b.val / 16) (b.val % 16 * 4) 0
            / 65536) : Byte) = a
      ∧ (Fin.ofNat (quantumVal (a.val / 4) (a.val % 4 * 16 + b.val / 16) (b.val % 16 * 4) 0
            / 256) : Byte) = b := by
  have ha := a.isLt
  have hb := b.isLt
  refine ⟨by omega, by omega, by omega, ?_, ?_⟩
  · apply Fin.ext
    simp only [Fin.ofNat, Fin.val_mk, quantumVal]
    omega
  · apply Fin.ext
    simp only [Fin.ofNat, Fin.val_mk, quantumVal]
    omega

/-- The unpadded encoding followed by `j` padding characters decodes exactly when `j` is
the number of padding characters the encoder appends, and then to the encoded bytes. -/
theorem decodeFrom_raw (bs : Str) (j : Nat) (hj : j ≤ padLen bs) :
    decodeFrom encodeStd (encodeRaw encodeStd bs ++ List.replicate j 61) []
      = if j = padLen bs then some bs else none := by
  induction bs using padLen.induct with
  | case1 =>
    have : j = 0 := by simpa [padLen] using hj
    subst this
    simp [encodeRaw, padLen, decodeFrom]
  | case2 a =>
    obtain ⟨h1, h2, hq⟩ := tail_arith1 a
    have hj2 : j ≤ 2 := by simpa [padLen] using hj
    simp only [encodeRaw, padLen, List.cons_append, List.nil_append]
    rw [decodeFrom_some _ _ _ _ _ (decodeMap_encodeChar_std _ h1), if_neg (by simp),
      decodeFrom_some _ _ _ _ _ (decodeMap_encodeChar_std _ h2), if_neg (by simp)]
    interval_cases j
    · simp [decodeFrom]
    · simp [List.replicate, decodeFrom_pad, decodePadding, skipNewlines, padChar]
    · simp [List.replicate, decodeFrom_pad, decodePadding, skipNewlines, padChar, hq]
  | case3 a b =>
    obtain ⟨h1, h2, h3, hq1, hq2⟩ := tail_arith2 a b
    have hj2 : j ≤ 1 := by simpa [padLen] using hj
    simp only [encodeRaw, padLen, List.cons_append, List.nil_append]
    rw [decodeFrom_some _ _ _ _ _ (decodeMap_encodeChar_std _ h1), if_neg (by simp),
      decodeFrom_some _ _ _ _ _ (decodeMap_encodeChar_std _ h2), if_neg (by simp),
      decodeFrom_some _ _ _ _ _ (decodeMap_encodeChar_std _ h3), if_neg (by simp)]
    interval_cases j
    · simp [decodeFrom]
    · simp [List.replicate, decodeFrom_pad, decodePadding, skipNewlines, padChar, hq1, hq2]
  | case4 a b c rest ih =>
    have hj2 : j ≤ padLen rest := by simpa [padLen] using hj
    simp only [encodeRaw, padLen, List.cons_append]
    rw [decodeFrom_quantum, ih hj2]
    split <;> simp

/-- The characters of the unpadded encoding are none of `=`, `#`, `@`. -/
theorem encodeRaw_std_ne (bs : Str) :
    (61 : Byte) ∉ encodeRaw encodeStd bs ∧ (35 : Byte) ∉ encodeRaw encodeStd bs
      ∧ (64 : Byte) ∉ encodeRaw encodeStd bs := by
  induction bs using padLen.induct with
  | case1 => simp [encodeRaw]
  | case2 a =>
    obtain ⟨h1, h2, _⟩ := tail_arith1 a
    have e1 := encodeChar_std_ne _ h1
    have e2 := encodeChar_std_ne _ h2
    simp only [encodeRaw, List.mem_cons, List.mem_singleton, List.not_mem_nil, or_false, not_or]
    exact ⟨⟨e1.1.symm, e2.1.symm⟩, ⟨e1.2.1.symm, e2.2.1.symm⟩, ⟨e1.2.2.symm, e2.2.2.symm⟩⟩
  | case3 a b =>
    obtain ⟨h1, h2, h3, _⟩ := tail_arith2 a b
    have e1 := encodeChar_std_ne _ h1
    have e2 := encodeChar_std_ne _ h2
    have e3 := encodeChar_std_ne _ h3
    simp only [encodeRaw, List.mem_cons, List.mem_singleton, List.not_mem_nil, or_false, not_or]
    exact ⟨⟨e1.1.symm, e2.1.symm, e3.1.symm⟩, ⟨e1.2.1.symm, e2.2.1.symm, e3.2.1.symm⟩,
      ⟨e1.2.2.symm, e2.2.2.symm, e3.2.2.symm⟩⟩
  | case4 a b c rest ih =>
    obtain ⟨h1, h2, h3, h4, _⟩ := quantum_arith a b c
    have e1 := encodeChar_std_ne _ h1
    have e2 := encodeChar_std_ne _ h2
    have e3 := encodeChar_std_ne _ h3
    have e4 := encodeChar_std_ne _ h4
    obtain ⟨i1, i2, i3⟩ := ih
    simp only [encodeRaw, List.mem_cons, not_or]
    exact ⟨⟨e1.1.symm, e2.1.symm, e3.1.symm, e4.1.symm, i1⟩,
      ⟨e1.2.1.symm, e2.2.1.symm, e3.2.1.symm, e4.2.1.symm, i2⟩,
      ⟨e1.2.2.symm, e2.2.2.symm, e3.2.2.symm, e4.2.2.symm, i3⟩⟩

end base64

/-- A text that becomes `y` followed by `p` copies of `c` once `k` copies of `c` are
appended is `y` followed by `p - k` copies, when `c` does not occur in `y`. -/
theorem eq_append_replicate (c : Byte) (y : Str) (hc : c ∉ y) :
    ∀ (k p : Nat) (x : Str), x ++ List.replicate k c = y ++ List.replicate p c →
      k ≤ p ∧ x = y ++ List.replicate (p - k) c := by
  intro k
  induction k with
  | zero =>
    intro p x h
    exact ⟨Nat.zero_le _, by simpa using h⟩
  | succ k ih =>
    intro p x h
    cases p with
    | zero =>
      exfalso
      apply hc
      have h2 : y = x ++ List.replicate (k + 1) c := by simpa using h.symm
      rw [h2]
      simp
    | succ p =>
      rw [List.replicate_succ', List.replicate_succ', ← List.append_assoc, ← List.append_assoc] at h
      have h3 := List.append_inj_left' h rfl
      obtain ⟨h4, h5⟩ := ih p x h3
      exact ⟨Nat.succ_le_succ h4, by simpa using h5⟩

/-- The padding loop recovers the encoded bytes from their standard base64 encoding with
any number of its trailing `=` removed. -/
theorem decodePadded_encoding (bs enc : Str) (k : Nat)
    (hE : enc ++ List.replicate k 61 = base64.EncodeToString base64.encodeStd bs) :
    decodePadded enc = some bs ∧ (35 : Byte) ∉ enc ∧ (64 : Byte) ∉ enc := by
  rw [base64.EncodeToString_eq_raw] at hE
  obtain ⟨hne61, hne35, hne64⟩ := base64.encodeRaw_std_ne bs
  obtain ⟨hk, hEnc⟩ := eq_append_replicate 61 _ hne61 k _ enc hE
  have key : ∀ i, (base64.padLen bs - k) + i ≤ base64.padLen bs →
      base64.StdEncoding.DecodeString (enc ++ List.replicate i 61)
        = if (base64.padLen bs - k) + i = base64.padLen bs then some bs else none := by
    intro i hi
    rw [hEnc, List.append_assoc, ← List.replicate_add]
    exact base64.decodeFrom_raw bs _ hi
  have hp := base64.padLen_le bs
  refine ⟨?_, ?_, ?_⟩
  · simp only [decodePadded, List.findSome?]
    rcases Nat.lt_or_ge k 1 with h0 | h1
    · -- nothing was removed: the first attempt succeeds
      rw [key 0 (by omega), if_pos (by omega)]
    · rcases Nat.lt_or_ge k 2 with hk1 | h2
      · rw [key 0 (by omega), if_neg (by omega), key 1 (by omega), if_pos (by omega)]
      · rw [key 0 (by omega), if_neg (by omega), key 1 (by omega), if_neg (by omega),
          key 2 (by omega), if_pos (by omega)]
  · rw [hEnc]
    simp [hne35]
  · rw [hEnc]
    simp [hne64]

namespace strings

theorem Split_ne_nil (s : Str) (c : Byte) : Split s c ≠ [] := by
  cases s with
  | nil => simp [Split]
  | cons x t =>
    simp only [Split]
    split
    · simp
    · split <;> simp

theorem Split_append (a b : Str) (c : Byte) (h : c ∉ a) :
    Split (a ++ c :: b) c = a :: Split b c := by
  induction a with
  | nil => simp [Split]
  | cons x t ih =>
    have hx : x ≠ c := fun e => h (by simp [e])
    have ht : c ∉ t := fun e => h (by simp [e])
    simp [Split, hx, ih ht]

theorem Join_cons_cons (x : Byte) (p : Str) (ps : List Str) (sep : Str) :
    Join ((x :: p) :: ps) sep = x :: Join (p :: ps) sep := by
  cases ps <;> simp [Join]

theorem Join_Split (s : Str) (c : Byte) : Join (Split s c) [c] = s := by
  induction s with
  | nil => simp [Split, Join]
  | cons x t ih =>
    simp only [Split]
    split
    · rename_i hx
      cases hs : Split t c with
      | nil => exact absurd hs (Split_ne_nil t c)
      | cons p ps =>
        rw [hs] at ih
        simp [Join, ih, hx]
    · cases hs : Split t c with
      | nil => exact absurd hs (Split_ne_nil t c)
      | cons p ps =>
        rw [hs] at ih
        simp only [Join_cons_cons, ih]

end strings

theorem ssAuth_encoded (method password enc : Str) (h : (58 : Byte) ∉ method)
    (hd : decodePadded enc = some (method ++ 58 :: password)) :
    ssAuth enc = (method, password) := by
  have hlen : 2 ≤ (method :: strings.Split password 58).length := by
    cases hs : strings.Split password 58 with
    | nil => exact absurd hs (strings.Split_ne_nil _ _)
    | cons p ps => simp
  simp only [ssAuth, hd, strings.Split_append method password 58 h, if_pos hlen,
    List.headD_cons, List.tail_cons, lit_colon, strings.Join_Split]


theorem lit_trojan : lit "trojan://" = [116, 114, 111, 106, 97, 110, 58, 47, 47] := by decide
theorem lit_vless : lit "vless://" = [118, 108, 101, 115, 115, 58, 47, 47] := by decide
theorem lit_vmess : lit "vmess://" = [118, 109, 101, 115, 115, 58, 47, 47] := by decide

/-- The text `splitTag` keeps is the part before the tag. -/
theorem splitTag_body (body tagPart : Str) (h35 : (35 : Byte) ∉ body)
    (htag : tagPart = [] ∨ ∃ t, tagPart = 35 :: t) :
    (splitTag (body ++ tagPart)).2 = body := by
  rcases htag with h | ⟨t, h⟩
  · subst h
    rw [List.append_nil, splitTag_no_hash body h35]
  · subst h
    simp only [splitTag, lit_hash, strings.Index_byte_append 35 body t h35, List.take_left']

theorem parseQuery_nil : parseQuery [] = [] := by decide

theorem splitAuthority_no_at (body : Str) (h64 : (64 : Byte) ∉ body) :
    splitAuthority body = ([], [], [], []) := by
  simp only [splitAuthority, lit_at, strings.Index_byte_none 64 body h64]

/-- The filter test accepts every record when there is no keyword. -/
theorem shouldInclude_nil (env : GoEnv) (proxy : GoMap) : shouldInclude env [] proxy = true := by
  simp [shouldInclude]


/-! ## The claims -/

set_option maxRecDepth 100000

/-- C1, evaluated on the code: `removeEmojis` removes U+1F600 but keeps U+2600 and U+2708.
The test of the source keeps every rune below U+1F000, so the range U+2600..U+27BF it
names is never removed: the tag "☀SG✈😀" comes out as "☀SG✈", not as "SG". -/
theorem removeEmojis_keeps_U2600 :
    removeEmojis (lit "☀SG✈😀") = lit "☀SG✈"
      ∧ utf8.rangeRunes (lit "☀SG✈😀") 0 = [0x2600, 0x53, 0x47, 0x2708, 0x1F600] := by
  decide

/-- C2, evaluated on the code: the records of `ss://`, `trojan://` and `vless://` lines
carry the port as the string cut from the line, not as an integer, and a port that is no
number at all is accepted (`parseVmess` and `parseShadowsocksR` convert with
`strconv.Atoi`). -/
theorem port_is_string :
    (∀ env : GoEnv, ParseProxy env (lit "ss://aes-256-gcm:pw@example.com:8388")
        = .ok [(lit "name", Value.str (lit "example.com:8388")),
               (lit "type", Value.str (lit "ss")),
               (lit "server", Value.str (lit "example.com")),
               (lit "port", Value.str (lit "8388")),
               (lit "cipher", Value.str (lit "aes-256-gcm")),
               (lit "password", Value.str (lit "pw"))])
    ∧ (∀ env : GoEnv, ParseProxy env (lit "trojan://pw@example.com:notaport")
        = .ok [(lit "name", Value.str (lit "example.com:notaport")),
               (lit "type", Value.str (lit "trojan")),
               (lit "server", Value.str (lit "example.com")),
               (lit "port", Value.str (lit "notaport")),
               (lit "password", Value.str (lit "pw")),
               (lit "sni", Value.str (lit "example.com")),
               (lit "skip-cert-verify", Value.bool true)])
    ∧ (∀ env : GoEnv, ParseProxy env (lit "vless://id@example.com:443")
        = .ok [(lit "name", Value.str (lit "example.com:443")),
               (lit "type", Value.str (lit "vless")),
               (lit "server", Value.str (lit "example.com")),
               (lit "port", Value.str (lit "443")),
               (lit "uuid", Value.str (lit "id")),
               (lit "skip-cert-verify", Value.bool true)]) :=
  ⟨fun _ => rfl, fun _ => rfl, fun _ => rfl⟩

/-- C3 as stated fails: lines of the three schemes without `@` parse without error, into
records with empty server and port, and `ConvertToMihomo` emits such a record. -/
theorem no_at_line_parses :
    (∀ env : GoEnv, ParseProxy env (lit "ss://example.com:8388")
        = .ok [(lit "name", Value.str (lit ":")),
               (lit "type", Value.str (lit "ss")),
               (lit "server", Value.str []),
               (lit "port", Value.str []),
               (lit "cipher", Value.str []),
               (lit "password", Value.str [])])
    ∧ (∀ env : GoEnv, ParseProxy env (lit "trojan://example.com:443#HK")
        = .ok [(lit "name", Value.str (lit "HK")),
               (lit "type", Value.str (lit "trojan")),
               (lit "server", Value.str []),
               (lit "port", Value.str []),
               (lit "password", Value.str []),
               (lit "sni", Value.str []),
               (lit "skip-cert-verify", Value.bool true)])
    ∧ (∀ env : GoEnv, ParseProxy env (lit "vless://example.com:443")
        = .ok [(lit "name", Value.str (lit ":")),
               (lit "type", Value.str (lit "vless")),
               (lit "server", Value.str []),
               (lit "port", Value.str []),
               (lit "uuid", Value.str []),
               (lit "skip-cert-verify", Value.bool true)])
    ∧ (∀ env : GoEnv, ConvertToMihomo env (lit "trojan://example.com:443#HK\n") []
        = .ok (buildConfig
            [[(lit "name", Value.str (lit "HK")),
              (lit "type", Value.str (lit "trojan")),
              (lit "server", Value.str []),
              (lit "port", Value.str []),
              (lit "password", Value.str []),
              (lit "sni", Value.str []),
              (lit "skip-cert-verify", Value.bool true)]])) :=
  ⟨fun _ => rfl, fun _ => rfl, fun _ => rfl, fun _ => rfl⟩

/-- C3, amended to what the code does: for every `trojan://` or `vless://` line whose
body (the text before the `#tag` part) holds no `@`, `ParseProxy` returns no error but a
record whose server and port are the empty string, and the scanning loop of
`ConvertToMihomo`, run without keywords on a text line that trims to it, appends that
record instead of dropping the line. -/
theorem no_at_line_is_kept (env : GoEnv) (scheme body tagPart text : Str)
    (hscheme : scheme = lit "trojan://" ∨ scheme = lit "vless://")
    (hbody : (64 : Byte) ∉ body ∧ (35 : Byte) ∉ body)
    (htag : tagPart = [] ∨ ∃ t, tagPart = 35 :: t)
    (htext : strings.TrimSpace text = scheme ++ body ++ tagPart) :
    ∃ proxy, ParseProxy env (scheme ++ body ++ tagPart) = .ok proxy
      ∧ proxy.get (lit "server") = some (Value.str [])
      ∧ proxy.get (lit "port") = some (Value.str [])
      ∧ ∀ proxies, convertLine env [] proxies text = proxies ++ [proxy] := by
  obtain ⟨h64, h35⟩ := hbody
  have hkeep := splitTag_body body tagPart h35 htag
  have hparse : ∃ proxy, ParseProxy env (scheme ++ body ++ tagPart) = .ok proxy
      ∧ proxy.get (lit "server") = some (Value.str [])
      ∧ proxy.get (lit "port") = some (Value.str []) := by
    rcases hscheme with h | h
    · subst h
      refine ⟨[(lit "name", Value.str (if (splitTag (body ++ tagPart)).1 = [] then
            [] ++ lit ":" ++ [] else (splitTag (body ++ tagPart)).1)),
          (lit "type", Value.str (lit "trojan")), (lit "server", Value.str []),
          (lit "port", Value.str []), (lit "password", Value.str []), (lit "sni", Value.str []),
          (lit "skip-cert-verify", Value.bool true)], ?_, ?_, ?_⟩
      · rw [List.append_assoc]
        have h1 : strings.HasPrefix (lit "trojan://" ++ (body ++ tagPart)) (lit "ss://") = false := by
          rfl
        have h2 : strings.HasPrefix (lit "trojan://" ++ (body ++ tagPart)) (lit "vmess://") = false := by
          rfl
        simp only [ParseProxy, h1, h2, strings.HasPrefix_append, if_true, parseTrojan,
          strings.TrimPrefix_append, hkeep, splitAuthority_no_at body h64, parseQuery_nil]
        rfl
      · rfl
      · rfl
    · subst h
      refine ⟨[(lit "name", Value.str (if (splitTag (body ++ tagPart)).1 = [] then
            [] ++ lit ":" ++ [] else (splitTag (body ++ tagPart)).1)),
          (lit "type", Value.str (lit "vless")), (lit "server", Value.str []),
          (lit "port", Value.str []), (lit "uuid", Value.str []),
          (lit "skip-cert-verify", Value.bool true)], ?_, ?_, ?_⟩
      · rw [List.append_assoc]
        have h1 : strings.HasPrefix (lit "vless://" ++ (body ++ tagPart)) (lit "ss://") = false := by
          rfl
        have h2 : strings.HasPrefix (lit "vless://" ++ (body ++ tagPart)) (lit "vmess://") = false := by
          rfl
        have h3 : strings.HasPrefix (lit "vless://" ++ (body ++ tagPart)) (lit "trojan://") = false := by
          rfl
        simp only [ParseProxy, h1, h2, h3, strings.HasPrefix_append, if_true, parseVless,
          strings.TrimPrefix_append, hkeep, splitAuthority_no_at body h64, parseQuery_nil]
        rfl
      · rfl
      · rfl
  obtain ⟨proxy, hp, hs, hport⟩ := hparse
  refine ⟨proxy, hp, hs, hport, ?_⟩
  intro proxies
  have hline : ¬ (scheme ++ body ++ tagPart = [] ∨
      strings.HasPrefix (scheme ++ body ++ tagPart) (lit "#") = true) := by
    rcases hscheme with h | h <;> subst h <;>
      simp [strings.HasPrefix, lit_trojan, lit_vless, lit_hash]
  simp only [convertLine, htext, hline, if_false, hp, shouldInclude_nil, if_true]

/-- C3, the amended statement at the line `trojan://example.com:443#HK`, scanned as
the text ` trojan://example.com:443#HK` followed by a carriage return. -/
theorem no_at_line_is_kept_witness :
    (lit "trojan://" = lit "trojan://" ∨ lit "trojan://" = lit "vless://")
    ∧ ((64 : Byte) ∉ lit "example.com:443" ∧ (35 : Byte) ∉ lit "example.com:443")
    ∧ (lit "#HK" = [] ∨ ∃ t, lit "#HK" = 35 :: t)
    ∧ strings.TrimSpace (lit " trojan://example.com:443#HK\r")
        = lit "trojan://" ++ lit "example.com:443" ++ lit "#HK"
    ∧ ∀ env : GoEnv, ∃ proxy,
        ParseProxy env (lit "trojan://" ++ lit "example.com:443" ++ lit "#HK") = .ok proxy
        ∧ proxy.get (lit "server") = some (Value.str [])
        ∧ proxy.get (lit "port") = some (Value.str [])
        ∧ ∀ proxies, convertLine env [] proxies (lit " trojan://example.com:443#HK\r")
            = proxies ++ [proxy] :=
  ⟨Or.inl rfl, by decide, Or.inr ⟨lit "HK", by decide⟩, by decide,
   fun env => no_at_line_is_kept env (lit "trojan://") (lit "example.com:443") (lit "#HK")
      (lit " trojan://example.com:443#HK\r") (Or.inl rfl) (by decide)
      (Or.inr ⟨lit "HK", by decide⟩) (by decide)⟩

/-- C4, evaluated on the code: `parseShadowsocks` cuts server and port at the FIRST `:`
after the `@` (`strings.Index`), where `parseTrojan` and `parseVless` cut at the last
(`strings.LastIndex`).  An IPv6 literal is torn apart. -/
theorem ss_splits_at_first_colon :
    (∀ env : GoEnv, ParseProxy env (lit "ss://aes-256-gcm:pw@[::1]:8388")
        = .ok [(lit "name", Value.str (lit "[::1]:8388")),
               (lit "type", Value.str (lit "ss")),
               (lit "server", Value.str (lit "[")),
               (lit "port", Value.str (lit ":1]:8388")),
               (lit "cipher", Value.str (lit "aes-256-gcm")),
               (lit "password", Value.str (lit "pw"))])
    ∧ (∀ env : GoEnv, ParseProxy env (lit "trojan://pw@[::1]:8388")
        = .ok [(lit "name", Value.str (lit "[::1]:8388")),
               (lit "type", Value.str (lit "trojan")),
               (lit "server", Value.str (lit "[::1]")),
               (lit "port", Value.str (lit "8388")),
               (lit "password", Value.str (lit "pw")),
               (lit "sni", Value.str (lit "[::1]")),
               (lit "skip-cert-verify", Value.bool true)]) :=
  ⟨fun _ => rfl, fun _ => rfl⟩

/-- C5, evaluated on the code: the SSR URI built as the claim says from server
`example.com`, port 8388, protocol `origin`, method `aes-256-cfb`, obfs `plain` and
password `pw` is rejected, with its padding kept and with its padding stripped: the parser
strips the trailing `=` and then decodes with the padded encodings, which need them. -/
theorem ssr_round_trip_fails :
    parseShadowsocksR (lit "ssr://" ++ base64.EncodeToString base64.encodeURL
        (lit "example.com:8388:origin:aes-256-cfb:plain:"
          ++ base64.EncodeToString base64.encodeURL (lit "pw")))
      = .error Err.corruptInput
    ∧ parseShadowsocksR (lit "ssr://" ++ strings.TrimRight (base64.EncodeToString base64.encodeURL
        (lit "example.com:8388:origin:aes-256-cfb:plain:"
          ++ base64.EncodeToString base64.encodeURL (lit "pw"))) 61)
      = .error Err.corruptInput
    ∧ base64.EncodeToString base64.encodeURL
        (lit "example.com:8388:origin:aes-256-cfb:plain:"
          ++ base64.EncodeToString base64.encodeURL (lit "pw"))
      = lit "ZXhhbXBsZS5jb206ODM4ODpvcmlnaW46YWVzLTI1Ni1jZmI6cGxhaW46Y0hjPQ==" :=
  ⟨rfl, rfl, rfl⟩

/-- C6, evaluated on the code: the `remarks` parameter is not base64-decoded (`obfsparam`
and `protoparam` are).  For the body
`example.com:8388:origin:aes-256-cfb:plain:cHdk/?remarks=SEsx`, where `SEsx` encodes
`HK1`, the name is the text `SEsx` itself. -/
theorem ssr_remarks_not_decoded :
    (∀ env : GoEnv, ParseProxy env (lit "ssr://" ++ base64.EncodeToString base64.encodeURL
        (lit "example.com:8388:origin:aes-256-cfb:plain:cHdk/?remarks=SEsx"))
      = .ok [(lit "name", Value.str (lit "SEsx")),
             (lit "type", Value.str (lit "ssr")),
             (lit "server", Value.str (lit "example.com")),
             (lit "port", Value.int 8388),
             (lit "cipher", Value.str (lit "aes-256-cfb")),
             (lit "password", Value.str (lit "pwd")),
             (lit "protocol", Value.str (lit "origin")),
             (lit "obfs", Value.str (lit "plain"))])
    ∧ decodeUrlThenStd (lit "SEsx") = some (lit "HK1") :=
  ⟨fun _ => rfl, rfl⟩

/-- C7, evaluated on the code: `parseShadowsocksR` has no fallback for an empty name.  For
the body `ex.com:8388:origin:aes-256-cfb:plain:cHdk/?remarks=%F0%9F%98%80` the remarks
decode to U+1F600, which `removeEmojis` strips, and the record's name is the empty
string, not `ex.com:8388`. -/
theorem ssr_name_empty :
    ∀ env : GoEnv, ParseProxy env (lit "ssr://" ++ base64.EncodeToString base64.encodeURL
        (lit "ex.com:8388:origin:aes-256-cfb:plain:cHdk/?remarks=%F0%9F%98%80"))
      = .ok [(lit "name", Value.str []),
             (lit "type", Value.str (lit "ssr")),
             (lit "server", Value.str (lit "ex.com")),
             (lit "port", Value.int 8388),
             (lit "cipher", Value.str (lit "aes-256-cfb")),
             (lit "password", Value.str (lit "pwd")),
             (lit "protocol", Value.str (lit "origin")),
             (lit "obfs", Value.str (lit "plain"))] :=
  fun _ => rfl

/-- C8, evaluated on the code: only the form path of `ConvertHandler` trims the keywords;
a keyword of a JSON body reaches `ConvertToMihomo` as it is, and `ConvertToMihomo` does
not trim.  With the JSON keyword `" SG "` the record `SG-1:443` is dropped, with `"SG"`,
or with the form field `" SG "`, it is kept. -/
theorem json_keyword_not_trimmed :
    (∀ env : GoEnv, convertRequest env (lit "trojan://pw@SG-1:443\n") (jsonFilter [lit " SG "])
        = .ok (buildConfig []))
    ∧ (∀ env : GoEnv, convertRequest env (lit "trojan://pw@SG-1:443\n") (jsonFilter [lit "SG"])
        = .ok (buildConfig
            [[(lit "name", Value.str (lit "SG-1:443")),
              (lit "type", Value.str (lit "trojan")),
              (lit "server", Value.str (lit "SG-1")),
              (lit "port", Value.str (lit "443")),
              (lit "password", Value.str (lit "pw")),
              (lit "sni", Value.str (lit "SG-1")),
              (lit "skip-cert-verify", Value.bool true)]]))
    ∧ (∀ env : GoEnv, convertRequest env (lit "trojan://pw@SG-1:443\n") (formFilter (lit " SG "))
        = .ok (buildConfig
            [[(lit "name", Value.str (lit "SG-1:443")),
              (lit "type", Value.str (lit "trojan")),
              (lit "server", Value.str (lit "SG-1")),
              (lit "port", Value.str (lit "443")),
              (lit "password", Value.str (lit "pw")),
              (lit "sni", Value.str (lit "SG-1")),
              (lit "skip-cert-verify", Value.bool true)]])) :=
  ⟨fun _ => rfl, fun _ => rfl, fun _ => rfl⟩

/-- C9: for every method without `:`, `@`, `#`, every password without `@`, `#`, every
server without `:`, `#` and every port without `#`, `ParseProxy` on
`"ss://" + method + ":" + password + "@" + server + ":" + port` succeeds with type `ss`,
cipher = method, password = password, that server and port, and the name `server:port`;
and the base64 attempt on `method:password` fails at every padding length, because `:` is
outside the base64 alphabet, so that the literal branch is the one taken. -/
theorem ss_literal_form (env : GoEnv) (method password server port : Str)
    (hmethod : (58 : Byte) ∉ method ∧ (64 : Byte) ∉ method ∧ (35 : Byte) ∉ method)
    (hpassword : (64 : Byte) ∉ password ∧ (35 : Byte) ∉ password)
    (hserver : (58 : Byte) ∉ server ∧ (35 : Byte) ∉ server)
    (hport : (35 : Byte) ∉ port) :
    ParseProxy env
        (lit "ss://" ++ method ++ lit ":" ++ password ++ lit "@" ++ server ++ lit ":" ++ port)
      = .ok [(lit "name", Value.str (server ++ lit ":" ++ port)),
             (lit "type", Value.str (lit "ss")),
             (lit "server", Value.str server),
             (lit "port", Value.str port),
             (lit "cipher", Value.str method),
             (lit "password", Value.str password)]
    ∧ ∀ i : Nat, base64.StdEncoding.DecodeString
        (method ++ lit ":" ++ password ++ List.replicate i 61) = none := by
  obtain ⟨hm1, hm2, hm3⟩ := hmethod
  obtain ⟨hp1, hp2⟩ := hpassword
  obtain ⟨hs1, hs2⟩ := hserver
  constructor
  · have hshape : lit "ss://" ++ method ++ lit ":" ++ password ++ lit "@" ++ server ++ lit ":" ++ port
        = lit "ss://" ++ ((method ++ 58 :: password) ++ 64 :: (server ++ 58 :: port)) := by
      simp [lit_colon, lit_at]
    have hnohash : (35 : Byte) ∉ server ++ 58 :: port := by
      simp [hs2, hport]
    have hnohash2 : (35 : Byte) ∉ method ++ 58 :: password := by
      simp [hm3, hp2]
    have hnoat : (64 : Byte) ∉ method ++ 58 :: password := by
      simp [hm2, hp1]
    obtain ⟨sp, hsp, hparse⟩ := parseShadowsocks_authority (method ++ 58 :: password)
      (server ++ 58 :: port) hnohash2 hnoat
    have htag : splitTag ((method ++ 58 :: password) ++ 64 :: (server ++ 58 :: port))
        = ([], (method ++ 58 :: password) ++ 64 :: (server ++ 58 :: port)) :=
      splitTag_no_hash _ (by
        intro hmem
        rcases List.mem_append.1 hmem with e | e
        · exact hnohash2 e
        · rcases List.mem_cons.1 e with e | e
          · exact absurd e (by decide)
          · exact hnohash e)
    rw [htag] at hsp hparse
    have hsp2 : sp = server ++ 58 :: port := by
      have := List.append_cancel_left hsp
      exact (List.cons.inj this).2.symm
    subst hsp2
    rw [hshape]
    simp only [ParseProxy, strings.HasPrefix_append, if_true]
    rw [hparse, ssAuth_literal _ _ hm1, splitFirstColon_append _ _ hs1]
    simp only [ssRecord, if_true, lit_colon, List.append_assoc, List.singleton_append]
  · intro i
    have : method ++ lit ":" ++ password ++ List.replicate i 61
        = method ++ 58 :: (password ++ List.replicate i 61) := by simp [lit_colon]
    rw [this]
    exact base64.decodeFrom_bad base64.encodeStd 58 base64.decodeMap_std_colon (by decide)
      (by decide) (by decide) _ (by simp) []

/-- C9 at method `aes-256-gcm`, password `pa:ss`, server `example.com`, port `8388`. -/
theorem ss_literal_form_witness :
    ((58 : Byte) ∉ lit "aes-256-gcm" ∧ (64 : Byte) ∉ lit "aes-256-gcm" ∧ (35 : Byte) ∉ lit "aes-256-gcm")
    ∧ ((64 : Byte) ∉ lit "pa:ss" ∧ (35 : Byte) ∉ lit "pa:ss")
    ∧ ((58 : Byte) ∉ lit "example.com" ∧ (35 : Byte) ∉ lit "example.com")
    ∧ (35 : Byte) ∉ lit "8388"
    ∧ ∀ env : GoEnv, ParseProxy env
        (lit "ss://" ++ lit "aes-256-gcm" ++ lit ":" ++ lit "pa:ss" ++ lit "@" ++ lit "example.com" ++ lit ":" ++ lit "8388")
      = .ok [(lit "name", Value.str (lit "example.com" ++ lit ":" ++ lit "8388")),
             (lit "type", Value.str (lit "ss")),
             (lit "server", Value.str (lit "example.com")),
             (lit "port", Value.str (lit "8388")),
             (lit "cipher", Value.str (lit "aes-256-gcm")),
             (lit "password", Value.str (lit "pa:ss"))] :=
  ⟨by decide, by decide, by decide, by decide,
   fun env => (ss_literal_form env (lit "aes-256-gcm") (lit "pa:ss") (lit "example.com") (lit "8388")
      (by decide) (by decide) (by decide) (by decide)).1⟩

/-- C10: for every method without `:` and every password, whenever `enc` followed by `k`
characters `=` is the standard base64 encoding of `method + ":" + password` (so `enc` is
that encoding with `k` of its trailing `=` removed, `k = 0` included), the padding loop
recovers exactly the bytes `method:password`, and `ParseProxy` on
`"ss://" + enc + "@" + server + ":" + port` succeeds with cipher = method and
password = password, the colons inside the password kept. -/
theorem ss_base64_round_trip (env : GoEnv) (method password server port enc : Str) (k : Nat)
    (hmethod : (58 : Byte) ∉ method)
    (hE : enc ++ List.replicate k 61
      = base64.EncodeToString base64.encodeStd (method ++ lit ":" ++ password)) :
    decodePadded enc = some (method ++ lit ":" ++ password) ∧
    ∃ proxy, ParseProxy env (lit "ss://" ++ enc ++ lit "@" ++ server ++ lit ":" ++ port)
        = .ok proxy
      ∧ proxy.get (lit "cipher") = some (Value.str method)
      ∧ proxy.get (lit "password") = some (Value.str password) := by
  obtain ⟨hd, h35, h64⟩ := decodePadded_encoding _ _ _ hE
  refine ⟨hd, ?_⟩
  have hshape : lit "ss://" ++ enc ++ lit "@" ++ server ++ lit ":" ++ port
      = lit "ss://" ++ (enc ++ 64 :: (server ++ lit ":" ++ port)) := by
    simp [lit_at]
  obtain ⟨sp, -, hparse⟩ := parseShadowsocks_authority enc (server ++ lit ":" ++ port) h35 h64
  have hd2 : decodePadded enc = some (method ++ 58 :: password) := by
    rw [hd]; simp [lit_colon]
  rw [ssAuth_encoded method password enc hmethod hd2] at hparse
  refine ⟨ssRecord (splitTag (enc ++ 64 :: (server ++ lit ":" ++ port))).1 (splitFirstColon sp).1
    (splitFirstColon sp).2 method password, ?_, ?_, ?_⟩
  · rw [hshape]
    simp only [ParseProxy, strings.HasPrefix_append, if_true]
    exact hparse
  · rfl
  · rfl

/-- C10 at method `aes-256-gcm` and password `pa:ss`, whose encoding
`YWVzLTI1Ni1nY206cGE6c3M=` is given without its padding character. -/
theorem ss_base64_round_trip_witness :
    (58 : Byte) ∉ lit "aes-256-gcm"
    ∧ lit "YWVzLTI1Ni1nY206cGE6c3M" ++ List.replicate 1 61
        = base64.EncodeToString base64.encodeStd (lit "aes-256-gcm" ++ lit ":" ++ lit "pa:ss")
    ∧ ∀ env : GoEnv,
        decodePadded (lit "YWVzLTI1Ni1nY206cGE6c3M")
          = some (lit "aes-256-gcm" ++ lit ":" ++ lit "pa:ss")
        ∧ ∃ proxy, ParseProxy env (lit "ss://" ++ lit "YWVzLTI1Ni1nY206cGE6c3M" ++ lit "@"
              ++ lit "example.com" ++ lit ":" ++ lit "8388") = .ok proxy
          ∧ proxy.get (lit "cipher") = some (Value.str (lit "aes-256-gcm"))
          ∧ proxy.get (lit "password") = some (Value.str (lit "pa:ss")) :=
  ⟨by decide, by decide,
   fun env => ss_base64_round_trip env (lit "aes-256-gcm") (lit "pa:ss") (lit "example.com")
      (lit "8388") (lit "YWVzLTI1Ni1nY206cGE6c3M") 1 (by decide) (by decide)⟩

/-! ## Lemmas on maps and on the query -/

namespace GoMapOf

theorem get_set {α : Type} (m : GoMapOf α) (k k2 : Str) (v : α) :
    (m.set k v).get k2 = if k = k2 then some v else m.get k2 := by
  induction m with
  | nil => simp [set, get]
  | cons p t ih =>
    obtain ⟨k1, v1⟩ := p
    simp only [set]
    by_cases h1 : k1 = k
    · subst h1
      simp only [if_true, get]
      by_cases h2 : k1 = k2 <;> simp [h2]
    · simp only [h1, if_false, get, ih]
      by_cases h2 : k1 = k2
      · subst h2
        have : ¬ k = k1 := fun e => h1 e.symm
        simp [this]
      · simp [h2]

theorem get_set_ne {α : Type} (m : GoMapOf α) (k k2 : Str) (v : α) (h : k ≠ k2) :
    (m.set k v).get k2 = m.get k2 := by
  rw [get_set, if_neg h]

theorem get_set_self {α : Type} (m : GoMapOf α) (k : Str) (v : α) :
    (m.set k v).get k = some v := by
  rw [get_set, if_pos rfl]

end GoMapOf

theorem lit_eq : lit "=" = [61] := by decide

/-- The piece reading of the claim agrees with the cut `parseQuery` makes at the first
`=` found by `strings.Index`. -/
theorem queryPiece_eq (piece : Str) :
    queryPiece piece =
      match strings.Index piece (lit "=") with
      | some idx =>
        some (piece.take idx,
          strings.ReplaceAll (strings.ReplaceAll (piece.drop (idx + 1)) (lit "%3D") (lit "="))
            (lit "%26") (lit "&"))
      | none => none := by
  have hsplit := List.takeWhile_append_dropWhile (fun c => decide (c ≠ (61 : Byte))) piece
  have hkey : (61 : Byte) ∉ piece.takeWhile (fun c => decide (c ≠ (61 : Byte))) := by
    intro hmem
    have := List.mem_takeWhile_imp hmem
    simp at this
  unfold queryPiece
  rw [lit_eq]
  generalize htw : piece.takeWhile (fun c => decide (c ≠ (61 : Byte))) = tw at hsplit hkey ⊢
  cases hd : piece.dropWhile (fun c => decide (c ≠ (61 : Byte))) with
  | nil =>
    rw [hd, List.append_nil] at hsplit
    rw [hsplit] at hkey
    simp only [strings.Index_byte_none 61 piece hkey]
  | cons d raw =>
    have hd0 : d = 61 := by
      have h := List.head_dropWhile_not (fun c => decide (c ≠ (61 : Byte))) piece
        (by rw [hd]; simp)
      simp only [hd, List.head_cons] at h
      simpa using h
    subst hd0
    rw [hd] at hsplit
    have hidx := strings.Index_byte_append 61 tw raw hkey
    have htake : (tw ++ 61 :: raw).take tw.length = tw := List.take_left' rfl
    have hdrop : (tw ++ 61 :: raw).drop (tw.length + 1) = raw := by
      have : tw ++ 61 :: raw = (tw ++ [61]) ++ raw := by simp
      rw [this]
      exact List.drop_left' (by simp)
    rw [← hsplit]
    simp only [hidx, htake, hdrop]

/-- The maps `parseQuery` goes through: the pieces read so far, applied in order. -/
theorem foldl_set_get (kvs : List (Str × Str)) (m : GoMapOf Str) (k : Str) :
    (kvs.foldl (fun (params : GoMapOf Str) (p : Str × Str) => params.set p.1 p.2) m).get k =
      match kvs.reverse.find? (fun p => decide (p.1 = k)) with
      | some p => some p.2
      | none => m.get k := by
  induction kvs generalizing m with
  | nil => simp
  | cons p t ih =>
    simp only [List.foldl_cons, ih, List.reverse_cons, List.find?_append]
    cases ht : t.reverse.find? (fun p => decide (p.1 = k)) with
    | some q => simp
    | none =>
      simp only [Option.none_or, List.find?_cons, List.find?_nil, GoMapOf.get_set]
      by_cases hk : p.1 = k
      · simp [hk]
      · simp [hk]

theorem parseQuery_foldl (query : Str) :
    parseQuery query =
      ((strings.Split query 38).filterMap queryPiece).foldl
        (fun (params : GoMapOf Str) (p : Str × Str) => params.set p.1 p.2) [] := by
  unfold parseQuery
  generalize ([] : GoMapOf Str) = m
  induction strings.Split query 38 generalizing m with
  | nil => rfl
  | cons piece t ih =>
    simp only [List.foldl_cons, List.filterMap_cons, queryPiece_eq]
    cases strings.Index piece (lit "=") with
    | none => exact ih m
    | some idx => exact ih _

/-- C20: for every query string and key, the value `parseQuery` holds for the key is that
of the last `&`-separated piece whose text before its first `=` is the key, namely the
text after that first `=` with every `%3D` replaced by `=` and then every `%26` by `&`;
the key is missing when there is no such piece, pieces without `=` contribute nothing,
and nothing else is decoded. -/
theorem parseQuery_last_piece (query k : Str) :
    (parseQuery query).get k = queryValue query k := by
  rw [parseQuery_foldl, foldl_set_get, queryValue]
  cases ((strings.Split query 38).filterMap queryPiece).reverse.find?
      (fun p => decide (p.1 = k)) with
  | none => rfl
  | some p => rfl

theorem ParseProxy_trojan (env : GoEnv) (rest : Str) :
    ParseProxy env (lit "trojan://" ++ rest) = parseTrojan (lit "trojan://" ++ rest) := by
  have h1 : strings.HasPrefix (lit "trojan://" ++ rest) (lit "ss://") = false := by rfl
  have h2 : strings.HasPrefix (lit "trojan://" ++ rest) (lit "vmess://") = false := by rfl
  simp only [ParseProxy, h1, h2, strings.HasPrefix_append, if_true]
  rfl

theorem ParseProxy_vless (env : GoEnv) (rest : Str) :
    ParseProxy env (lit "vless://" ++ rest) = parseVless (lit "vless://" ++ rest) := by
  have h1 : strings.HasPrefix (lit "vless://" ++ rest) (lit "ss://") = false := by rfl
  have h2 : strings.HasPrefix (lit "vless://" ++ rest) (lit "vmess://") = false := by rfl
  have h3 : strings.HasPrefix (lit "vless://" ++ rest) (lit "trojan://") = false := by rfl
  simp only [ParseProxy, h1, h2, h3, strings.HasPrefix_append, if_true]
  rfl


theorem lit_question : lit "?" = [63] := by decide

namespace strings

theorem LastIndex_byte_none (c : Byte) (s : Str) (h : c ∉ s) : LastIndex s [c] = none := by
  induction s with
  | nil => simp [LastIndex, List.isPrefixOf]
  | cons x t ih =>
    have hx : c ≠ x := fun e => h (by simp [e])
    have ht : c ∉ t := fun e => h (by simp [e])
    simp [LastIndex, isPrefixOf_single, hx, ih ht]

theorem LastIndex_byte_append (c : Byte) (a b : Str) (h : c ∉ b) :
    LastIndex (a ++ c :: b) [c] = some a.length := by
  induction a with
  | nil => simp [LastIndex, isPrefixOf_single, LastIndex_byte_none c b h]
  | cons x t ih => simp [LastIndex, ih]

end strings

/-- The authority split on `credential@server:port?query`. -/
theorem splitAuthority_parts (credential server port query : Str)
    (hc : (64 : Byte) ∉ credential) (hs : (63 : Byte) ∉ server)
    (hp : (58 : Byte) ∉ port ∧ (63 : Byte) ∉ port) :
    splitAuthority (credential ++ 64 :: ((server ++ 58 :: port) ++ 63 :: query))
      = (credential, server, port, query) := by
  have h63 : (63 : Byte) ∉ server ++ 58 :: port := by
    simp [hs, hp.2]
  have hdrop : List.drop (credential.length + 1)
      (credential ++ 64 :: ((server ++ 58 :: port) ++ 63 :: query))
      = (server ++ 58 :: port) ++ 63 :: query := by
    have : credential ++ 64 :: ((server ++ 58 :: port) ++ 63 :: query)
        = (credential ++ [64]) ++ ((server ++ 58 :: port) ++ 63 :: query) := by simp
    rw [this]
    exact List.drop_left' (by simp)
  have hdrop2 : List.drop ((server ++ 58 :: port).length + 1)
      ((server ++ 58 :: port) ++ 63 :: query) = query := by
    have : (server ++ 58 :: port) ++ 63 :: query
        = ((server ++ 58 :: port) ++ [63]) ++ query := by simp
    rw [this]
    exact List.drop_left' (by simp [Nat.add_assoc])
  have hdrop3 : List.drop (server.length + 1) (server ++ 58 :: port) = port := by
    have : server ++ 58 :: port = (server ++ [58]) ++ port := by simp
    rw [this]
    exact List.drop_left' (by simp)
  simp only [splitAuthority, lit_at, lit_question, lit_colon,
    strings.Index_byte_append 64 credential _ hc, hdrop,
    strings.Index_byte_append 63 (server ++ 58 :: port) query h63, hdrop2,
    List.take_left' (rfl : (server ++ 58 :: port).length = (server ++ 58 :: port).length),
    strings.LastIndex_byte_append 58 server port hp.1, hdrop3,
    List.take_left' (rfl : credential.length = credential.length),
    List.take_left' (rfl : server.length = server.length)]

theorem vlessNetwork_get (params : GoMapOf Str) (proxy : GoMap) (k : Str)
    (h1 : lit "network" ≠ k) (h2 : lit "ws-opts" ≠ k) (h3 : lit "grpc-opts" ≠ k) :
    (vlessNetwork params proxy).get k = proxy.get k := by
  unfold vlessNetwork
  repeat' split
  all_goals simp only [GoMapOf.get_set_ne _ _ _ _ h1, GoMapOf.get_set_ne _ _ _ _ h2,
    GoMapOf.get_set_ne _ _ _ _ h3]

/-- C18: for every credential without `@`, `#`, every server without `?`, `#` (colons
allowed), every port without `:`, `?`, `#` and every query without `#`, the line
`"trojan://" + credential + "@" + server + ":" + port + "?" + query` parses to a record
with password = credential, that server and that port, and the same line with `vless://`
to a record with uuid = credential, that server and that port: the cut is at the last `:`
before the first `?`, whatever the query holds. -/
theorem authority_split (env : GoEnv) (credential server port query : Str)
    (hcredential : (64 : Byte) ∉ credential ∧ (35 : Byte) ∉ credential)
    (hserver : (63 : Byte) ∉ server ∧ (35 : Byte) ∉ server)
    (hport : (58 : Byte) ∉ port ∧ (63 : Byte) ∉ port ∧ (35 : Byte) ∉ port)
    (hquery : (35 : Byte) ∉ query) :
    (∃ proxy,
      ParseProxy env (lit "trojan://" ++ credential ++ lit "@" ++ server ++ lit ":" ++ port
          ++ lit "?" ++ query) = .ok proxy
      ∧ proxy.get (lit "password") = some (Value.str credential)
      ∧ proxy.get (lit "server") = some (Value.str server)
      ∧ proxy.get (lit "port") = some (Value.str port))
    ∧ (∃ proxy,
      ParseProxy env (lit "vless://" ++ credential ++ lit "@" ++ server ++ lit ":" ++ port
          ++ lit "?" ++ query) = .ok proxy
      ∧ proxy.get (lit "uuid") = some (Value.str credential)
      ∧ proxy.get (lit "server") = some (Value.str server)
      ∧ proxy.get (lit "port") = some (Value.str port)) := by
  have hshape : ∀ scheme : Str,
      scheme ++ credential ++ lit "@" ++ server ++ lit ":" ++ port ++ lit "?" ++ query
        = scheme ++ (credential ++ 64 :: ((server ++ 58 :: port) ++ 63 :: query)) := by
    intro scheme
    simp [lit_at, lit_colon, lit_question]
  have hnohash : (35 : Byte) ∉ credential ++ 64 :: ((server ++ 58 :: port) ++ 63 :: query) := by
    simp [hcredential.2, hserver.2, hport.2.2, hquery]
  have hauth := splitAuthority_parts credential server port query hcredential.1 hserver.1
    ⟨hport.1, hport.2.1⟩
  constructor
  · rw [hshape, ParseProxy_trojan]
    simp only [parseTrojan, strings.TrimPrefix_append, splitTag_no_hash _ hnohash, hauth]
    generalize parseQuery query = params
    refine ⟨_, rfl, ?_, ?_, ?_⟩
    all_goals
      cases hsni : params.get (lit "sni") <;>
      cases halpn : params.get (lit "alpn") <;>
      cases hfp : params.get (lit "fp") <;>
      cases hai : params.get (lit "allowInsecure") <;>
      simp only [] <;>
      first
        | rfl
        | (split <;> rfl)
  · rw [hshape, ParseProxy_vless]
    simp only [parseVless, strings.TrimPrefix_append, splitTag_no_hash _ hnohash, hauth]
    generalize parseQuery query = params
    refine ⟨_, rfl, ?_, ?_, ?_⟩
    all_goals
      cases hflow : params.get (lit "flow") <;>
      cases hsni : params.get (lit "sni") <;>
      cases halpn : params.get (lit "alpn") <;>
      cases hfp : params.get (lit "fp") <;>
      simp only [] <;>
      simp only [GoMapOf.get_set_ne _ _ _ _ (show lit "client-fingerprint" ≠ lit "uuid" by decide),
        GoMapOf.get_set_ne _ _ _ _ (show lit "client-fingerprint" ≠ lit "server" by decide),
        GoMapOf.get_set_ne _ _ _ _ (show lit "client-fingerprint" ≠ lit "port" by decide),
        GoMapOf.get_set_ne _ _ _ _ (show lit "alpn" ≠ lit "uuid" by decide),
        GoMapOf.get_set_ne _ _ _ _ (show lit "alpn" ≠ lit "server" by decide),
        GoMapOf.get_set_ne _ _ _ _ (show lit "alpn" ≠ lit "port" by decide),
        vlessNetwork_get _ _ (lit "uuid") (by decide) (by decide) (by decide),
        vlessNetwork_get _ _ (lit "server") (by decide) (by decide) (by decide),
        vlessNetwork_get _ _ (lit "port") (by decide) (by decide) (by decide)] <;>
      rfl

/-! ## The query of a trojan URI -/

namespace strings

/-- The cut at the first occurrence of a byte that `strings.Index` gives, told with
`takeWhile` and `dropWhile`. -/
theorem Index_byte_split (c : Byte) (s : Str) :
    (Index s [c] = none ∧ s.takeWhile (fun b => decide (b ≠ c)) = s
        ∧ s.dropWhile (fun b => decide (b ≠ c)) = [])
      ∨ ∃ idx, Index s [c] = some idx
          ∧ s.take idx = s.takeWhile (fun b => decide (b ≠ c))
          ∧ s.drop (idx + 1) = (s.dropWhile (fun b => decide (b ≠ c))).drop 1 := by
  have hsplit := List.takeWhile_append_dropWhile (fun b => decide (b ≠ c)) s
  have hkey : c ∉ s.takeWhile (fun b => decide (b ≠ c)) := by
    intro hmem
    have := List.mem_takeWhile_imp hmem
    simp at this
  generalize htw : s.takeWhile (fun b => decide (b ≠ c)) = tw at hsplit hkey ⊢
  cases hd : s.dropWhile (fun b => decide (b ≠ c)) with
  | nil =>
    rw [hd, List.append_nil] at hsplit
    left
    rw [hsplit] at hkey
    exact ⟨Index_byte_none c s hkey, hsplit, rfl⟩
  | cons d raw =>
    have hd0 : d = c := by
      have h := List.head_dropWhile_not (fun b => decide (b ≠ c)) s (by rw [hd]; simp)
      simp only [hd, List.head_cons] at h
      simpa using h
    subst hd0
    rw [hd] at hsplit
    right
    have hidx := Index_byte_append d tw raw hkey
    have htake : (tw ++ d :: raw).take tw.length = tw := List.take_left' rfl
    have hdrop : (tw ++ d :: raw).drop (tw.length + 1) = raw := by
      have : tw ++ d :: raw = (tw ++ [d]) ++ raw := by simp
      rw [this]
      exact List.drop_left' (by simp)
    rw [← hsplit]
    exact ⟨tw.length, hidx, htake, by rw [hdrop]; rfl⟩

end strings

theorem splitTag_body_eq (urlStr : Str) :
    (splitTag urlStr).2 = urlStr.takeWhile (fun c => decide (c ≠ 35)) := by
  unfold splitTag
  rw [lit_hash]
  rcases strings.Index_byte_split 35 urlStr with ⟨h1, h2, -⟩ | ⟨idx, h1, h2, -⟩
  · rw [h1, h2]
  · rw [h1, ← h2]

theorem splitAuthority_query (urlStr : Str) :
    (splitAuthority urlStr).2.2.2
      = ((((urlStr.dropWhile (fun c => decide (c ≠ 64))).drop 1).dropWhile
          (fun c => decide (c ≠ 63))).drop 1) := by
  unfold splitAuthority
  rw [lit_at, lit_question]
  rcases strings.Index_byte_split 64 urlStr with ⟨h1, -, h3⟩ | ⟨idx, h1, -, h3⟩
  · rw [h1, h3]
    rfl
  · rw [h1, ← h3]
    simp only []
    rcases strings.Index_byte_split 63 (urlStr.drop (idx + 1)) with ⟨g1, -, g3⟩ | ⟨idx2, g1, -, g3⟩
    · rw [g1, g3]
      simp only []
      split <;> rfl
    · rw [g1, ← g3]
      simp only []
      split <;> rfl

theorem uriQuery_eq (rest : Str) :
    uriQuery rest = (splitAuthority (splitTag rest).2).2.2.2 := by
  rw [splitAuthority_query, splitTag_body_eq]
  rfl

theorem parseQuery_get (query k : Str) : (parseQuery query).get k = queryValue query k := by
  rw [parseQuery_foldl, foldl_set_get, queryValue]
  cases ((strings.Split query 38).filterMap queryPiece).reverse.find?
      (fun p => decide (p.1 = k)) with
  | none => rfl
  | some p => rfl

/-- C17: for every trojan URI the record's `sni` is the query parameter `sni` when the
query of the URI has one and the parsed server (the record's `server`) otherwise, and
`skip-cert-verify` is true without a parameter `allowInsecure`, true when that parameter
is exactly `1` or `true`, and false for every other value of it.  The query is read off
the URI text (what follows the first `?` after the first `@`, up to the first `#`) and a
parameter is the value of the last `&`-separated piece with that key. -/
theorem trojan_sni_and_skip_cert_verify (env : GoEnv) (rest : Str) :
    ∃ proxy server,
      ParseProxy env (lit "trojan://" ++ rest) = .ok proxy
      ∧ proxy.get (lit "server") = some (Value.str server)
      ∧ proxy.get (lit "sni") = some (Value.str
          (match queryValue (uriQuery rest) (lit "sni") with
            | some sni => sni
            | none => server))
      ∧ proxy.get (lit "skip-cert-verify") = some (Value.bool
          (match queryValue (uriQuery rest) (lit "allowInsecure") with
            | some allowInsecure =>
              decide (allowInsecure = lit "1" ∨ allowInsecure = lit "true")
            | none => true)) := by
  rw [ParseProxy_trojan, uriQuery_eq, ← parseQuery_get, ← parseQuery_get]
  simp only [parseTrojan, strings.TrimPrefix_append]
  generalize (splitAuthority (splitTag rest).2).2.1 = server
  generalize (splitAuthority (splitTag rest).2).2.2.1 = port
  generalize (splitAuthority (splitTag rest).2).1 = password
  generalize (if (splitTag rest).1 = [] then server ++ lit ":" ++ port else (splitTag rest).1)
    = tag
  generalize parseQuery (splitAuthority (splitTag rest).2).2.2.2 = params
  refine ⟨_, server, rfl, ?_, ?_, ?_⟩
  all_goals
    cases hsni : params.get (lit "sni") <;>
    cases halpn : params.get (lit "alpn") <;>
    cases hfp : params.get (lit "fp") <;>
    cases hai : params.get (lit "allowInsecure") <;>
    simp only [] <;>
    first
      | rfl
      | (split <;> first | rfl | (rename_i hc; simp only [hc, decide_True, decide_False]; rfl))

/-- C17 at the URI `trojan://pw@h:1?allowInsecure=0&sni=x.com#T`, where both parameters
override the defaults, at `trojan://pw@h:1`, which has no query and keeps them, and at
`trojan://pw@h:1?allowInsecure=true&sni=`, where the empty `sni` is present. -/
theorem trojan_sni_and_skip_cert_verify_witness :
    uriQuery (lit "pw@h:1?allowInsecure=0&sni=x.com#T") = lit "allowInsecure=0&sni=x.com"
      ∧ (∀ env : GoEnv, ∃ proxy,
          ParseProxy env (lit "trojan://" ++ lit "pw@h:1?allowInsecure=0&sni=x.com#T") = .ok proxy
          ∧ proxy.get (lit "server") = some (Value.str (lit "h"))
          ∧ proxy.get (lit "sni") = some (Value.str (lit "x.com"))
          ∧ proxy.get (lit "skip-cert-verify") = some (Value.bool false))
      ∧ (∀ env : GoEnv, ∃ proxy,
          ParseProxy env (lit "trojan://" ++ lit "pw@h:1") = .ok proxy
          ∧ proxy.get (lit "server") = some (Value.str (lit "h"))
          ∧ proxy.get (lit "sni") = some (Value.str (lit "h"))
          ∧ proxy.get (lit "skip-cert-verify") = some (Value.bool true))
      ∧ (∀ env : GoEnv, ∃ proxy,
          ParseProxy env (lit "trojan://" ++ lit "pw@h:1?allowInsecure=true&sni=") = .ok proxy
          ∧ proxy.get (lit "server") = some (Value.str (lit "h"))
          ∧ proxy.get (lit "sni") = some (Value.str (lit ""))
          ∧ proxy.get (lit "skip-cert-verify") = some (Value.bool true)) := by
  have key : ∀ (env : GoEnv) (rest h : Str) (record : GoMap),
      ParseProxy env (lit "trojan://" ++ rest) = .ok record →
      record.get (lit "server") = some (Value.str h) →
      ∃ proxy, ParseProxy env (lit "trojan://" ++ rest) = .ok proxy
        ∧ proxy.get (lit "server") = some (Value.str h)
        ∧ proxy.get (lit "sni") = some (Value.str
            (match queryValue (uriQuery rest) (lit "sni") with
              | some sni => sni
              | none => h))
        ∧ proxy.get (lit "skip-cert-verify") = some (Value.bool
            (match queryValue (uriQuery rest) (lit "allowInsecure") with
              | some allowInsecure =>
                decide (allowInsecure = lit "1" ∨ allowInsecure = lit "true")
              | none => true)) := by
    intro env rest h record hrecord hserver
    obtain ⟨proxy, server, hp, hs, hsni, hskip⟩ := trojan_sni_and_skip_cert_verify env rest
    have hpr : proxy = record := Except.ok.inj (hp.symm.trans hrecord)
    subst hpr
    have hsv : server = h := Value.str.inj (Option.some.inj (hs.symm.trans hserver))
    subst hsv
    exact ⟨proxy, hp, hs, hsni, hskip⟩
  refine ⟨by decide, fun env => ?_, fun env => ?_, fun env => ?_⟩
  · exact key env (lit "pw@h:1?allowInsecure=0&sni=x.com#T") (lit "h") _ rfl rfl
  · exact key env (lit "pw@h:1") (lit "h") _ rfl rfl
  · exact key env (lit "pw@h:1?allowInsecure=true&sni=") (lit "h") _ rfl rfl

/-! ## Lemmas on `ConvertToMihomo` -/

theorem ConvertToMihomo_eq (env : GoEnv) (subContent : Str) (filterKeywords : List Str) :
    ConvertToMihomo env subContent filterKeywords =
      match bufio.scanLines (decodedContent subContent) with
      | none => .error Err.tooLong
      | some lines => .ok (buildConfig (lines.foldl (convertLine env filterKeywords) [])) :=
  rfl

/-- The standard decoder inverts the standard encoder. -/
theorem DecodeString_EncodeToString (t : Str) :
    base64.StdEncoding.DecodeString (base64.EncodeToString base64.encodeStd t) = some t := by
  rw [base64.EncodeToString_eq_raw]
  have h := base64.decodeFrom_raw t (base64.padLen t) (Nat.le_refl _)
  rw [if_pos rfl] at h
  exact h

theorem decodedContent_encoded (t : Str) :
    decodedContent (base64.EncodeToString base64.encodeStd t) = t := by
  simp only [decodedContent, IsBase64, DecodeString_EncodeToString, Option.isSome_some, if_true]

theorem decodedContent_plain (t : Str) (h : IsBase64 t = false) : decodedContent t = t := by
  simp [decodedContent, h]

/-- C11: for every text `t` that is not itself valid standard base64 and every keyword
list, `ConvertToMihomo` returns for the standard base64 encoding of `t` what it returns
for `t`; and whatever `t` is, also when `t` is valid base64 itself, the text scanned for
the encoding of `t` is `t`, decoded once and not again. -/
theorem base64_blob_decoded_once (env : GoEnv) (t : Str) (filterKeywords : List Str)
    (h : IsBase64 t = false) :
    ConvertToMihomo env (base64.EncodeToString base64.encodeStd t) filterKeywords
        = ConvertToMihomo env t filterKeywords
      ∧ ∀ u : Str, decodedContent (base64.EncodeToString base64.encodeStd u) = u := by
  refine ⟨?_, decodedContent_encoded⟩
  rw [ConvertToMihomo_eq, ConvertToMihomo_eq, decodedContent_encoded, decodedContent_plain t h]

theorem docProxies_buildConfig (proxies : List GoMap) :
    docProxies (buildConfig proxies) = proxies.map Value.map := rfl

theorem autoMembers_buildConfig (proxies : List GoMap) :
    autoMembers (buildConfig proxies) = proxies.map (fun proxy => valueOf proxy (lit "name")) :=
  rfl

theorem ConvertToMihomo_ok (env : GoEnv) (subContent : Str) (filterKeywords : List Str)
    (doc : GoMap) (h : ConvertToMihomo env subContent filterKeywords = .ok doc) :
    ∃ proxies, doc = buildConfig proxies := by
  rw [ConvertToMihomo_eq] at h
  cases hs : bufio.scanLines (decodedContent subContent) with
  | none => rw [hs] at h; cases h
  | some lines =>
    rw [hs] at h
    exact ⟨_, (Except.ok.inj h).symm⟩

/-- C13: in every document `ConvertToMihomo` returns, the member list of the group `AUTO`
is the list of the `name` fields of the document's proxies, in the same order and of the
same length, duplicates kept, and empty when there are no proxies. -/
theorem auto_group_lists_names (env : GoEnv) (subContent : Str) (filterKeywords : List Str)
    (doc : GoMap) (h : ConvertToMihomo env subContent filterKeywords = .ok doc) :
    autoMembers doc = (docProxies doc).map recordName
      ∧ (autoMembers doc).length = (docProxies doc).length
      ∧ (docProxies doc = [] → autoMembers doc = []) := by
  obtain ⟨proxies, rfl⟩ := ConvertToMihomo_ok env subContent filterKeywords doc h
  have h1 : autoMembers (buildConfig proxies) = (docProxies (buildConfig proxies)).map recordName := by
    rw [docProxies_buildConfig, autoMembers_buildConfig, List.map_map]
    rfl
  refine ⟨h1, ?_, ?_⟩
  · rw [h1, List.length_map]
  · intro h0
    rw [h1, h0]
    rfl

/-- C14: every document `ConvertToMihomo` returns has exactly two proxy groups, `AUTO` of
type `url-test` (with its fixed url, interval and tolerance) and then `PROXY` of type
`select` with the members `AUTO`, `DIRECT`; the rules are exactly `MATCH,PROXY`; mode,
log-level, allow-lan, mixed-port, external-controller and secret have their fixed values;
only the member list of `AUTO` varies.  The empty text gives such a document, with no
proxies. -/
theorem document_fixed_parts (env : GoEnv) (subContent : Str) (filterKeywords : List Str)
    (doc : GoMap) (h : ConvertToMihomo env subContent filterKeywords = .ok doc) :
    doc.get (lit "proxy-groups") = some (Value.list
        [Value.map
           [(lit "name", Value.str (lit "AUTO")),
            (lit "type", Value.str (lit "url-test")),
            (lit "proxies", Value.list (autoMembers doc)),
            (lit "url", Value.str (lit "http://www.gstatic.com/generate_204")),
            (lit "interval", Value.str (lit "300")),
            (lit "tolerance", Value.str (lit "50"))],
         Value.map
           [(lit "name", Value.str (lit "PROXY")),
            (lit "type", Value.str (lit "select")),
            (lit "proxies", Value.list [Value.str (lit "AUTO"), Value.str (lit "DIRECT")])]])
      ∧ doc.get (lit "rules") = some (Value.list [Value.str (lit "MATCH,PROXY")])
      ∧ doc.get (lit "mode") = some (Value.str (lit "rule"))
      ∧ doc.get (lit "log-level") = some (Value.str (lit "info"))
      ∧ doc.get (lit "allow-lan") = some (Value.bool true)
      ∧ doc.get (lit "mixed-port") = some (Value.int 10801)
      ∧ doc.get (lit "external-controller") = some (Value.str (lit "0.0.0.0:9090"))
      ∧ doc.get (lit "secret") = some (Value.str (lit "sub2mihomo"))
      ∧ ConvertToMihomo env [] filterKeywords = .ok (buildConfig []) := by
  obtain ⟨proxies, rfl⟩ := ConvertToMihomo_ok env subContent filterKeywords doc h
  exact ⟨rfl, rfl, rfl, rfl, rfl, rfl, rfl, rfl, rfl⟩

/-! ## Lemmas on the records -/

theorem parseVmess_eq (env : GoEnv) (vmessURL : Str) :
    parseVmess env vmessURL =
      match base64.StdEncoding.DecodeString
          (splitTag (strings.TrimPrefix vmessURL (lit "vmess://"))).2 with
      | none => .error Err.corruptInput
      | some decoded =>
        match env.jsonUnmarshal decoded with
        | none => .error Err.json
        | some vmessData =>
          .ok (vmessRecord env (splitTag (strings.TrimPrefix vmessURL (lit "vmess://"))).1
            vmessData) :=
  rfl

theorem ParseProxy_vmess (env : GoEnv) (rest : Str) :
    ParseProxy env (lit "vmess://" ++ rest) = parseVmess env (lit "vmess://" ++ rest) := by
  have h1 : strings.HasPrefix (lit "vmess://" ++ rest) (lit "ss://") = false := by rfl
  simp only [ParseProxy, h1, strings.HasPrefix_append, if_true]
  rfl

theorem vmessNetwork_get (env : GoEnv) (vmessData proxy : GoMap) (k : Str)
    (h1 : lit "network" ≠ k) (h2 : lit "ws-opts" ≠ k) (h3 : lit "grpc-opts" ≠ k) :
    (vmessNetwork env vmessData proxy).get k = proxy.get k := by
  unfold vmessNetwork
  repeat' split
  all_goals simp only [GoMapOf.get_set_ne _ _ _ _ h1, GoMapOf.get_set_ne _ _ _ _ h2,
    GoMapOf.get_set_ne _ _ _ _ h3]

theorem vmessRecord_port (env : GoEnv) (tag : Str) (vmessData : GoMap) :
    (vmessRecord env tag vmessData).get (lit "port")
      = some (Value.int (vmessPort env vmessData)) := by
  unfold vmessRecord
  simp only []
  rw [vmessNetwork_get _ _ _ _ (by decide) (by decide) (by decide)]
  generalize vmessData.get (lit "sni") = osni
  generalize vmessData.get (lit "tls") = otls
  generalize vmessData.get (lit "scy") = oscy
  cases osni <;> cases oscy <;> rcases otls with _ | (_ | _ | _ | _ | tls | _ | _) <;>
    simp only [] <;> (try split) <;> (try split) <;> rfl

theorem Atoi_eq_decimalValue (s : Str) :
    strconv.Atoi s =
      match decimalValue s with
      | some v => if -9223372036854775808 ≤ v ∧ v ≤ 9223372036854775807 then some v else none
      | none => none := by
  unfold strconv.Atoi decimalValue
  cases s with
  | nil => rfl
  | cons c t =>
    simp only []
    generalize (if c = 43 ∨ c = 45 then t else c :: t) = digits
    by_cases h1 : digits = []
    · simp only [h1, if_true]
    · simp only [h1, if_false]
      by_cases h2 : (digits.all fun c => decide (48 ≤ c.val ∧ c.val ≤ 57)) = true
      · simp only [h2, if_true]
      · simp only [h2, if_false]
        rfl

theorem wrapInt64_range (i : Int) :
    -9223372036854775808 ≤ wrapInt64 i ∧ wrapInt64 i ≤ 9223372036854775807 := by
  unfold wrapInt64
  omega

/-- The conversion `int(f)` always gives a value of the 64-bit type `int`. -/
theorem intOfFloat_range (env : GoEnv) (f : Float64) :
    -9223372036854775808 ≤ intOfFloat env f ∧ intOfFloat env f ≤ 9223372036854775807 := by
  unfold intOfFloat
  split
  · split
    · assumption
    · exact wrapInt64_range _
  · exact wrapInt64_range _

/-- The conversion `int(f)` discards the fraction when the result fits. -/
theorem intOfFloat_trunc (env : GoEnv) (f : Float64) (t : Int) (h : f.trunc = some t)
    (hr : -9223372036854775808 ≤ t ∧ t ≤ 9223372036854775807) : intOfFloat env f = t := by
  unfold intOfFloat
  rw [h]
  simp only [hr, and_self, if_true]

theorem vmessPort_eq_spec (env : GoEnv) (vmessData : GoMap) (v : Int)
    (h : vmessPortSpec (vmessData.get (lit "port")) = some v) :
    vmessPort env vmessData = v := by
  unfold vmessPort
  unfold vmessPortSpec at h
  generalize vmessData.get (lit "port") = o at h ⊢
  rcases o with _ | (_ | _ | _ | f | s | _ | _)
  case some.str =>
    simp only [asString, Atoi_eq_decimalValue]
    simp only [] at h
    cases hd : decimalValue s with
    | none =>
      rw [hd] at h
      cases h
      rfl
    | some d =>
      rw [hd] at h
      simp only [] at h ⊢
      by_cases hr : -9223372036854775808 ≤ d ∧ d ≤ 9223372036854775807
      · simp only [hr, and_self, if_true] at h ⊢
        exact Option.some.inj h
      · simp only [hr, if_false] at h ⊢
        exact Option.some.inj h
  case some.float =>
    simp only [] at h
    have hatoi : strconv.Atoi (asString (some (Value.float f))) = none := by rfl
    simp only [hatoi]
    cases ht : f.trunc with
    | none => rw [ht] at h; cases h
    | some t =>
      rw [ht] at h
      simp only [] at h
      by_cases hr : -9223372036854775808 ≤ t ∧ t ≤ 9223372036854775807
      · simp only [hr, and_self, if_true] at h
        cases h
        exact intOfFloat_trunc env f _ ht hr
      · simp only [hr, if_false] at h
        cases h
  all_goals
    cases h
    rfl

theorem vmessPort_range (env : GoEnv) (vmessData : GoMap) :
    -9223372036854775808 ≤ vmessPort env vmessData
      ∧ vmessPort env vmessData ≤ 9223372036854775807 := by
  unfold vmessPort
  cases ha : strconv.Atoi (asString (vmessData.get (lit "port"))) with
  | some port =>
    simp only []
    rw [Atoi_eq_decimalValue] at ha
    cases hd : decimalValue (asString (vmessData.get (lit "port"))) with
    | none => rw [hd] at ha; cases ha
    | some d =>
      rw [hd] at ha
      simp only [] at ha
      by_cases hr : -9223372036854775808 ≤ d ∧ d ≤ 9223372036854775807
      · simp only [hr, and_self, if_true] at ha
        cases ha
        exact hr
      · simp only [hr, if_false] at ha
        cases ha
  | none =>
    simp only []
    generalize vmessData.get (lit "port") = o
    rcases o with _ | (_ | _ | _ | f | s | _ | _)
    case some.float => exact intOfFloat_range env f
    all_goals
      simp only []
      omega


theorem convertLine_eq (env : GoEnv) (filterKeywords : List Str) (proxies : List GoMap)
    (text : Str) :
    convertLine env filterKeywords proxies text =
      match lineRecord env text with
      | some proxy =>
        if shouldInclude env filterKeywords proxy then proxies ++ [proxy] else proxies
      | none => proxies := by
  unfold convertLine lineRecord
  cases strings.TrimSpace text with
  | nil => simp
  | cons c rest =>
    by_cases hc : c = 35
    · subst hc
      simp [strings.HasPrefix, lit_hash]
    · have hp : strings.HasPrefix (c :: rest) (lit "#") = false := by
        rw [lit_hash]
        simp only [strings.HasPrefix, isPrefixOf_single]
        simpa using fun e => hc e.symm
      simp only [hp, hc, if_false, or_false, reduceCtorEq, Bool.false_eq_true]
      cases ParseProxy env (c :: rest) <;> rfl

/-- The scanning loop of `ConvertToMihomo`: the records of the lines, in order, those the
filter test rejects left out. -/
theorem foldl_convertLine (env : GoEnv) (filterKeywords : List Str) (lines : List Str)
    (acc : List GoMap) :
    lines.foldl (convertLine env filterKeywords) acc =
      acc ++ (lines.filterMap (lineRecord env)).filter (shouldInclude env filterKeywords) := by
  induction lines generalizing acc with
  | nil => simp
  | cons text t ih =>
    rw [List.foldl_cons, ih, convertLine_eq, List.filterMap_cons]
    cases lineRecord env text with
    | none => rfl
    | some proxy =>
      simp only [List.filter_cons]
      by_cases hk : shouldInclude env filterKeywords proxy = true
      · simp [hk]
      · simp [hk]

/-- C15: with no keywords the proxies of the document are, in the order of the scanned
lines, the records `ParseProxy` returns for exactly the lines that are not empty after
trimming, do not start with `#` after trimming and parse without error; a line that fails
to parse contributes nothing and the records of the other lines are the same. -/
theorem proxies_in_line_order (env : GoEnv) (subContent : Str) (lines : List Str)
    (h : bufio.scanLines (decodedContent subContent) = some lines) :
    ∃ doc, ConvertToMihomo env subContent [] = .ok doc
      ∧ docProxies doc = (lines.filterMap (lineRecord env)).map Value.map := by
  refine ⟨buildConfig (lines.filterMap (lineRecord env)), ?_, rfl⟩
  rw [ConvertToMihomo_eq, h]
  simp only [foldl_convertLine, List.nil_append]
  congr 2
  exact List.filter_eq_self.2 (fun p _ => shouldInclude_nil env p)

namespace strings

theorem ToLower_ascii (lowerRune : Nat → Nat) (s : Str) (h : ∀ c ∈ s, c.val < 128) :
    ToLower lowerRune s = s.map lowerByte := by
  unfold ToLower
  have hall : (s.all fun c => decide (c.val < 0x80)) = true := by
    simpa using h
  rw [if_pos hall]
  rfl

/-- `strings.Contains` holds exactly when the text is some prefix, the substring, and
some suffix. -/
theorem Contains_iff (s sub : Str) :
    Contains s sub = true ↔ ∃ pre post, s = pre ++ sub ++ post := by
  unfold Contains
  induction s with
  | nil =>
    simp only [Index]
    constructor
    · intro h
      have hsub : sub = [] := by
        cases sub with
        | nil => rfl
        | cons x t => simp [List.isPrefixOf] at h
      exact ⟨[], [], by simp [hsub]⟩
    · rintro ⟨pre, post, h⟩
      have hsub : sub = [] := by
        have := congrArg List.length h
        simp at this
        exact List.length_eq_zero.1 (by omega)
      simp [hsub]
  | cons c t ih =>
    simp only [Index]
    by_cases hp : sub.isPrefixOf (c :: t) = true
    · simp only [hp, if_true, Option.isSome_some, true_iff]
      obtain ⟨post, hpost⟩ := List.isPrefixOf_iff_prefix.1 hp
      exact ⟨[], post, by simp [hpost]⟩
    · simp only [hp, if_false, Option.isSome_map', Bool.false_eq_true]
      rw [ih]
      constructor
      · rintro ⟨pre, post, h⟩
        exact ⟨c :: pre, post, by simp [h]⟩
      · rintro ⟨pre, post, h⟩
        cases pre with
        | nil =>
          exfalso
          apply hp
          exact List.isPrefixOf_iff_prefix.2 ⟨post, by simpa using h.symm⟩
        | cons x pre2 =>
          simp only [List.cons_append, List.cons.injEq] at h
          exact ⟨pre2, post, h.2⟩

end strings

/-- For ASCII texts the filter test on a name and a keyword holds exactly when some
stretch of the name equals the keyword up to the case of the letters. -/
theorem containsFold_ascii (env : GoEnv) (name keyword : Str)
    (hname : ∀ c ∈ name, c.val < 128) (hkeyword : ∀ c ∈ keyword, c.val < 128) :
    containsFold env name keyword = true ↔
      ∃ pre mid post, name = pre ++ mid ++ post ∧ mid.map lowerByte = keyword.map lowerByte := by
  unfold containsFold
  rw [strings.ToLower_ascii _ name hname, strings.ToLower_ascii _ keyword hkeyword,
    strings.Contains_iff]
  constructor
  · rintro ⟨pre, post, h⟩
    obtain ⟨l1, post2, h1, h2, h3⟩ := List.map_eq_append_iff.1 h
    obtain ⟨pre2, mid, h4, h5, h6⟩ := List.map_eq_append_iff.1 h2
    exact ⟨pre2, mid, post2, by rw [h1, h4], h6⟩
  · rintro ⟨pre, mid, post, h1, h2⟩
    exact ⟨pre.map lowerByte, post.map lowerByte, by simp [h1, h2]⟩

theorem parseShadowsocks_name (ssURL : Str) (proxy : GoMap)
    (h : parseShadowsocks ssURL = .ok proxy) :
    ∃ n, proxy.get (lit "name") = some (Value.str n) := by
  unfold parseShadowsocks at h
  simp only [] at h
  repeat' (split at h)
  all_goals first
    | (cases h; exact ⟨_, rfl⟩)
    | cases h

theorem parseTrojan_name (trojanURL : Str) (proxy : GoMap)
    (h : parseTrojan trojanURL = .ok proxy) :
    ∃ n, proxy.get (lit "name") = some (Value.str n) := by
  unfold parseTrojan at h
  simp only [] at h
  cases h
  generalize parseQuery _ = params
  cases hsni : params.get (lit "sni") <;>
  cases halpn : params.get (lit "alpn") <;>
  cases hfp : params.get (lit "fp") <;>
  cases hai : params.get (lit "allowInsecure") <;>
  simp only [] <;>
  first
    | exact ⟨_, rfl⟩
    | (split <;> exact ⟨_, rfl⟩)

theorem parseVless_name (vlessURL : Str) (proxy : GoMap)
    (h : parseVless vlessURL = .ok proxy) :
    ∃ n, proxy.get (lit "name") = some (Value.str n) := by
  unfold parseVless at h
  simp only [] at h
  cases h
  generalize parseQuery _ = params
  cases hflow : params.get (lit "flow") <;>
  cases hsni : params.get (lit "sni") <;>
  cases halpn : params.get (lit "alpn") <;>
  cases hfp : params.get (lit "fp") <;>
  simp only [] <;>
  simp only [GoMapOf.get_set_ne _ _ _ _ (show lit "client-fingerprint" ≠ lit "name" by decide),
    GoMapOf.get_set_ne _ _ _ _ (show lit "alpn" ≠ lit "name" by decide),
    vlessNetwork_get _ _ (lit "name") (by decide) (by decide) (by decide)] <;>
  exact ⟨_, rfl⟩

theorem vmessRecord_name (env : GoEnv) (tag : Str) (vmessData : GoMap) :
    ∃ n, (vmessRecord env tag vmessData).get (lit "name") = some (Value.str n) := by
  unfold vmessRecord
  simp only []
  rw [vmessNetwork_get _ _ _ _ (by decide) (by decide) (by decide)]
  generalize vmessData.get (lit "sni") = osni
  generalize vmessData.get (lit "tls") = otls
  generalize vmessData.get (lit "scy") = oscy
  by_cases htag : tag = []
  · refine ⟨asString (vmessData.get (lit "add")) ++ lit ":"
      ++ strconv.Itoa (vmessPort env vmessData), ?_⟩
    subst htag
    simp only [if_true]
    cases osni <;> cases oscy <;> rcases otls with _ | (_ | _ | _ | _ | tls | _ | _) <;>
      simp only [] <;> (try split) <;> rfl
  · refine ⟨tag, ?_⟩
    simp only [htag, if_false]
    cases osni <;> cases oscy <;> rcases otls with _ | (_ | _ | _ | _ | tls | _ | _) <;>
      simp only [] <;> (try split) <;> rfl

theorem parseVmess_name (env : GoEnv) (vmessURL : Str) (proxy : GoMap)
    (h : parseVmess env vmessURL = .ok proxy) :
    ∃ n, proxy.get (lit "name") = some (Value.str n) := by
  rw [parseVmess_eq] at h
  repeat' (split at h)
  all_goals first
    | (cases h; exact vmessRecord_name _ _ _)
    | cases h

theorem ssrParam_get (params : GoMapOf Str) (name key : Str) (proxy : GoMap) (k : Str)
    (h : key ≠ k) : (ssrParam params name key proxy).get k = proxy.get k := by
  unfold ssrParam
  repeat' split
  all_goals simp only [GoMapOf.get_set_ne _ _ _ _ h]

theorem parseShadowsocksR_name (ssrURL : Str) (proxy : GoMap)
    (h : parseShadowsocksR ssrURL = .ok proxy) :
    ∃ n, proxy.get (lit "name") = some (Value.str n) := by
  unfold parseShadowsocksR at h
  simp only [] at h
  repeat' (split at h)
  all_goals first
    | (cases h
       simp only [ssrParam_get _ _ _ _ (lit "name") (show lit "protocol-param" ≠ lit "name" by decide),
         ssrParam_get _ _ _ _ (lit "name") (show lit "obfs-param" ≠ lit "name" by decide)]
       exact ⟨_, rfl⟩)
    | cases h

/-- Every record `ParseProxy` returns has a string under `name`. -/
theorem ParseProxy_name (env : GoEnv) (proxyURL : Str) (proxy : GoMap)
    (h : ParseProxy env proxyURL = .ok proxy) :
    ∃ n, proxy.get (lit "name") = some (Value.str n) := by
  unfold ParseProxy at h
  repeat' (split at h)
  · exact parseShadowsocks_name _ _ h
  · exact parseVmess_name _ _ _ h
  · exact parseTrojan_name _ _ h
  · exact parseVless_name _ _ h
  · exact parseTrojan_name _ _ h
  · exact parseShadowsocksR_name _ _ h
  · cases h

theorem lineRecord_some (env : GoEnv) (text : Str) (proxy : GoMap)
    (h : lineRecord env text = some proxy) : ∃ line, ParseProxy env line = .ok proxy := by
  unfold lineRecord at h
  repeat' (split at h)
  all_goals first
    | (rename_i hp; cases h; exact ⟨_, hp⟩)
    | cases h

/-- On a record with a string name the filter test of the code is the claim's test on
that name. -/
theorem shouldInclude_eq_retained (env : GoEnv) (filterKeywords : List Str) (proxy : GoMap)
    (h : ∃ n, proxy.get (lit "name") = some (Value.str n)) :
    shouldInclude env filterKeywords proxy
      = retained env filterKeywords (asString (proxy.get (lit "name"))) := by
  obtain ⟨n, hn⟩ := h
  unfold shouldInclude retained
  rw [hn]
  cases filterKeywords with
  | nil => rfl
  | cons k ks => simp [asString, containsFold]

/-- C12: for every subscription text and keyword list, the proxies of the document are
the parsed records of the scanned lines, in order, of which exactly those are kept whose
name is retained: there is no keyword, or the name contains at least one keyword as a
case-insensitive substring (OR across keywords).  The test compares both texts in lower
case; for ASCII texts it holds exactly when some stretch of the name equals the keyword
up to the case of the letters. -/
theorem filter_semantics (env : GoEnv) (subContent : Str) (filterKeywords : List Str)
    (lines : List Str) (h : bufio.scanLines (decodedContent subContent) = some lines) :
    ConvertToMihomo env subContent filterKeywords
        = .ok (buildConfig ((lines.filterMap (lineRecord env)).filter
            (fun proxy => retained env filterKeywords (asString (proxy.get (lit "name"))))))
      ∧ ∀ name keyword : Str, (∀ c ∈ name, c.val < 128) → (∀ c ∈ keyword, c.val < 128) →
          (containsFold env name keyword = true ↔
            ∃ pre mid post, name = pre ++ mid ++ post
              ∧ mid.map lowerByte = keyword.map lowerByte) := by
  refine ⟨?_, containsFold_ascii env⟩
  rw [ConvertToMihomo_eq, h]
  simp only [foldl_convertLine, List.nil_append]
  congr 2
  apply List.filter_congr
  intro proxy hmem
  obtain ⟨text, -, htext⟩ := List.mem_filterMap.1 hmem
  obtain ⟨line, hline⟩ := lineRecord_some env text proxy htext
  exact shouldInclude_eq_retained env filterKeywords proxy (ParseProxy_name env line proxy hline)

theorem ParseProxy_ssr (env : GoEnv) (rest : Str) :
    ParseProxy env (lit "ssr://" ++ rest) = parseShadowsocksR (lit "ssr://" ++ rest) := by
  have h1 : strings.HasPrefix (lit "ssr://" ++ rest) (lit "ss://") = false := by rfl
  have h2 : strings.HasPrefix (lit "ssr://" ++ rest) (lit "vmess://") = false := by rfl
  have h3 : strings.HasPrefix (lit "ssr://" ++ rest) (lit "trojan://") = false := by rfl
  have h4 : strings.HasPrefix (lit "ssr://" ++ rest) (lit "vless://") = false := by rfl
  have h5 : strings.HasPrefix (lit "ssr://" ++ rest) (lit "trojan-go://") = false := by rfl
  simp only [ParseProxy, h1, h2, h3, h4, h5, strings.HasPrefix_append, if_true]
  rfl

/-- C19: for every `ssr://` URI whose body decodes (URL-safe alphabet first, then
standard, trailing `=` stripped) to a text with fewer than 6 colon-delimited fields,
`ParseProxy` returns the error `invalid ssr format`; and for every subscription in which
a scanned line trims to that URI, `ConvertToMihomo` returns the document assembled from
the other lines alone. -/
theorem ssr_too_few_fields (env : GoEnv) (body decoded : Str)
    (hdecode : decodeUrlThenStd body = some decoded)
    (hfields : (strings.Split decoded 58).length < 6) :
    ParseProxy env (lit "ssr://" ++ body) = .error Err.invalidSsr
      ∧ ∀ (filterKeywords : List Str) (subContent text : Str) (before after : List Str),
          strings.TrimSpace text = lit "ssr://" ++ body →
          bufio.scanLines (decodedContent subContent) = some (before ++ text :: after) →
          ConvertToMihomo env subContent filterKeywords
            = .ok (buildConfig ((before ++ after).foldl (convertLine env filterKeywords) [])) := by
  have hparse : ParseProxy env (lit "ssr://" ++ body) = .error Err.invalidSsr := by
    rw [ParseProxy_ssr]
    simp only [parseShadowsocksR, strings.TrimPrefix_append, hdecode]
    split
    · rename_i heq
      rw [heq] at hfields
      simp only [List.length_cons] at hfields
      omega
    · rfl
  refine ⟨hparse, ?_⟩
  intro filterKeywords subContent text before after htext hscan
  have hnone : lineRecord env text = none := by
    unfold lineRecord
    rw [htext]
    have : lit "ssr://" ++ body = 115 :: (lit "sr://" ++ body) := rfl
    rw [this]
    simp only []
    rw [if_neg (by decide), ← this, hparse]
  rw [ConvertToMihomo_eq, hscan]
  simp only [foldl_convertLine, List.filterMap_append, List.filterMap_cons, hnone]

/-- C16 as stated fails: the string `9223372036854775808` holds a decimal integer, but for
the object with `"port": "9223372036854775808"` the record's port is 443, since
`strconv.Atoi` rejects a value outside the range of `int`. -/
theorem vmess_port_out_of_range :
    decimalValue (lit "9223372036854775808") = some 9223372036854775808
      ∧ ∀ env : GoEnv,
          env.jsonUnmarshal (lit "\x7b\"add\":\"h\",\"port\":\"9223372036854775808\"\x7d")
            = some [(lit "add", Value.str (lit "h")),
                    (lit "port", Value.str (lit "9223372036854775808"))] →
          ParseProxy env (lit "vmess://" ++ base64.EncodeToString base64.encodeStd
              (lit "\x7b\"add\":\"h\",\"port\":\"9223372036854775808\"\x7d"))
            = .ok [(lit "name", Value.str (lit "h:443")),
                   (lit "type", Value.str (lit "vmess")),
                   (lit "server", Value.str (lit "h")),
                   (lit "port", Value.int 443),
                   (lit "uuid", Value.null),
                   (lit "alterId", Value.int 0),
                   (lit "cipher", Value.str (lit "auto"))] := by
  refine ⟨by decide, ?_⟩
  intro env h
  have e1 : splitTag (base64.EncodeToString base64.encodeStd
      (lit "\x7b\"add\":\"h\",\"port\":\"9223372036854775808\"\x7d"))
      = ([], base64.EncodeToString base64.encodeStd
          (lit "\x7b\"add\":\"h\",\"port\":\"9223372036854775808\"\x7d")) := by rfl
  rw [ParseProxy_vmess, parseVmess_eq]
  simp only [strings.TrimPrefix_append, e1, DecodeString_EncodeToString, h]
  rfl

/-- C16, amended to what the code does: for every vmess URI whose body decodes to a JSON
object, parsing succeeds and the record's port is an integer of the 64-bit type `int`:
the value of the `port` entry when it is a string holding a decimal integer within the
range of that type; when it is a JSON number, the number with its fraction discarded,
provided that is within the range; and 443 in every other case (entry absent, any other
string, null or another type).  For a JSON number outside the range the port is some
value of the type, left to the implementation. -/
theorem vmess_port (env : GoEnv) (rest decoded : Str) (vmessData : GoMap)
    (hdecode : base64.StdEncoding.DecodeString (splitTag rest).2 = some decoded)
    (hjson : env.jsonUnmarshal decoded = some vmessData) :
    ∃ proxy port, ParseProxy env (lit "vmess://" ++ rest) = .ok proxy
      ∧ proxy.get (lit "port") = some (Value.int port)
      ∧ (-9223372036854775808 ≤ port ∧ port ≤ 9223372036854775807)
      ∧ ∀ v, vmessPortSpec (vmessData.get (lit "port")) = some v → port = v := by
  refine ⟨vmessRecord env (splitTag rest).1 vmessData, vmessPort env vmessData, ?_,
    vmessRecord_port _ _ _, vmessPort_range _ _, vmessPort_eq_spec env vmessData⟩
  rw [ParseProxy_vmess, parseVmess_eq]
  simp only [strings.TrimPrefix_append, hdecode, hjson]


/-- C16, the amended statement at the body `eyJwb3J0IjoiODQ0MyJ9`, the base64 of the JSON
text with the single entry `"port": "8443"`, with the tag `T`, and at the body
`eyJwb3J0Ijo4NDQzLjl9`, the base64 of the JSON text with the single entry
`"port": 8443.9`, a number whose bits are `0x40C07DF333333333`: both give the port 8443. -/
theorem vmess_port_witness :
    ∃ env : GoEnv,
      base64.StdEncoding.DecodeString (splitTag (lit "eyJwb3J0IjoiODQ0MyJ9#T")).2
          = some (lit "\x7b\"port\":\"8443\"\x7d")
      ∧ env.jsonUnmarshal (lit "\x7b\"port\":\"8443\"\x7d")
          = some [(lit "port", Value.str (lit "8443"))]
      ∧ (∃ proxy, ParseProxy env (lit "vmess://" ++ lit "eyJwb3J0IjoiODQ0MyJ9#T") = .ok proxy
          ∧ proxy.get (lit "port") = some (Value.int 8443))
      ∧ base64.StdEncoding.DecodeString (splitTag (lit "eyJwb3J0Ijo4NDQzLjl9")).2
          = some (lit "\x7b\"port\":8443.9\x7d")
      ∧ env.jsonUnmarshal (lit "\x7b\"port\":8443.9\x7d")
          = some [(lit "port", Value.float (Float64.mk 0x40C07DF333333333))]
      ∧ Float64.trunc (Float64.mk 0x40C07DF333333333) = some 8443
      ∧ (∃ proxy, ParseProxy env (lit "vmess://" ++ lit "eyJwb3J0Ijo4NDQzLjl9") = .ok proxy
          ∧ proxy.get (lit "port") = some (Value.int 8443)) := by
  refine ⟨GoEnv.mk
    (fun data =>
      if data = lit "\x7b\"port\":\"8443\"\x7d" then some [(lit "port", Value.str (lit "8443"))]
      else some [(lit "port", Value.float (Float64.mk 0x40C07DF333333333))])
    (fun _ => 0) (fun _ => []) (fun r => r), by decide, rfl, ?_, by decide, rfl, by decide, ?_⟩
  · obtain ⟨proxy, port, hp, hport, -, hv⟩ := vmess_port
      (GoEnv.mk
        (fun data =>
          if data = lit "\x7b\"port\":\"8443\"\x7d" then some [(lit "port", Value.str (lit "8443"))]
          else some [(lit "port", Value.float (Float64.mk 0x40C07DF333333333))])
        (fun _ => 0) (fun _ => []) (fun r => r))
      (lit "eyJwb3J0IjoiODQ0MyJ9#T") (lit "\x7b\"port\":\"8443\"\x7d")
      [(lit "port", Value.str (lit "8443"))] (by decide) rfl
    rw [hv 8443 (by decide)] at hport
    exact ⟨proxy, hp, hport⟩
  · obtain ⟨proxy, port, hp, hport, -, hv⟩ := vmess_port
      (GoEnv.mk
        (fun data =>
          if data = lit "\x7b\"port\":\"8443\"\x7d" then some [(lit "port", Value.str (lit "8443"))]
          else some [(lit "port", Value.float (Float64.mk 0x40C07DF333333333))])
        (fun _ => 0) (fun _ => []) (fun r => r))
      (lit "eyJwb3J0Ijo4NDQzLjl9") (lit "\x7b\"port\":8443.9\x7d")
      [(lit "port", Value.float (Float64.mk 0x40C07DF333333333))] (by decide) rfl
    rw [hv 8443 (by decide)] at hport
    exact ⟨proxy, hp, hport⟩


/-- C11 at the text `trojan://pw@h:1`, which is not valid base64. -/
theorem base64_blob_decoded_once_witness :
    IsBase64 (lit "trojan://pw@h:1") = false
      ∧ ∀ env : GoEnv,
          ConvertToMihomo env (base64.EncodeToString base64.encodeStd (lit "trojan://pw@h:1"))
              [lit "h"]
            = ConvertToMihomo env (lit "trojan://pw@h:1") [lit "h"]
          ∧ ∀ u : Str, decodedContent (base64.EncodeToString base64.encodeStd u) = u :=
  ⟨by decide, fun env => base64_blob_decoded_once env (lit "trojan://pw@h:1") [lit "h"]
    (by decide)⟩

/-- C12 at the keywords `Japan`, `SG` and three lines tagged `JP-Japan-01`, `SG-1`,
`US-1`: the first two records are kept, the third is dropped. -/
theorem filter_semantics_witness :
    bufio.scanLines (decodedContent
        (lit "trojan://p@h:1#JP-Japan-01\ntrojan://p@h:1#SG-1\ntrojan://p@h:1#US-1\n"))
      = some [lit "trojan://p@h:1#JP-Japan-01", lit "trojan://p@h:1#SG-1",
              lit "trojan://p@h:1#US-1"]
    ∧ ∀ env : GoEnv,
        (ConvertToMihomo env
            (lit "trojan://p@h:1#JP-Japan-01\ntrojan://p@h:1#SG-1\ntrojan://p@h:1#US-1\n")
            [lit "Japan", lit "SG"]
          = .ok (buildConfig
              (([lit "trojan://p@h:1#JP-Japan-01", lit "trojan://p@h:1#SG-1",
                  lit "trojan://p@h:1#US-1"].filterMap (lineRecord env)).filter
                (fun proxy => retained env [lit "Japan", lit "SG"]
                  (asString (proxy.get (lit "name"))))))
          ∧ ∀ name keyword : Str, (∀ c ∈ name, c.val < 128) → (∀ c ∈ keyword, c.val < 128) →
              (containsFold env name keyword = true ↔
                ∃ pre mid post, name = pre ++ mid ++ post
                  ∧ mid.map lowerByte = keyword.map lowerByte))
        ∧ (([lit "trojan://p@h:1#JP-Japan-01", lit "trojan://p@h:1#SG-1",
              lit "trojan://p@h:1#US-1"].filterMap (lineRecord env)).filter
            (fun proxy => retained env [lit "Japan", lit "SG"]
              (asString (proxy.get (lit "name"))))).map
            (fun proxy => asString (proxy.get (lit "name")))
          = [lit "JP-Japan-01", lit "SG-1"] :=
  ⟨by decide, fun env =>
    ⟨filter_semantics env
      (lit "trojan://p@h:1#JP-Japan-01\ntrojan://p@h:1#SG-1\ntrojan://p@h:1#US-1\n")
      [lit "Japan", lit "SG"] _ (by decide), rfl⟩⟩

/-- C13 at a subscription of two lines with the same tag: the members of `AUTO` are the
two names, the duplicate kept. -/
theorem auto_group_lists_names_witness :
    (∀ env : GoEnv, ConvertToMihomo env (lit "trojan://p@a:1#HK\ntrojan://p@b:2#HK\n") []
        = .ok (buildConfig
            [[(lit "name", Value.str (lit "HK")), (lit "type", Value.str (lit "trojan")),
              (lit "server", Value.str (lit "a")), (lit "port", Value.str (lit "1")),
              (lit "password", Value.str (lit "p")), (lit "sni", Value.str (lit "a")),
              (lit "skip-cert-verify", Value.bool true)],
             [(lit "name", Value.str (lit "HK")), (lit "type", Value.str (lit "trojan")),
              (lit "server", Value.str (lit "b")), (lit "port", Value.str (lit "2")),
              (lit "password", Value.str (lit "p")), (lit "sni", Value.str (lit "b")),
              (lit "skip-cert-verify", Value.bool true)]]))
    ∧ autoMembers (buildConfig
            [[(lit "name", Value.str (lit "HK")), (lit "type", Value.str (lit "trojan")),
              (lit "server", Value.str (lit "a")), (lit "port", Value.str (lit "1")),
              (lit "password", Value.str (lit "p")), (lit "sni", Value.str (lit "a")),
              (lit "skip-cert-verify", Value.bool true)],
             [(lit "name", Value.str (lit "HK")), (lit "type", Value.str (lit "trojan")),
              (lit "server", Value.str (lit "b")), (lit "port", Value.str (lit "2")),
              (lit "password", Value.str (lit "p")), (lit "sni", Value.str (lit "b")),
              (lit "skip-cert-verify", Value.bool true)]])
        = [Value.str (lit "HK"), Value.str (lit "HK")]
    ∧ (docProxies (buildConfig
            [[(lit "name", Value.str (lit "HK")), (lit "type", Value.str (lit "trojan")),
              (lit "server", Value.str (lit "a")), (lit "port", Value.str (lit "1")),
              (lit "password", Value.str (lit "p")), (lit "sni", Value.str (lit "a")),
              (lit "skip-cert-verify", Value.bool true)],
             [(lit "name", Value.str (lit "HK")), (lit "type", Value.str (lit "trojan")),
              (lit "server", Value.str (lit "b")), (lit "port", Value.str (lit "2")),
              (lit "password", Value.str (lit "p")), (lit "sni", Value.str (lit "b")),
              (lit "skip-cert-verify", Value.bool true)]])).map recordName
        = [Value.str (lit "HK"), Value.str (lit "HK")] :=
  ⟨fun _ => rfl, rfl,
    (auto_group_lists_names (GoEnv.mk (fun _ => none) (fun _ => 0) (fun _ => []) (fun r => r))
      (lit "trojan://p@a:1#HK\ntrojan://p@b:2#HK\n") [] _ rfl).1 ▸ rfl⟩

/-- C14 at a subscription whose only line does not parse, with a keyword. -/
theorem document_fixed_parts_witness :
    (∀ env : GoEnv, ConvertToMihomo env (lit "http://example.com\n") [lit "HK"]
        = .ok (buildConfig []))
    ∧ GoMapOf.get (buildConfig []) (lit "rules") = some (Value.list [Value.str (lit "MATCH,PROXY")])
    ∧ GoMapOf.get (buildConfig []) (lit "mixed-port") = some (Value.int 10801)
    ∧ autoMembers (buildConfig []) = [] :=
  ⟨fun _ => rfl,
    (document_fixed_parts (GoEnv.mk (fun _ => none) (fun _ => 0) (fun _ => []) (fun r => r))
      (lit "http://example.com\n") [lit "HK"] _ rfl).2.1,
    (document_fixed_parts (GoEnv.mk (fun _ => none) (fun _ => 0) (fun _ => []) (fun r => r))
      (lit "http://example.com\n") [lit "HK"] _ rfl).2.2.2.2.2.1,
    rfl⟩

/-- C15 at a subscription with one malformed line between two valid lines: the two valid
records, in their order. -/
theorem proxies_in_line_order_witness :
    bufio.scanLines (decodedContent (lit "trojan://p@a:1\nbogus\n#c\n\n vless://u@b:2\n"))
      = some [lit "trojan://p@a:1", lit "bogus", lit "#c", lit "", lit " vless://u@b:2"]
    ∧ ∀ env : GoEnv,
        (∃ doc, ConvertToMihomo env (lit "trojan://p@a:1\nbogus\n#c\n\n vless://u@b:2\n") []
            = .ok doc
          ∧ docProxies doc
            = ([lit "trojan://p@a:1", lit "bogus", lit "#c", lit "", lit " vless://u@b:2"].filterMap
                (lineRecord env)).map Value.map)
        ∧ [lit "trojan://p@a:1", lit "bogus", lit "#c", lit "", lit " vless://u@b:2"].filterMap
              (lineRecord env)
            = [[(lit "name", Value.str (lit "a:1")), (lit "type", Value.str (lit "trojan")),
                (lit "server", Value.str (lit "a")), (lit "port", Value.str (lit "1")),
                (lit "password", Value.str (lit "p")), (lit "sni", Value.str (lit "a")),
                (lit "skip-cert-verify", Value.bool true)],
               [(lit "name", Value.str (lit "b:2")), (lit "type", Value.str (lit "vless")),
                (lit "server", Value.str (lit "b")), (lit "port", Value.str (lit "2")),
                (lit "uuid", Value.str (lit "u")), (lit "skip-cert-verify", Value.bool true)]] :=
  ⟨by decide, fun env =>
    ⟨proxies_in_line_order env (lit "trojan://p@a:1\nbogus\n#c\n\n vless://u@b:2\n") _
      (by decide), rfl⟩⟩

/-- C18 at credential `pw`, server `[::1]`, port `443` and query `sni=a:b&x=1`. -/
theorem authority_split_witness :
    ((64 : Byte) ∉ lit "pw" ∧ (35 : Byte) ∉ lit "pw")
    ∧ ((63 : Byte) ∉ lit "[::1]" ∧ (35 : Byte) ∉ lit "[::1]")
    ∧ ((58 : Byte) ∉ lit "443" ∧ (63 : Byte) ∉ lit "443" ∧ (35 : Byte) ∉ lit "443")
    ∧ (35 : Byte) ∉ lit "sni=a:b&x=1"
    ∧ ∀ env : GoEnv,
        (∃ proxy,
          ParseProxy env (lit "trojan://" ++ lit "pw" ++ lit "@" ++ lit "[::1]" ++ lit ":"
              ++ lit "443" ++ lit "?" ++ lit "sni=a:b&x=1") = .ok proxy
          ∧ proxy.get (lit "password") = some (Value.str (lit "pw"))
          ∧ proxy.get (lit "server") = some (Value.str (lit "[::1]"))
          ∧ proxy.get (lit "port") = some (Value.str (lit "443")))
        ∧ (∃ proxy,
          ParseProxy env (lit "vless://" ++ lit "pw" ++ lit "@" ++ lit "[::1]" ++ lit ":"
              ++ lit "443" ++ lit "?" ++ lit "sni=a:b&x=1") = .ok proxy
          ∧ proxy.get (lit "uuid") = some (Value.str (lit "pw"))
          ∧ proxy.get (lit "server") = some (Value.str (lit "[::1]"))
          ∧ proxy.get (lit "port") = some (Value.str (lit "443"))) :=
  ⟨by decide, by decide, by decide, by decide,
    fun env => authority_split env (lit "pw") (lit "[::1]") (lit "443") (lit "sni=a:b&x=1")
      (by decide) (by decide) (by decide) (by decide)⟩

/-- C19 at the body `YTpi`, which decodes to `a:b`, on a line between two valid lines. -/
theorem ssr_too_few_fields_witness :
    decodeUrlThenStd (lit "YTpi") = some (lit "a:b")
    ∧ (strings.Split (lit "a:b") 58).length < 6
    ∧ ∀ env : GoEnv,
        ParseProxy env (lit "ssr://" ++ lit "YTpi") = .error Err.invalidSsr
        ∧ ∀ (filterKeywords : List Str) (subContent text : Str) (before after : List Str),
            strings.TrimSpace text = lit "ssr://" ++ lit "YTpi" →
            bufio.scanLines (decodedContent subContent) = some (before ++ text :: after) →
            ConvertToMihomo env subContent filterKeywords
              = .ok (buildConfig ((before ++ after).foldl (convertLine env filterKeywords) [])) :=
  ⟨by decide, by decide,
    fun env => ssr_too_few_fields env (lit "YTpi") (lit "a:b") (by decide) (by decide)⟩

/-! ## Unsupported prefixes, the scanner's limit and the vmess `alterId` -/

/-- C21: for every line that begins with none of the prefixes `ss://`, `vmess://`,
`trojan://`, `vless://`, `trojan-go://`, `ssr://`, `ParseProxy` returns the error
`unsupported proxy type` for that line, and so no record. -/
theorem unsupported_scheme (env : GoEnv) (proxyURL : Str)
    (hss : strings.HasPrefix proxyURL (lit "ss://") = false)
    (hvmess : strings.HasPrefix proxyURL (lit "vmess://") = false)
    (htrojan : strings.HasPrefix proxyURL (lit "trojan://") = false)
    (hvless : strings.HasPrefix proxyURL (lit "vless://") = false)
    (htrojanGo : strings.HasPrefix proxyURL (lit "trojan-go://") = false)
    (hssr : strings.HasPrefix proxyURL (lit "ssr://") = false) :
    ParseProxy env proxyURL = .error (Err.unsupported proxyURL)
      ∧ ∀ proxy, ParseProxy env proxyURL ≠ .ok proxy := by
  have h : ParseProxy env proxyURL = .error (Err.unsupported proxyURL) := by
    simp only [ParseProxy, hss, hvmess, htrojan, hvless, htrojanGo, hssr]
    rfl
  refine ⟨h, ?_⟩
  intro proxy hp
  rw [h] at hp
  cases hp

/-- C21 at the line `http://example.com:8080`, and at the line `SS://a:b@h:1`, whose prefix
is in upper case. -/
theorem unsupported_scheme_witness :
    (∀ env : GoEnv,
      ParseProxy env (lit "http://example.com:8080")
        = .error (Err.unsupported (lit "http://example.com:8080")))
      ∧ (∀ env : GoEnv, ∀ proxy, ParseProxy env (lit "SS://a:b@h:1") ≠ .ok proxy) :=
  ⟨fun env => (unsupported_scheme env (lit "http://example.com:8080")
      (by decide) (by decide) (by decide) (by decide) (by decide) (by decide)).1,
   fun env => (unsupported_scheme env (lit "SS://a:b@h:1")
      (by decide) (by decide) (by decide) (by decide) (by decide) (by decide)).2⟩

namespace strings

theorem Split_no_sep (s : Str) (c : Byte) (h : c ∉ s) : Split s c = [s] := by
  induction s with
  | nil => rfl
  | cons x t ih =>
    have hx : x ≠ c := fun e => h (by simp [e])
    have ht : c ∉ t := fun e => h (by simp [e])
    simp [Split, hx, ih ht]

end strings

theorem scanLines_eq_none (s : Str) :
    bufio.scanLines s = none ↔
      ∃ line ∈ strings.Split s 10, bufio.MaxScanTokenSize ≤ line.length := by
  unfold bufio.scanLines
  split
  · rename_i h
    simpa using h
  · rename_i h
    simpa using h

/-- C22: `ConvertToMihomo` returns the scanner's error, and no document, when the text it
scans (the input, or its decoding when the input is base64) has a line, taken between two
newline characters, of more than `bufio.MaxScanTokenSize` bytes, which is 64 KiB; and for
every input whose lines all have fewer bytes than that it returns a document, whatever the
lines contain.  The scan, and with it the conversion, fails exactly when some line has
`bufio.MaxScanTokenSize` bytes or more, and no other error is returned. -/
theorem scan_failure_is_fatal (env : GoEnv) (subContent : Str) (filterKeywords : List Str) :
    ((∃ line ∈ strings.Split (decodedContent subContent) 10,
          bufio.MaxScanTokenSize < line.length) →
        ConvertToMihomo env subContent filterKeywords = .error Err.tooLong)
      ∧ ((∀ line ∈ strings.Split (decodedContent subContent) 10,
            line.length < bufio.MaxScanTokenSize) →
          ∃ proxies, ConvertToMihomo env subContent filterKeywords = .ok (buildConfig proxies))
      ∧ ((∃ e, ConvertToMihomo env subContent filterKeywords = .error e) ↔
          ∃ line ∈ strings.Split (decodedContent subContent) 10,
            bufio.MaxScanTokenSize ≤ line.length)
      ∧ (∀ e, ConvertToMihomo env subContent filterKeywords = .error e → e = Err.tooLong) := by
  rw [ConvertToMihomo_eq]
  cases hs : bufio.scanLines (decodedContent subContent) with
  | none =>
    have hex := (scanLines_eq_none _).1 hs
    refine ⟨fun _ => rfl, ?_, ⟨fun _ => hex, fun _ => ⟨_, rfl⟩⟩, ?_⟩
    · intro hall
      obtain ⟨line, hmem, hlen⟩ := hex
      exact absurd (hall line hmem) (by omega)
    · intro e he
      cases he
      rfl
  | some lines =>
    have hnot : ¬ ∃ line ∈ strings.Split (decodedContent subContent) 10,
        bufio.MaxScanTokenSize ≤ line.length := fun hex => by
      rw [(scanLines_eq_none _).2 hex] at hs
      cases hs
    refine ⟨?_, fun _ => ⟨_, rfl⟩, ⟨?_, fun hex => absurd hex hnot⟩, ?_⟩
    · intro ⟨line, hmem, hlen⟩
      exact absurd ⟨line, hmem, by omega⟩ hnot
    · intro ⟨e, he⟩
      cases he
    · intro e he
      cases he

theorem decodedContent_hashes (n : Nat) :
    decodedContent (List.replicate (n + 1) (35 : Byte)) = List.replicate (n + 1) (35 : Byte) := by
  apply decodedContent_plain
  have h : base64.decodeFrom base64.encodeStd (List.replicate (n + 1) (35 : Byte)) [] = none :=
    base64.decodeFrom_bad base64.encodeStd 35 (by decide) (by decide) (by decide) (by decide)
      _ (List.mem_replicate.2 ⟨by omega, rfl⟩) []
  simp only [IsBase64, base64.StdEncoding.DecodeString, base64.DecodeString, h]
  rfl

/-- C22 at the text of 65537 characters `#` on one line, which is rejected, and at a text
of four short lines none of which is a proxy line, which gives the empty document. -/
theorem scan_failure_is_fatal_witness :
    (∃ line ∈ strings.Split (decodedContent (List.replicate 65537 (35 : Byte))) 10,
        bufio.MaxScanTokenSize < line.length)
      ∧ (∀ (env : GoEnv) (filterKeywords : List Str),
          ConvertToMihomo env (List.replicate 65537 (35 : Byte)) filterKeywords
            = .error Err.tooLong)
      ∧ (∀ line ∈ strings.Split (decodedContent (lit "hello\r\nvmess://%%%\n\nssr://QQ")) 10,
          line.length < bufio.MaxScanTokenSize)
      ∧ (∀ env : GoEnv, ∃ proxies,
          ConvertToMihomo env (lit "hello\r\nvmess://%%%\n\nssr://QQ") [] = .ok (buildConfig proxies))
      ∧ (∀ env : GoEnv,
          ConvertToMihomo env (lit "hello\r\nvmess://%%%\n\nssr://QQ") [] = .ok (buildConfig [])) := by
  have hlong : ∃ line ∈ strings.Split (decodedContent (List.replicate 65537 (35 : Byte))) 10,
      bufio.MaxScanTokenSize < line.length := by
    rw [decodedContent_hashes 65536,
      strings.Split_no_sep _ 10 (fun h => by cases (List.mem_replicate.1 h).2)]
    exact ⟨_, List.mem_singleton.2 rfl, by rw [List.length_replicate]; decide⟩
  have hshort : ∀ line ∈ strings.Split (decodedContent (lit "hello\r\nvmess://%%%\n\nssr://QQ")) 10,
      line.length < bufio.MaxScanTokenSize := by decide
  exact ⟨hlong,
    fun env filterKeywords =>
      (scan_failure_is_fatal env (List.replicate 65537 (35 : Byte)) filterKeywords).1 hlong,
    hshort,
    fun env => (scan_failure_is_fatal env (lit "hello\r\nvmess://%%%\n\nssr://QQ") []).2.1 hshort,
    fun env => rfl⟩

theorem vmessRecord_alterId (env : GoEnv) (tag : Str) (vmessData : GoMap) :
    (vmessRecord env tag vmessData).get (lit "alterId")
      = some (Value.int (vmessAlterId env vmessData)) := by
  unfold vmessRecord
  simp only []
  rw [vmessNetwork_get _ _ _ _ (by decide) (by decide) (by decide)]
  generalize vmessData.get (lit "sni") = osni
  generalize vmessData.get (lit "tls") = otls
  generalize vmessData.get (lit "scy") = oscy
  cases osni <;> cases oscy <;> rcases otls with _ | (_ | _ | _ | _ | tls | _ | _) <;>
    simp only [] <;> (try split) <;> (try split) <;> rfl

theorem vmessAlterId_eq_spec (env : GoEnv) (vmessData : GoMap)
    (hjson : ∀ i, vmessData.get (lit "aid") ≠ some (Value.int i)) (v : Int)
    (h : vmessAlterIdSpec (vmessData.get (lit "aid")) = some v) :
    vmessAlterId env vmessData = v := by
  unfold vmessAlterId
  unfold vmessAlterIdSpec at h
  generalize vmessData.get (lit "aid") = o at h hjson ⊢
  rcases o with _ | (_ | _ | i | f | _ | _ | _)
  case some.int => exact absurd rfl (hjson i)
  case some.float =>
    simp only [] at h ⊢
    cases ht : f.trunc with
    | none => rw [ht] at h; cases h
    | some t =>
      rw [ht] at h
      simp only [] at h
      by_cases hr : -9223372036854775808 ≤ t ∧ t ≤ 9223372036854775807
      · simp only [hr, and_self, if_true] at h
        cases h
        exact intOfFloat_trunc env f _ ht hr
      · simp only [hr, if_false] at h
        cases h
  all_goals
    cases h
    rfl

theorem vmessAlterId_range (env : GoEnv) (vmessData : GoMap)
    (hjson : ∀ i, vmessData.get (lit "aid") ≠ some (Value.int i)) :
    -9223372036854775808 ≤ vmessAlterId env vmessData
      ∧ vmessAlterId env vmessData ≤ 9223372036854775807 := by
  unfold vmessAlterId
  generalize vmessData.get (lit "aid") = o at hjson ⊢
  rcases o with _ | (_ | _ | i | f | _ | _ | _)
  case some.int => exact absurd rfl (hjson i)
  case some.float => exact intOfFloat_range env f
  all_goals
    simp only []
    omega


/-- C23, the claim at the entry `"aid": 1e30`, a JSON number whose bits as a `float64`
are `0x46293E5939A08CEA` and whose integer value is 1000000000000000019884624838656:
whatever the implementation does, the record's `alterId` is a 64-bit `int` and so is not
that value. -/
theorem vmess_alterId_out_of_range :
    Float64.trunc (Float64.mk 0x46293E5939A08CEA) = some 1000000000000000019884624838656
      ∧ ∀ env : GoEnv,
          env.jsonUnmarshal (lit "\x7b\"add\":\"h\",\"aid\":1e30\x7d")
            = some [(lit "add", Value.str (lit "h")),
                    (lit "aid", Value.float (Float64.mk 0x46293E5939A08CEA))] →
          ∃ alterId,
            parseVmess env (lit "vmess://eyJhZGQiOiJoIiwiYWlkIjoxZTMwfQ==")
              = .ok [(lit "name", Value.str (lit "h:443")),
                     (lit "type", Value.str (lit "vmess")),
                     (lit "server", Value.str (lit "h")),
                     (lit "port", Value.int 443),
                     (lit "uuid", Value.null),
                     (lit "alterId", Value.int alterId),
                     (lit "cipher", Value.str (lit "auto"))]
            ∧ alterId ≤ 9223372036854775807
            ∧ alterId ≠ 1000000000000000019884624838656 := by
  refine ⟨by decide, ?_⟩
  intro env h
  have hd : base64.StdEncoding.DecodeString (splitTag (strings.TrimPrefix
      (lit "vmess://eyJhZGQiOiJoIiwiYWlkIjoxZTMwfQ==") (lit "vmess://"))).2
      = some (lit "\x7b\"add\":\"h\",\"aid\":1e30\x7d") := by decide
  refine ⟨wrapInt64 (env.floatToInt (Float64.mk 0x46293E5939A08CEA)), ?_, ?_, ?_⟩
  · rw [parseVmess_eq]
    simp only [hd, h]
    rfl
  · exact (wrapInt64_range _).2
  · have := (wrapInt64_range (env.floatToInt (Float64.mk 0x46293E5939A08CEA))).2
    omega

/-- C23, amended to what the code does: every record `parseVmess` returns comes from a
body that decodes to a JSON object and carries an integer `alterId`.  For an object as
`json.Unmarshal` produces it, where no entry is a Go `int`, that integer is of the 64-bit
type `int`; it is the number with its fraction discarded when `aid` is a JSON number and
that is within the range of the type, and the default 0 when `aid` is absent, null, a
string (also a string of digits such as `64`) or of another type.  For a JSON number
outside the range it is some value of the type, left to the implementation. -/
theorem vmess_alterId (env : GoEnv) (vmessURL : Str) (proxy : GoMap)
    (h : parseVmess env vmessURL = .ok proxy) :
    ∃ decoded vmessData alterId,
      base64.StdEncoding.DecodeString
          (splitTag (strings.TrimPrefix vmessURL (lit "vmess://"))).2 = some decoded
      ∧ env.jsonUnmarshal decoded = some vmessData
      ∧ proxy.get (lit "alterId") = some (Value.int alterId)
      ∧ ((∀ i, vmessData.get (lit "aid") ≠ some (Value.int i)) →
          (-9223372036854775808 ≤ alterId ∧ alterId ≤ 9223372036854775807)
          ∧ ∀ v, vmessAlterIdSpec (vmessData.get (lit "aid")) = some v → alterId = v) := by
  rw [parseVmess_eq] at h
  cases hd : base64.StdEncoding.DecodeString
      (splitTag (strings.TrimPrefix vmessURL (lit "vmess://"))).2 with
  | none => rw [hd] at h; cases h
  | some decoded =>
    rw [hd] at h
    simp only [] at h
    cases hj : env.jsonUnmarshal decoded with
    | none => rw [hj] at h; cases h
    | some vmessData =>
      rw [hj] at h
      simp only [] at h
      have hp : proxy = vmessRecord env
          (splitTag (strings.TrimPrefix vmessURL (lit "vmess://"))).1 vmessData :=
        (Except.ok.inj h).symm
      subst hp
      exact ⟨decoded, vmessData, vmessAlterId env vmessData, rfl, hj,
        vmessRecord_alterId _ _ _,
        fun hjson => ⟨vmessAlterId_range env vmessData hjson,
          vmessAlterId_eq_spec env vmessData hjson⟩⟩


/-- C23, the amended statement at the body `eyJhZGQiOiJoIiwiYWlkIjoyLjl9`, the base64 of
the JSON text with the entries `"add": "h"` and `"aid": 2.9`, a number whose bits are
`0x4007333333333333`, which gives the `alterId` 2; and at the body
`eyJhZGQiOiJoIiwiYWlkIjoiNjQifQ==`, where the entry is `"aid": "64"`, which gives 0. -/
theorem vmess_alterId_witness :
    ∃ env : GoEnv,
      env.jsonUnmarshal (lit "\x7b\"add\":\"h\",\"aid\":2.9\x7d")
          = some [(lit "add", Value.str (lit "h")),
                  (lit "aid", Value.float (Float64.mk 0x4007333333333333))]
      ∧ Float64.trunc (Float64.mk 0x4007333333333333) = some 2
      ∧ (∃ proxy, parseVmess env (lit "vmess://eyJhZGQiOiJoIiwiYWlkIjoyLjl9") = .ok proxy
          ∧ proxy.get (lit "alterId") = some (Value.int 2))
      ∧ env.jsonUnmarshal (lit "\x7b\"add\":\"h\",\"aid\":\"64\"\x7d")
          = some [(lit "add", Value.str (lit "h")), (lit "aid", Value.str (lit "64"))]
      ∧ ∃ proxy, parseVmess env (lit "vmess://eyJhZGQiOiJoIiwiYWlkIjoiNjQifQ==") = .ok proxy
          ∧ proxy.get (lit "alterId") = some (Value.int 0) := by
  refine ⟨GoEnv.mk
    (fun data =>
      if data = lit "\x7b\"add\":\"h\",\"aid\":2.9\x7d" then
        some [(lit "add", Value.str (lit "h")),
              (lit "aid", Value.float (Float64.mk 0x4007333333333333))]
      else some [(lit "add", Value.str (lit "h")), (lit "aid", Value.str (lit "64"))])
    (fun _ => 0) (fun _ => []) (fun r => r), rfl, by decide, ?_, rfl, ?_⟩
  · refine ⟨_, rfl, ?_⟩
    obtain ⟨decoded, vmessData, alterId, hd, hj, ha, hv⟩ := vmess_alterId
      (GoEnv.mk
        (fun data =>
          if data = lit "\x7b\"add\":\"h\",\"aid\":2.9\x7d" then
            some [(lit "add", Value.str (lit "h")),
                  (lit "aid", Value.float (Float64.mk 0x4007333333333333))]
          else some [(lit "add", Value.str (lit "h")), (lit "aid", Value.str (lit "64"))])
        (fun _ => 0) (fun _ => []) (fun r => r))
      (lit "vmess://eyJhZGQiOiJoIiwiYWlkIjoyLjl9") _ rfl
    have hd2 : base64.StdEncoding.DecodeString (splitTag (strings.TrimPrefix
        (lit "vmess://eyJhZGQiOiJoIiwiYWlkIjoyLjl9") (lit "vmess://"))).2
        = some (lit "\x7b\"add\":\"h\",\"aid\":2.9\x7d") := by decide
    have hdec : decoded = lit "\x7b\"add\":\"h\",\"aid\":2.9\x7d" :=
      Option.some.inj (hd.symm.trans hd2)
    subst hdec
    have hdata : vmessData = [(lit "add", Value.str (lit "h")),
        (lit "aid", Value.float (Float64.mk 0x4007333333333333))] :=
      (Option.some.inj hj).symm
    subst hdata
    have h2 : alterId = 2 := (hv (fun i hi => by cases hi)).2 2 (by decide)
    rw [h2] at ha
    exact ha
  · refine ⟨_, rfl, ?_⟩
    obtain ⟨decoded, vmessData, alterId, hd, hj, ha, hv⟩ := vmess_alterId
      (GoEnv.mk
        (fun data =>
          if data = lit "\x7b\"add\":\"h\",\"aid\":2.9\x7d" then
            some [(lit "add", Value.str (lit "h")),
                  (lit "aid", Value.float (Float64.mk 0x4007333333333333))]
          else some [(lit "add", Value.str (lit "h")), (lit "aid", Value.str (lit "64"))])
        (fun _ => 0) (fun _ => []) (fun r => r))
      (lit "vmess://eyJhZGQiOiJoIiwiYWlkIjoiNjQifQ==") _ rfl
    have hd2 : base64.StdEncoding.DecodeString (splitTag (strings.TrimPrefix
        (lit "vmess://eyJhZGQiOiJoIiwiYWlkIjoiNjQifQ==") (lit "vmess://"))).2
        = some (lit "\x7b\"add\":\"h\",\"aid\":\"64\"\x7d") := by decide
    have hdec : decoded = lit "\x7b\"add\":\"h\",\"aid\":\"64\"\x7d" :=
      Option.some.inj (hd.symm.trans hd2)
    subst hdec
    have hdata : vmessData
        = [(lit "add", Value.str (lit "h")), (lit "aid", Value.str (lit "64"))] :=
      (Option.some.inj hj).symm
    subst hdata
    have h0 : alterId = 0 := (hv (fun i hi => by cases hi)).2 0 (by decide)
    rw [h0] at ha
    exact ha


/-! ## Lengths of base64 texts and the empty keyword -/

theorem base64Length_cons (c : Byte) (s : Str) :
    base64Length (c :: s) = base64Length s + if c ≠ 10 ∧ c ≠ 13 then 1 else 0 := by
  simp only [base64Length, List.countP_cons, decide_eq_true_eq]

namespace base64

theorem base64Length_skipNewlines (s : Str) :
    base64Length (skipNewlines s) = base64Length s := by
  induction s with
  | nil => rfl
  | cons x t ih =>
    simp only [skipNewlines]
    split
    · rename_i hx
      rw [ih, base64Length_cons, if_neg (by rcases hx with h | h <;> simp [h])]
      rfl
    · rfl

theorem base64Length_of_skipNewlines_nil (s : Str) (h : skipNewlines s = []) :
    base64Length s = 0 := by
  rw [← base64Length_skipNewlines, h]
  rfl

/-- A text a padded decoder accepts has, together with the 6-bit values read before it, a
number of characters other than `\r` and `\n` that is a multiple of 4. -/
theorem decodeFrom_length (alphabet : Str) (h10 : decodeMap alphabet 10 = none)
    (h13 : decodeMap alphabet 13 = none) (s : Str) :
    ∀ (acc : List Nat) (out : Str), acc.length < 4 → decodeFrom alphabet s acc = some out →
      (acc.length + base64Length s) % 4 = 0 := by
  induction s with
  | nil =>
    intro acc out _ h
    unfold decodeFrom at h
    split at h
    · rename_i hacc
      rw [hacc]
      rfl
    · cases h
  | cons ch rest ih =>
    intro acc out hacc h
    unfold decodeFrom at h
    split at h
    · rename_i v hv
      have hch : ch ≠ 10 ∧ ch ≠ 13 :=
        ⟨fun e => (by rw [e, h10] at hv; cases hv), fun e => (by rw [e, h13] at hv; cases hv)⟩
      rw [base64Length_cons, if_pos hch]
      split at h
      · rename_i h3
        cases hr : decodeFrom alphabet rest [] with
        | none => rw [hr] at h; cases h
        | some out2 =>
          have := ih [] out2 (by simp) hr
          simp only [List.length_nil] at this
          omega
      · rename_i h3
        have := ih (acc ++ [v]) out (by simp only [List.length_append, List.length_singleton]; omega) h
        simp only [List.length_append, List.length_singleton] at this
        omega
    · split at h
      · rename_i hnl
        rw [base64Length_cons, if_neg (by rcases hnl with e | e <;> simp [e])]
        exact ih acc out hacc h
      · rename_i hnl
        have hch : ch ≠ 10 ∧ ch ≠ 13 := by
          constructor
          · exact fun e => hnl (Or.inl e)
          · exact fun e => hnl (Or.inr e)
        rw [base64Length_cons, if_pos hch]
        unfold decodePadding at h
        split at h
        · cases h
        · split at h
          · split at h
            · cases h
            · rename_i p rest2 hskip
              split at h
              · cases h
              · rename_i hp
                split at h
                · cases h
                · rename_i hrest2
                  have e1 : base64Length rest = base64Length (p :: rest2) := by
                    rw [← hskip, base64Length_skipNewlines]
                  have e2 : base64Length rest2 = 0 :=
                    base64Length_of_skipNewlines_nil rest2 (by simpa using hrest2)
                  have hp2 : p = padChar := by simpa using hp
                  rw [e1, base64Length_cons, e2, hp2, if_pos (by decide)]
                  simp
          · split at h
            · cases h
            · rename_i hrest
              rw [base64Length_of_skipNewlines_nil rest (by simpa using hrest)]
              simp
          · cases h

end base64

theorem DecodeString_length (alphabet : Str) (h10 : base64.decodeMap alphabet 10 = none)
    (h13 : base64.decodeMap alphabet 13 = none) (s : Str) (h : base64Length s % 4 ≠ 0) :
    base64.DecodeString alphabet s = none := by
  cases hd : base64.DecodeString alphabet s with
  | none => rfl
  | some out =>
    have := base64.decodeFrom_length alphabet h10 h13 s [] out (by simp) hd
    simp only [List.length_nil, Nat.zero_add] at this
    exact absurd this h

/-- Both decoding attempts of `parseShadowsocksR` fail on a text whose length without its
trailing `=`, not counting `\r` and `\n`, is not a multiple of 4. -/
theorem decodeUrlThenStd_length (s : Str)
    (h : base64Length (strings.TrimRight s 61) % 4 ≠ 0) : decodeUrlThenStd s = none := by
  unfold decodeUrlThenStd base64.URLEncoding.DecodeString base64.StdEncoding.DecodeString
  rw [DecodeString_length base64.encodeURL (by decide) (by decide) _ h,
    DecodeString_length base64.encodeStd (by decide) (by decide) _ h]

theorem parseShadowsocksR_body_length (ssrURL : Str)
    (h : base64Length (strings.TrimRight (strings.TrimPrefix ssrURL (lit "ssr://")) 61) % 4 ≠ 0) :
    parseShadowsocksR ssrURL = .error Err.corruptInput := by
  unfold parseShadowsocksR
  simp only []
  rw [decodeUrlThenStd_length _ h]

theorem parseShadowsocksR_password_length (ssrURL decoded field : Str)
    (hd : decodeUrlThenStd (strings.TrimPrefix ssrURL (lit "ssr://")) = some decoded)
    (hf : ssrPasswordField decoded = some field)
    (h : base64Length (strings.TrimRight field 61) % 4 ≠ 0) :
    parseShadowsocksR ssrURL = .error Err.corruptInput := by
  unfold parseShadowsocksR
  simp only []
  rw [hd]
  simp only []
  unfold ssrPasswordField at hf
  generalize strings.Split decoded 58 = parts at hf ⊢
  rcases parts with _ | ⟨p0, _ | ⟨p1, _ | ⟨p2, _ | ⟨p3, _ | ⟨p4, _ | ⟨p5, rest⟩⟩⟩⟩⟩⟩
  all_goals first
    | cases hf
    | skip
  simp only [] at hf ⊢
  cases hi : strings.Index p5 (lit "/?") with
  | none =>
    rw [hi] at hf
    cases hf
    simp only []
    rw [decodeUrlThenStd_length _ h]
  | some idx =>
    rw [hi] at hf
    cases hf
    simp only []
    rw [decodeUrlThenStd_length _ h]

namespace base64

theorem encodeChar_ne :
    ∀ v, v < 64 →
      (encodeChar encodeStd v ≠ 61 ∧ encodeChar encodeStd v ≠ 10 ∧ encodeChar encodeStd v ≠ 13)
      ∧ (encodeChar encodeURL v ≠ 61 ∧ encodeChar encodeURL v ≠ 10
          ∧ encodeChar encodeURL v ≠ 13) := by decide

/-- The characters an encoder writes before the padding are neither `=` nor `\r` nor
`\n`, for an alphabet without these three. -/
theorem encodeRaw_ne (alphabet : Str)
    (halpha : ∀ v, v < 64 → encodeChar alphabet v ≠ 61 ∧ encodeChar alphabet v ≠ 10
      ∧ encodeChar alphabet v ≠ 13) (bs : Str) :
    ∀ c ∈ encodeRaw alphabet bs, c ≠ 61 ∧ c ≠ 10 ∧ c ≠ 13 := by
  induction bs using padLen.induct with
  | case1 => simp [encodeRaw]
  | case2 a =>
    obtain ⟨h1, h2, _⟩ := tail_arith1 a
    intro c hc
    simp only [encodeRaw, List.mem_cons, List.mem_singleton, List.not_mem_nil, or_false] at hc
    rcases hc with e | e
    · rw [e]; exact halpha _ h1
    · rw [e]; exact halpha _ h2
  | case3 a b =>
    obtain ⟨h1, h2, h3, _⟩ := tail_arith2 a b
    intro c hc
    simp only [encodeRaw, List.mem_cons, List.mem_singleton, List.not_mem_nil, or_false] at hc
    rcases hc with e | e | e
    · rw [e]; exact halpha _ h1
    · rw [e]; exact halpha _ h2
    · rw [e]; exact halpha _ h3
  | case4 a b c rest ih =>
    obtain ⟨h1, h2, h3, h4, _⟩ := quantum_arith a b c
    intro x hx
    simp only [encodeRaw, List.mem_cons] at hx
    rcases hx with e | e | e | e | e
    · rw [e]; exact halpha _ h1
    · rw [e]; exact halpha _ h2
    · rw [e]; exact halpha _ h3
    · rw [e]; exact halpha _ h4
    · exact ih x e

/-- Without padding the encoding of a text whose length is not a multiple of 3 has a
length that is not a multiple of 4. -/
theorem length_encodeRaw (alphabet : Str) (bs : Str) (h : bs.length % 3 ≠ 0) :
    (encodeRaw alphabet bs).length % 4 ≠ 0 := by
  induction bs using padLen.induct with
  | case1 => simp at h
  | case2 a => simp [encodeRaw]
  | case3 a b => simp [encodeRaw]
  | case4 a b c rest ih =>
    have hrest : rest.length % 3 ≠ 0 := by
      simp only [List.length_cons] at h
      omega
    have := ih hrest
    simp only [encodeRaw, List.length_cons]
    omega

end base64

theorem TrimRight_append_replicate (raw : Str) (c : Byte) (k : Nat) (h : c ∉ raw) :
    strings.TrimRight (raw ++ List.replicate k c) c = raw := by
  unfold strings.TrimRight
  rw [List.reverse_append, List.reverse_replicate]
  have h1 : ∀ (n : Nat) (t : Str),
      (List.replicate n c ++ t).dropWhile (fun b => decide (b = c))
        = t.dropWhile (fun b => decide (b = c)) := by
    intro n t
    induction n with
    | zero => rfl
    | succ n ihn => simp [List.replicate_succ, List.dropWhile_cons, ihn]
  have h2 : raw.reverse.dropWhile (fun b => decide (b = c)) = raw.reverse := by
    cases hr : raw.reverse with
    | nil => rfl
    | cons x t =>
      have hx : x ∈ raw := by
        rw [← List.mem_reverse, hr]
        simp
      have hne : x ≠ c := fun e => h (e ▸ hx)
      simp [List.dropWhile_cons, hne]
  rw [h1, h2, List.reverse_reverse]

/-- The padded encoding of a text whose length is not a multiple of 3, in either alphabet,
has after the removal of its trailing `=` a length that is not a multiple of 4. -/
theorem base64Length_TrimRight_EncodeToString (alphabet : Str)
    (halpha : ∀ v, v < 64 → base64.encodeChar alphabet v ≠ 61
      ∧ base64.encodeChar alphabet v ≠ 10 ∧ base64.encodeChar alphabet v ≠ 13)
    (bs : Str) (h : bs.length % 3 ≠ 0) :
    base64Length (strings.TrimRight (base64.EncodeToString alphabet bs) 61) % 4 ≠ 0 := by
  have hne := base64.encodeRaw_ne alphabet halpha bs
  rw [base64.EncodeToString_eq_raw]
  have hpad : base64.padChar = 61 := rfl
  rw [hpad, TrimRight_append_replicate _ 61 _ (fun hm => (hne _ hm).1 rfl)]
  have hlen : base64Length (base64.encodeRaw alphabet bs) = (base64.encodeRaw alphabet bs).length := by
    unfold base64Length
    rw [List.countP_eq_length]
    intro c hc
    simpa using (hne c hc).2
  rw [hlen]
  exact base64.length_encodeRaw alphabet bs h

/-- C24: `parseShadowsocksR` returns an error for every input whose body, the text after
`ssr://`, has once its trailing `=` are removed a length, not counting `\r` and `\n`, that
is not a multiple of 4: both decoders it tries are padded ones.  The same holds for the
password field of a body that decodes.  In particular the error is returned for the
padded encoding, in the standard or the URL-safe alphabet, of every text whose length is
not a multiple of 3. -/
theorem ssr_stripped_padding :
    (∀ ssrURL : Str,
        base64Length (strings.TrimRight (strings.TrimPrefix ssrURL (lit "ssr://")) 61) % 4 ≠ 0 →
        parseShadowsocksR ssrURL = .error Err.corruptInput)
      ∧ (∀ ssrURL decoded field : Str,
          decodeUrlThenStd (strings.TrimPrefix ssrURL (lit "ssr://")) = some decoded →
          ssrPasswordField decoded = some field →
          base64Length (strings.TrimRight field 61) % 4 ≠ 0 →
          parseShadowsocksR ssrURL = .error Err.corruptInput)
      ∧ (∀ alphabet bs : Str, alphabet = base64.encodeStd ∨ alphabet = base64.encodeURL →
          bs.length % 3 ≠ 0 →
          base64Length (strings.TrimRight (base64.EncodeToString alphabet bs) 61) % 4 ≠ 0
            ∧ parseShadowsocksR (lit "ssr://" ++ base64.EncodeToString alphabet bs)
                = .error Err.corruptInput) := by
  refine ⟨parseShadowsocksR_body_length, parseShadowsocksR_password_length, ?_⟩
  intro alphabet bs halphabet hbs
  have halpha : ∀ v, v < 64 → base64.encodeChar alphabet v ≠ 61
      ∧ base64.encodeChar alphabet v ≠ 10 ∧ base64.encodeChar alphabet v ≠ 13 := by
    intro v hv
    rcases halphabet with e | e
    · rw [e]; exact (base64.encodeChar_ne v hv).1
    · rw [e]; exact (base64.encodeChar_ne v hv).2
  have hlen := base64Length_TrimRight_EncodeToString alphabet halpha bs hbs
  refine ⟨hlen, parseShadowsocksR_body_length _ ?_⟩
  rw [strings.TrimPrefix_append]
  exact hlen

/-- C24 at the body `ZXhhbXBsZS5jb206ODM4ODpvcmlnaW46YWVzLTI1Ni1jZmI6cGxhaW46Y0hjPQ==`,
the encoding of the 46 bytes `example.com:8388:origin:aes-256-cfb:plain:cHc=`, which has
62 characters without its padding; and at the body `YWI6MTpvOm06cDpjSGM9`, which decodes
to `ab:1:o:m:p:cHc=`, where the password field `cHc=` has 3 characters without its
padding. -/
theorem ssr_stripped_padding_witness :
    base64Length (strings.TrimRight (strings.TrimPrefix
        (lit "ssr://ZXhhbXBsZS5jb206ODM4ODpvcmlnaW46YWVzLTI1Ni1jZmI6cGxhaW46Y0hjPQ==")
        (lit "ssr://")) 61) = 62
      ∧ parseShadowsocksR
          (lit "ssr://ZXhhbXBsZS5jb206ODM4ODpvcmlnaW46YWVzLTI1Ni1jZmI6cGxhaW46Y0hjPQ==")
          = .error Err.corruptInput
      ∧ decodeUrlThenStd (strings.TrimPrefix (lit "ssr://YWI6MTpvOm06cDpjSGM9") (lit "ssr://"))
          = some (lit "ab:1:o:m:p:cHc=")
      ∧ ssrPasswordField (lit "ab:1:o:m:p:cHc=") = some (lit "cHc=")
      ∧ base64Length (strings.TrimRight (lit "cHc=") 61) = 3
      ∧ parseShadowsocksR (lit "ssr://YWI6MTpvOm06cDpjSGM9") = .error Err.corruptInput
      ∧ base64.EncodeToString base64.encodeURL (lit "ab:1:o:m:p:cHc")
          = lit "YWI6MTpvOm06cDpjSGM="
      ∧ parseShadowsocksR (lit "ssr://" ++ base64.EncodeToString base64.encodeURL
          (lit "ab:1:o:m:p:cHc")) = .error Err.corruptInput :=
  ⟨by decide,
   ssr_stripped_padding.1
    (lit "ssr://ZXhhbXBsZS5jb206ODM4ODpvcmlnaW46YWVzLTI1Ni1jZmI6cGxhaW46Y0hjPQ==") (by decide),
   by decide, by decide, by decide,
   ssr_stripped_padding.2.1 (lit "ssr://YWI6MTpvOm06cDpjSGM9") (lit "ab:1:o:m:p:cHc=")
    (lit "cHc=") (by decide) (by decide) (by decide),
   by decide,
   (ssr_stripped_padding.2.2 base64.encodeURL (lit "ab:1:o:m:p:cHc") (Or.inr rfl)
    (by decide)).2⟩

namespace strings

theorem Contains_nil (s : Str) : Contains s [] = true := by
  cases s <;> rfl

theorem ToLower_nil (lowerRune : Nat → Nat) : ToLower lowerRune [] = [] := rfl

end strings

/-- A keyword list that holds the empty string passes every record with a string name. -/
theorem shouldInclude_empty_keyword (env : GoEnv) (filterKeywords : List Str) (proxy : GoMap)
    (hk : ([] : Str) ∈ filterKeywords)
    (h : ∃ n, proxy.get (lit "name") = some (Value.str n)) :
    shouldInclude env filterKeywords proxy = true := by
  obtain ⟨n, hn⟩ := h
  have hpos : 0 < filterKeywords.length := List.length_pos_of_mem hk
  unfold shouldInclude
  rw [if_pos hpos, hn]
  simp only []
  rw [List.any_eq_true]
  exact ⟨[], hk, by rw [strings.ToLower_nil, strings.Contains_nil]⟩

/-- C25: if the keyword list passed to `ConvertToMihomo` contains the empty string, the
result is the one obtained with no keywords at all, whatever the other keywords are:
every parsed record is retained.  The handler builds such a list from the form filter
`Japan,`, which it splits into `Japan` and the empty string. -/
theorem empty_keyword_retains_all (env : GoEnv) (subContent : Str) (filterKeywords : List Str)
    (h : ([] : Str) ∈ filterKeywords) :
    ConvertToMihomo env subContent filterKeywords = ConvertToMihomo env subContent []
      ∧ formFilter (lit "Japan,") = [lit "Japan", []] := by
  refine ⟨?_, by decide⟩
  rw [ConvertToMihomo_eq, ConvertToMihomo_eq]
  cases bufio.scanLines (decodedContent subContent) with
  | none => rfl
  | some lines =>
    simp only [foldl_convertLine, List.nil_append]
    congr 2
    apply List.filter_congr
    intro proxy hmem
    obtain ⟨text, -, htext⟩ := List.mem_filterMap.1 hmem
    obtain ⟨line, hline⟩ := lineRecord_some env text proxy htext
    rw [shouldInclude_empty_keyword env filterKeywords proxy h
      (ParseProxy_name env line proxy hline), shouldInclude_nil]

/-- C25 at the form filter `Japan,` and a subscription of two lines, neither of which has
`japan` in its name: both records are kept, as without a filter. -/
theorem empty_keyword_retains_all_witness :
    ([] : Str) ∈ formFilter (lit "Japan,")
      ∧ (∀ env : GoEnv,
          convertRequest env (lit "trojan://pw@h:1#US\nss://aes-256-gcm:pw@example.com:8388#DE")
              (formFilter (lit "Japan,"))
            = convertRequest env
                (lit "trojan://pw@h:1#US\nss://aes-256-gcm:pw@example.com:8388#DE") [])
      ∧ (∀ env : GoEnv,
          (ConvertToMihomo env
              (lit "trojan://pw@h:1#US\nss://aes-256-gcm:pw@example.com:8388#DE")
              (formFilter (lit "Japan,"))).map autoMembers
            = .ok [Value.str (lit "US"), Value.str (lit "DE")]) :=
  ⟨by decide,
   fun env =>
    (empty_keyword_retains_all env
      (lit "trojan://pw@h:1#US\nss://aes-256-gcm:pw@example.com:8388#DE")
      (formFilter (lit "Japan,")) (by decide)).1,
   fun env => by
    rw [(empty_keyword_retains_all env
      (lit "trojan://pw@h:1#US\nss://aes-256-gcm:pw@example.com:8388#DE")
      (formFilter (lit "Japan,")) (by decide)).1]
    rfl⟩

end Sub2Mihomo
